import Mathlib

/-!
Sonar decoding core of gpu_sonar_simulation (src/Sonar.cpp).

A shallow embedding of the functions of `Sonar.cpp` and theorems about them.

Conventions of the embedding.

* The functions are first embedded over a linearly ordered field `K` with a
  floor function, which idealises `float` and `double` as exact numbers (`ℚ`
  for evaluation, `ℝ` for the trigonometric statements).
* The code whose behaviour is decided by rounding is embedded a second time
  over `ℚ` with the roundings of the C++ types written out (`toFloat`,
  `toDouble`: IEEE 754 round to nearest, ties to even, unbounded exponent, each
  operation rounded separately): the bin index (`bin_idx_float`), the sigmoid
  (`sigmoid_float`), the two loops of the decoder (`convertShader_float`) and
  the edge columns (`beamEdge_double`).
* The library functions `tan` and `tanh` are arguments of the definitions that
  call them, so that every definition is computable; statements instantiate
  them with `Real.tan`, `Real.tanh`, or quantify over the library functions
  that agree with these in sign, or to a stated accuracy.
* `Sonar.hpp` is not among the sources: the counts `bin_count`, `beam_count`
  are natural numbers, `beam_cols` is a list of integers, angles are their
  radian value.
* An out-of-range vector access and a failed OpenCV range assertion make the
  result `none`.
-/

/-- The reading record `base::samples::Sonar` with the fields `Sonar.cpp`
assigns. `Time` stands for `base::Time`. -/
structure base.samples.Sonar (K Time : Type) where
  time : Time
  bin_duration : Time
  beam_width : K
  beam_height : K
  speed_of_sound : K
  bin_count : Nat
  beam_count : Nat
  bins : List K

namespace gpu_sonar_simulation

variable {K Time : Type} [LinearOrderedField K]

/-- C `round` followed by the conversion to `int`: the nearest integer, a
halfway case going away from zero. -/
def cround [FloorRing K] (x : K) : Int :=
  if 0 ≤ x then ⌊x + 1 / 2⌋ else ⌈x - 1 / 2⌉

/-- Conversion of a floating value to `int`: truncation toward zero. -/
def ctrunc [FloorRing K] (x : K) : Int :=
  if 0 ≤ x then ⌊x⌋ else ⌈x⌉

/-- A continuous three-channel `float` matrix (`cv::Mat`): `ptr k` is the
value `ptr<float>()[k]`, pixel `i` (row-major) occupying offsets `3i..3i+2`. -/
structure Mat (K : Type) where
  rows : Nat
  cols : Nat
  ptr : Nat → K

/-- The call `cv_image.colRange(startcol, endcol).clone()`: OpenCV asserts
`0 <= startcol <= endcol <= cols`; the clone is continuous, with the same rows
and `endcol - startcol` columns. -/
def Mat.colRange (m : Mat K) (startcol endcol : Int) : Option (Mat K) :=
  if 0 ≤ startcol ∧ startcol ≤ endcol ∧ endcol ≤ (m.cols : Int) then
    let w := (endcol - startcol).toNat
    some { rows := m.rows, cols := w,
           ptr := fun k =>
             m.ptr ((k / 3 / w * m.cols + startcol.toNat + k / 3 % w) * 3 + k % 3) }
  else none

/-- The members of class `Sonar` that `Sonar.cpp` reads and writes. -/
structure Sonar (K Time : Type) where
  bin_count : Nat
  beam_count : Nat
  beam_width : K
  beam_height : K
  speed_of_sound : K
  beam_cols : List Int
  last_sonar : base.samples.Sonar K Time

/-- `Sonar::sigmoid` (Sonar.cpp 96-100); `tanh` is the library function. -/
def sigmoid (tanh : K → K) (x : K) : K :=
  let beta : K := 18
  let x0 : K := 0.666666667
  let t := (x - x0) * beta
  0.5 * tanh (0.5 * t) + 0.5

/-- `Sonar::getSamplingInterval` (Sonar.cpp 102-105). -/
def Sonar.getSamplingInterval (s : Sonar K Time) (range : K) : K :=
  let travel_time := range * 2 / s.speed_of_sound
  travel_time / (s.bin_count : K)

/-- `Sonar::simulateSonar` (Sonar.cpp 43-56). `now` is the value of
`base::Time::now()` and `fromSeconds` is `base::Time::fromSeconds`. Returns the
sensor after the call and the reading. -/
def Sonar.simulateSonar (fromSeconds : K → Time) (now : Time) (s : Sonar K Time)
    (bins : List K) (range : K) : Sonar K Time × base.samples.Sonar K Time :=
  let sonar : base.samples.Sonar K Time :=
    { time := now
      bin_duration := fromSeconds (s.getSamplingInterval range / 2)
      beam_width := s.beam_width
      beam_height := s.beam_height
      speed_of_sound := s.speed_of_sound
      bin_count := s.bin_count
      beam_count := s.beam_count
      bins := bins }
  ({ s with last_sonar := sonar }, sonar)

/-- The bin index of pixel `i` in `convertShader`:
`int bin_idx = ptr[i * 3 + 1] * (bin_count - 1)`. -/
def bin_idx [FloorRing K] (bin_count : Nat) (cv_image : Mat K) (i : Nat) : Int :=
  ctrunc (cv_image.ptr (i * 3 + 1) * ((bin_count - 1 : Nat) : K))

/-- First loop of `convertShader` (Sonar.cpp 62-65) over the pixel indices
still to visit: `bins_depth[bin_idx]++`. -/
def depthHistogram [FloorRing K] (bin_count : Nat) (cv_image : Mat K) :
    List Nat → List Int → Option (List Int)
  | [], bins_depth => some bins_depth
  | i :: rest, bins_depth =>
    let idx := bin_idx bin_count cv_image i
    if 0 ≤ idx ∧ idx.toNat < bins_depth.length then
      depthHistogram bin_count cv_image rest
        (bins_depth.set idx.toNat (bins_depth.getD idx.toNat 0 + 1))
    else none

/-- Second loop of `convertShader` (Sonar.cpp 69-73) over the pixel indices
still to visit: `bins[bin_idx] += (1.0 / bins_depth[bin_idx]) * sigmoid(ptr[i * 3])`. -/
def accumulateIntensity [FloorRing K] (tanh : K → K) (bin_count : Nat) (cv_image : Mat K)
    (bins_depth : List Int) : List Nat → List K → Option (List K)
  | [], bins => some bins
  | i :: rest, bins =>
    let idx := bin_idx bin_count cv_image i
    if 0 ≤ idx ∧ idx.toNat < bins_depth.length ∧ idx.toNat < bins.length then
      let intensity := (1 / ((bins_depth.getD idx.toNat 0 : Int) : K)) *
        sigmoid tanh (cv_image.ptr (i * 3))
      accumulateIntensity tanh bin_count cv_image bins_depth rest
        (bins.set idx.toNat (bins.getD idx.toNat 0 + intensity))
    else none

/-- `Sonar::convertShader` (Sonar.cpp 58-74): the value of `bins` on return. -/
def Sonar.convertShader [FloorRing K] (tanh : K → K) (s : Sonar K Time) (cv_image : Mat K) :
    Option (List K) :=
  let pixels := List.range (cv_image.cols * cv_image.rows)
  match depthHistogram s.bin_count cv_image pixels (List.replicate s.bin_count 0) with
  | none => none
  | some bins_depth =>
    accumulateIntensity tanh s.bin_count cv_image bins_depth pixels (List.replicate s.bin_count 0)

/-- `Sonar::applySpeckleNoise` (Sonar.cpp 76-94); `dist i` is the value of the
`i`-th call `dist(engine)` on the freshly seeded engine. -/
def applySpeckleNoise (dist : Nat → K) (bins : List K) : List K :=
  let min_value : K := 0.03
  List.zipWith (fun v d => (if v < min_value then min_value else v) * |d|) bins
    ((List.range bins.length).map dist)

/-- `std::vector::resize(n)`: keeps the first `n` values, pads with zeros. -/
def resize (bins : List K) (n : Nat) : List K :=
  bins.take n ++ List.replicate (n - bins.length) 0

/-- `memcpy(&dst[off], &src[0], n * sizeof(float))`, defined when both ranges
lie inside their vectors. -/
def memcpy (dst : List K) (off : Nat) (src : List K) (n : Nat) : Option (List K) :=
  if off + n ≤ dst.length ∧ n ≤ src.length then
    some (dst.take off ++ src.take n ++ dst.drop (off + n))
  else none

/-- The column map built by `decodeShader` (Sonar.cpp 17-29) for an image of
`cols` columns; `tan` is the library function. -/
def beamColumns [FloorRing K] (tan : K → K) (beam_width : K) (beam_count cols : Nat) :
    List Int :=
  let beam_size := beam_width / (beam_count : K)
  let half_fovx := beam_width / 2
  let half_width := (cols : K) / 2
  let angle2x := half_width / tan half_fovx
  (List.range beam_count).flatMap (fun beam_idx =>
    let min_col := cround (half_width + tan (-half_fovx + (beam_idx : K) * beam_size) * angle2x)
    let max_col :=
      cround (half_width + tan (-half_fovx + ((beam_idx + 1 : Nat) : K) * beam_size) * angle2x)
    [min_col, max_col])

/-- The cache check of `decodeShader` (Sonar.cpp 15-30): the sensor with
`beam_cols` recalculated when a count differs from `last_sonar`. -/
def Sonar.updateBeamCols [FloorRing K] (tan : K → K) (s : Sonar K Time) (cv_image : Mat K) :
    Sonar K Time :=
  if s.last_sonar.bin_count ≠ s.bin_count ∨ s.last_sonar.beam_count ≠ s.beam_count then
    { s with beam_cols := beamColumns tan s.beam_width s.beam_count cv_image.cols }
  else s

/-- One iteration of the beam loop of `decodeShader` (Sonar.cpp 34-38). -/
def Sonar.decodeBeam [FloorRing K] (tanh : K → K) (dist : Nat → Nat → K) (s : Sonar K Time)
    (cv_image : Mat K) (enable_noise : Bool) (bins : List K) (beam_idx : Nat) :
    Option (List K) :=
  match s.beam_cols[beam_idx * 2]?, s.beam_cols[beam_idx * 2 + 1]? with
  | some startcol, some endcol =>
    match cv_image.colRange startcol endcol with
    | none => none
    | some cv_roi =>
      match s.convertShader tanh cv_roi with
      | none => none
      | some raw_intensity =>
        let raw_intensity :=
          if enable_noise then applySpeckleNoise (dist beam_idx) raw_intensity else raw_intensity
        memcpy bins (s.bin_count * beam_idx) raw_intensity s.bin_count
  | _, _ => none

/-- The beam loop of `decodeShader` (Sonar.cpp 33-39) over the beams still to
decode. -/
def Sonar.decodeBeams [FloorRing K] (tanh : K → K) (dist : Nat → Nat → K) (s : Sonar K Time)
    (cv_image : Mat K) (enable_noise : Bool) : List Nat → List K → Option (List K)
  | [], bins => some bins
  | beam_idx :: rest, bins =>
    match s.decodeBeam tanh dist cv_image enable_noise bins beam_idx with
    | none => none
    | some bins => Sonar.decodeBeams tanh dist s cv_image enable_noise rest bins

/-- `Sonar::decodeShader` (Sonar.cpp 12-40): the sensor after the call (its
`beam_cols` are written before the beam loop) and the value of `bins` when the
loop completes. `dist b i` is the `i`-th noise sample drawn for beam `b`. -/
def Sonar.decodeShader [FloorRing K] (tan tanh : K → K) (dist : Nat → Nat → K)
    (s : Sonar K Time) (cv_image : Mat K) (bins : List K) (enable_noise : Bool) :
    Sonar K Time × Option (List K) :=
  let bins := resize bins (s.beam_count * s.bin_count)
  let s := s.updateBeamCols tan cv_image
  (s, s.decodeBeams tanh dist cv_image enable_noise (List.range s.beam_count) bins)

/-- `Sonar::applyAdditionalGain` (Sonar.cpp 107-111): `std::transform` with
`multiplies` bound to `gain_factor`, then `std::replace_if` of every value
greater than `1.0` by `1.0`. -/
def applyAdditionalGain (bins : List K) (gain : K) : List K :=
  let gain_factor := 2 * gain
  let bins := bins.map (fun v => gain_factor * v)
  bins.map (fun v => if v > 1 then 1 else v)

/-- The column of the `k`-th angular edge, the `k`-th of `beam_count + 1`
boundaries between beams: the expression of Sonar.cpp 25-26. -/
def beamEdge [FloorRing K] (tan : K → K) (beam_width : K) (beam_count cols : Nat) (k : Nat) :
    Int :=
  cround ((cols : K) / 2 +
    tan (-(beam_width / 2) + (k : K) * (beam_width / (beam_count : K))) *
      ((cols : K) / 2 / tan (beam_width / 2)))

/-- A reading with three bins and two beams. -/
def sampleReading : base.samples.Sonar ℚ Nat :=
  { time := 0, bin_duration := 0, beam_width := 1, beam_height := 1, speed_of_sound := 1500,
    bin_count := 3, beam_count := 2, bins := [] }

/-- A sensor with three bins and two beams whose cached reading has the same
counts and whose column map splits four columns in two halves. -/
def sampleSonar : Sonar ℚ Nat :=
  { bin_count := 3, beam_count := 2, beam_width := 1, beam_height := 1, speed_of_sound := 1500,
    beam_cols := [0, 2, 2, 4], last_sonar := sampleReading }

/-- An image of two rows and four columns, every channel value in `[0, 3/4]`. -/
def sampleImage : Mat ℚ :=
  { rows := 2, cols := 4, ptr := fun k => ((k % 4 : Nat) : ℚ) / 4 }

/-- A cached reading of two bins and one beam over the reals. -/
def staleReading : base.samples.Sonar ℝ Nat :=
  { time := 0, bin_duration := 0, beam_width := 1, beam_height := 1, speed_of_sound := 1500,
    bin_count := 2, beam_count := 1, bins := [] }

/-- A sensor set to one bin and one beam over a field of view of one radian
whose cached reading, `staleReading`, still has two bins. -/
def reconfiguredSonar : Sonar ℝ Nat :=
  { bin_count := 1, beam_count := 1, beam_width := 1, beam_height := 1, speed_of_sound := 1500,
    beam_cols := [], last_sonar := staleReading }

/-- An image of one row and `cols` columns, every channel value `0`. -/
def blankImage (cols : Nat) : Mat ℝ :=
  { rows := 1, cols := cols, ptr := fun _ => 0 }

/-- An image of one pixel whose channels are all `1`. -/
def saturatedPixel : Mat ℚ :=
  { rows := 1, cols := 1, ptr := fun _ => 1 }

/-- Rounding of a rational to the nearest integer, a tie going to the even
integer. -/
def roundHalfEven (q : ℚ) : Int :=
  if q - (⌊q⌋ : ℚ) < 1 / 2 then ⌊q⌋
  else if 1 / 2 < q - (⌊q⌋ : ℚ) then ⌊q⌋ + 1
  else if ⌊q⌋ % 2 = 0 then ⌊q⌋ else ⌊q⌋ + 1

/-- The exponent of the unit in the last place of `x` in a binary format that
stores `frac` significand bits after the leading one. -/
def ulpExponent (frac : Nat) (x : ℚ) : Int :=
  Int.log 2 |x| - (frac : Int)

/-- IEEE 754 rounding to nearest, ties to even, to a binary format that stores
`frac` significand bits; the exponent range is not bounded (no overflow, no
subnormal numbers). -/
def roundToFormat (frac : Nat) (x : ℚ) : ℚ :=
  (roundHalfEven (x / (2 : ℚ) ^ ulpExponent frac x) : ℚ) * (2 : ℚ) ^ ulpExponent frac x

/-- Rounding to `float` (binary32: 23 stored significand bits). -/
def toFloat (x : ℚ) : ℚ :=
  roundToFormat 23 x

/-- Rounding to `double` (binary64: 52 stored significand bits). -/
def toDouble (x : ℚ) : ℚ :=
  roundToFormat 52 x

/-- The bin index of pixel `i` (Sonar.cpp 63 and 70) with the roundings of the
C++ types: `bin_count - 1` is converted to `float`, the product with the
`float` pixel value is a `float`, and the conversion to `int` truncates. -/
def bin_idx_float (bin_count : Nat) (cv_image : Mat ℚ) (i : Nat) : Int :=
  ctrunc (toFloat (cv_image.ptr (i * 3 + 1) * toFloat ((bin_count - 1 : Nat) : ℚ)))

/-- `Sonar::sigmoid` (Sonar.cpp 96-100) with the roundings of the C++ types:
`beta`, `x0` and `t` are `float`, the return expression is evaluated in
`double` and converted to `float`; `tanh` is the library function on `double`. -/
def sigmoid_float (tanh : ℚ → ℚ) (x : ℚ) : ℚ :=
  let beta : ℚ := toFloat 18
  let x0 : ℚ := toFloat (toDouble 0.666666667)
  let t : ℚ := toFloat (toFloat (x - x0) * beta)
  toFloat (toDouble (toDouble (0.5 * tanh (toDouble (0.5 * t))) + 0.5))

/-- The column of the `k`-th angular edge (Sonar.cpp 18-26) in `double`
arithmetic: each operation rounds to `double`, `tan` is the library function
on `double`, and `round` with the conversion to `int` is `cround`. -/
def beamEdge_double (tan : ℚ → ℚ) (beam_width : ℚ) (beam_count cols k : Nat) : Int :=
  let beam_size := toDouble (beam_width / toDouble (beam_count : ℚ))
  let half_fovx := toDouble (beam_width / 2)
  let half_width := toDouble (toDouble (cols : ℚ) / 2)
  let angle2x := toDouble (half_width / tan half_fovx)
  cround (toDouble (half_width +
    toDouble (tan (toDouble (-half_fovx + toDouble (toDouble (k : ℚ) * beam_size))) * angle2x)))

/-- The column map built by `decodeShader` (Sonar.cpp 17-29) in `double`
arithmetic. -/
def beamColumns_double (tan : ℚ → ℚ) (beam_width : ℚ) (beam_count cols : Nat) : List Int :=
  (List.range beam_count).flatMap (fun beam_idx =>
    [beamEdge_double tan beam_width beam_count cols beam_idx,
     beamEdge_double tan beam_width beam_count cols (beam_idx + 1)])

/-- The largest `double` below the `double` nearest to pi:
`3.1415926535897927`, about `5.7e-16` below pi. -/
def widthBelowPi : ℚ :=
  7074237752028439 / 2251799813685248

/-- First loop of `convertShader` (Sonar.cpp 62-65) with the `float` bin index:
`bins_depth[bin_idx]++`. -/
def depthHistogram_float (bin_count : Nat) (cv_image : Mat ℚ) :
    List Nat → List Int → Option (List Int)
  | [], bins_depth => some bins_depth
  | i :: rest, bins_depth =>
    let idx := bin_idx_float bin_count cv_image i
    if 0 ≤ idx ∧ idx.toNat < bins_depth.length then
      depthHistogram_float bin_count cv_image rest
        (bins_depth.set idx.toNat (bins_depth.getD idx.toNat 0 + 1))
    else none

/-- The local `intensity` of the second loop (Sonar.cpp 71) with the roundings
of the C++ types: the count is converted to `double`, the quotient
`1.0 / bins_depth[bin_idx]` and its product with the `float` sigmoid are
`double`, and the initialisation of the `float` rounds once more. -/
def intensity_float (tanh : ℚ → ℚ) (depth : Int) (x : ℚ) : ℚ :=
  toFloat (toDouble (toDouble (1 / toDouble (depth : ℚ)) * sigmoid_float tanh x))

/-- Second loop of `convertShader` (Sonar.cpp 69-73) with the roundings of the
C++ types: `bins[bin_idx] += intensity` is one `float` addition. -/
def accumulateIntensity_float (tanh : ℚ → ℚ) (bin_count : Nat) (cv_image : Mat ℚ)
    (bins_depth : List Int) : List Nat → List ℚ → Option (List ℚ)
  | [], bins => some bins
  | i :: rest, bins =>
    let idx := bin_idx_float bin_count cv_image i
    if 0 ≤ idx ∧ idx.toNat < bins_depth.length ∧ idx.toNat < bins.length then
      let intensity := intensity_float tanh (bins_depth.getD idx.toNat 0) (cv_image.ptr (i * 3))
      accumulateIntensity_float tanh bin_count cv_image bins_depth rest
        (bins.set idx.toNat (toFloat (bins.getD idx.toNat 0 + intensity)))
    else none

/-- `Sonar::convertShader` (Sonar.cpp 58-74) with the roundings of the C++
types: the value of `bins` on return. -/
def Sonar.convertShader_float (tanh : ℚ → ℚ) (s : Sonar ℚ Time) (cv_image : Mat ℚ) :
    Option (List ℚ) :=
  let pixels := List.range (cv_image.cols * cv_image.rows)
  match depthHistogram_float s.bin_count cv_image pixels (List.replicate s.bin_count 0) with
  | none => none
  | some bins_depth =>
    accumulateIntensity_float tanh s.bin_count cv_image bins_depth pixels
      (List.replicate s.bin_count 0)

/-- The pixels of the region whose `float` bin index is `b` (in visiting
order). -/
def binPixels_float (bin_count : Nat) (cv_image : Mat ℚ) (b : Nat) : List Nat :=
  (List.range (cv_image.cols * cv_image.rows)).filter
    (fun i => bin_idx_float bin_count cv_image i = (b : Int))

/-- A sensor with a single bin and a single beam. -/
def oneBinSonar : Sonar ℚ Nat :=
  { bin_count := 1, beam_count := 1, beam_width := 1, beam_height := 1, speed_of_sound := 1500,
    beam_cols := [0, 1],
    last_sonar := { sampleReading with bin_count := 1, beam_count := 1 } }

/-- An image of `168198` pixels whose channels are all `1`. -/
def fullBinImage : Mat ℚ :=
  { rows := 1, cols := 168198, ptr := fun _ => 1 }

/-! ## Gain and clamp -/

/-- The function `applyAdditionalGain` is a map of the clamp of `2 * gain * v`. -/
theorem applyAdditionalGain_eq_map (bins : List K) (gain : K) :
    applyAdditionalGain bins gain =
      bins.map (fun v => if 2 * gain * v ≤ 1 then 2 * gain * v else 1) := by
  unfold applyAdditionalGain
  simp only [List.map_map]
  apply List.map_congr_left
  intro v _
  simp only [Function.comp_apply, gt_iff_lt]
  by_cases h : 2 * gain * v ≤ 1
  · rw [if_neg (not_lt.mpr h), if_pos h]
  · rw [if_pos (not_le.mp h), if_neg h]

/-- C1. `applyAdditionalGain` keeps the length, replaces each value `v` by
`2 * gain * v` when that is at most `1` and by exactly `1` otherwise, so that
no output exceeds `1`; the bins `[0.1, 0.6, 0.9]` with gain `1.0` become
`[0.2, 1.0, 1.0]`. -/
theorem applyAdditionalGain_spec (bins : List K) (gain : K) :
    (applyAdditionalGain bins gain).length = bins.length ∧
    (∀ i : Nat, (applyAdditionalGain bins gain)[i]? =
      bins[i]?.map (fun v => if 2 * gain * v ≤ 1 then 2 * gain * v else 1)) ∧
    (∀ v ∈ applyAdditionalGain bins gain, v ≤ 1) ∧
    applyAdditionalGain ([0.1, 0.6, 0.9] : List ℚ) 1.0 = [0.2, 1.0, 1.0] := by
  refine ⟨?_, ?_, ?_, ?_⟩
  · rw [applyAdditionalGain_eq_map, List.length_map]
  · intro i
    rw [applyAdditionalGain_eq_map, List.getElem?_map]
  · intro v hv
    rw [applyAdditionalGain_eq_map, List.mem_map] at hv
    obtain ⟨w, _, rfl⟩ := hv
    split_ifs with h
    · exact h
    · exact le_refl 1
  · rw [applyAdditionalGain_eq_map]
    norm_num

/-- C1 at the bins `[3/10, 4/5]` with gain `1`: the outputs are `3/5` and `1`. -/
theorem applyAdditionalGain_spec_witness :
    (applyAdditionalGain ([3 / 10, 4 / 5] : List ℚ) 1).length = 2 ∧
    (3 / 5 : ℚ) ≤ 1 := by
  have h := applyAdditionalGain_spec ([3 / 10, 4 / 5] : List ℚ) 1
  refine ⟨h.1, h.2.2.1 (3 / 5) ?_⟩
  rw [applyAdditionalGain_eq_map]
  norm_num

/-! ## Bin index and the histogram decoder -/

/-- Truncation of a value between `0` and a natural number `n` lies between
`0` and `n`. -/
theorem ctrunc_mem_range [FloorRing K] (x : K) (n : Nat) (h0 : 0 ≤ x) (h1 : x ≤ (n : K)) :
    0 ≤ ctrunc x ∧ ctrunc x ≤ (n : Int) := by
  unfold ctrunc
  rw [if_pos h0]
  refine ⟨Int.floor_nonneg.mpr h0, ?_⟩
  have h : (⌊x⌋ : K) ≤ ((n : Int) : K) := by
    rw [Int.cast_natCast]
    exact le_trans (Int.floor_le x) h1
  exact Int.cast_le.mp h

/-- Reading a list after one of its cells is rewritten. -/
theorem getD_set_eq {α : Type} (l : List α) (k b : Nat) (v d : α) (hk : k < l.length) :
    (l.set k v).getD b d = if b = k then v else l.getD b d := by
  simp only [List.getD_eq_getElem?_getD, List.getElem?_set]
  by_cases h : b = k
  · subst h
    simp [hk]
  · have h2 : ¬ k = b := fun e => h e.symm
    simp [h, h2]

/-- Every channel value of `sampleImage` lies in `[0, 1]`. -/
theorem sampleImage_unit (k : Nat) : 0 ≤ sampleImage.ptr k ∧ sampleImage.ptr k ≤ 1 := by
  have h : ((k % 4 : Nat) : ℚ) ≤ 4 := by
    have h4 : k % 4 < 4 := Nat.mod_lt k (by norm_num)
    exact_mod_cast h4.le
  have h0 : (0 : ℚ) ≤ ((k % 4 : Nat) : ℚ) := Nat.cast_nonneg _
  constructor
  · exact div_nonneg h0 (by norm_num)
  · exact (div_le_one (by norm_num)).mpr h

/-- C9. For a nonzero speed of sound and `bin_count >= 1`,
`getSamplingInterval(range)` equals `(2 * range / speed_of_sound) / bin_count`;
range `10`, speed of sound `1500` and `100` bins give `1/7500`. -/
theorem getSamplingInterval_eq (s : Sonar K Time) (range : K)
    (_hsos : s.speed_of_sound ≠ 0) (_hbin : 1 ≤ s.bin_count) :
    s.getSamplingInterval range = (2 * range / s.speed_of_sound) / (s.bin_count : K) ∧
    ({ sampleSonar with speed_of_sound := 1500, bin_count := 100 } :
      Sonar ℚ Nat).getSamplingInterval 10 = 1 / 7500 := by
  constructor
  · simp only [Sonar.getSamplingInterval]
    rw [mul_comm range 2]
  · simp only [Sonar.getSamplingInterval]
    norm_num

/-- C9 on `sampleSonar` (speed of sound `1500`, three bins) at range `10`. -/
theorem getSamplingInterval_eq_witness :
    sampleSonar.speed_of_sound ≠ 0 ∧ 1 ≤ sampleSonar.bin_count ∧
    sampleSonar.getSamplingInterval 10 = (2 * 10 / 1500) / 3 := by
  have h1 : sampleSonar.speed_of_sound ≠ 0 := by
    simp only [sampleSonar]
    norm_num
  have h2 : 1 ≤ sampleSonar.bin_count := by decide
  exact ⟨h1, h2, (getSamplingInterval_eq sampleSonar 10 h1 h2).1⟩

/-- C10. The reading returned by `simulateSonar` has `bin_duration` built from
`getSamplingInterval(range) / 2` seconds, carries the sensor's current
`beam_width`, `beam_height`, `speed_of_sound`, `bin_count` and `beam_count` and
the input buffer; afterwards the cached last reading is the returned reading
and the sensor's configuration fields and column map are unchanged. -/
theorem simulateSonar_reading (fromSeconds : K → Time) (now : Time) (s : Sonar K Time)
    (bins : List K) (range : K) :
    (s.simulateSonar fromSeconds now bins range).2.bin_duration =
      fromSeconds (s.getSamplingInterval range / 2) ∧
    (s.simulateSonar fromSeconds now bins range).2.time = now ∧
    (s.simulateSonar fromSeconds now bins range).2.beam_width = s.beam_width ∧
    (s.simulateSonar fromSeconds now bins range).2.beam_height = s.beam_height ∧
    (s.simulateSonar fromSeconds now bins range).2.speed_of_sound = s.speed_of_sound ∧
    (s.simulateSonar fromSeconds now bins range).2.bin_count = s.bin_count ∧
    (s.simulateSonar fromSeconds now bins range).2.beam_count = s.beam_count ∧
    (s.simulateSonar fromSeconds now bins range).2.bins = bins ∧
    (s.simulateSonar fromSeconds now bins range).1.last_sonar =
      (s.simulateSonar fromSeconds now bins range).2 ∧
    (s.simulateSonar fromSeconds now bins range).1.bin_count = s.bin_count ∧
    (s.simulateSonar fromSeconds now bins range).1.beam_count = s.beam_count ∧
    (s.simulateSonar fromSeconds now bins range).1.beam_width = s.beam_width ∧
    (s.simulateSonar fromSeconds now bins range).1.beam_height = s.beam_height ∧
    (s.simulateSonar fromSeconds now bins range).1.speed_of_sound = s.speed_of_sound ∧
    (s.simulateSonar fromSeconds now bins range).1.beam_cols = s.beam_cols := by
  simp only [Sonar.simulateSonar, and_self]

/-! ## The cache of the column map -/

/-- The beam loop does not change the sensor: the sensor returned by
`decodeShader` is the one left by the cache check. -/
theorem decodeShader_fst [FloorRing K] (tan tanh : K → K) (dist : Nat → Nat → K)
    (s : Sonar K Time) (cv_image : Mat K) (bins : List K) (enable_noise : Bool) :
    (s.decodeShader tan tanh dist cv_image bins enable_noise).1 =
      s.updateBeamCols tan cv_image := rfl

/-- Length of a list built two entries at a time. -/
theorem flatMap_pair_length {α : Type} (f g : Nat → α) (n : Nat) :
    ((List.range n).flatMap (fun k => [f k, g k])).length = 2 * n := by
  induction n with
  | zero => rfl
  | succ n ih =>
    rw [List.range_succ, List.flatMap_append, List.length_append, ih]
    simp only [List.flatMap_cons, List.flatMap_nil, List.append_nil, List.length_cons,
      List.length_nil]
    omega

/-- Entries of a list built two entries at a time. -/
theorem flatMap_pair_getElem? {α : Type} (f g : Nat → α) (n i : Nat) (hi : i < n) :
    ((List.range n).flatMap (fun k => [f k, g k]))[i * 2]? = some (f i) ∧
    ((List.range n).flatMap (fun k => [f k, g k]))[i * 2 + 1]? = some (g i) := by
  induction n with
  | zero => omega
  | succ n ih =>
    rw [List.range_succ, List.flatMap_append]
    have hlen := flatMap_pair_length f g n
    by_cases h : i < n
    · rw [List.getElem?_append_left (by omega), List.getElem?_append_left (by omega)]
      exact ih h
    · have hin : i = n := by omega
      subst hin
      rw [List.getElem?_append_right (by omega), List.getElem?_append_right (by omega), hlen]
      have e1 : i * 2 - 2 * i = 0 := by omega
      have e2 : i * 2 + 1 - 2 * i = 1 := by omega
      rw [e1, e2]
      simp

/-- The computed column map lists, beam after beam, the columns of the beam's
two angular edges. -/
theorem beamColumns_eq [FloorRing K] (tan : K → K) (beam_width : K) (beam_count cols : Nat) :
    beamColumns tan beam_width beam_count cols =
      (List.range beam_count).flatMap (fun k =>
        [beamEdge tan beam_width beam_count cols k,
         beamEdge tan beam_width beam_count cols (k + 1)]) := rfl

/-- The number of entries of a computed column map. -/
theorem beamColumns_length [FloorRing K] (tan : K → K) (beam_width : K)
    (beam_count cols : Nat) :
    (beamColumns tan beam_width beam_count cols).length = 2 * beam_count := by
  rw [beamColumns_eq]
  exact flatMap_pair_length _ _ beam_count

/-- The two entries of beam `i` in a computed column map. -/
theorem beamColumns_getElem? [FloorRing K] (tan : K → K) (beam_width : K)
    (beam_count cols i : Nat) (hi : i < beam_count) :
    (beamColumns tan beam_width beam_count cols)[i * 2]? =
      some (beamEdge tan beam_width beam_count cols i) ∧
    (beamColumns tan beam_width beam_count cols)[i * 2 + 1]? =
      some (beamEdge tan beam_width beam_count cols (i + 1)) := by
  rw [beamColumns_eq]
  exact flatMap_pair_getElem? _ _ beam_count i hi

/-- C6. `decodeShader` leaves the column map unchanged, whatever the image
width, when `bin_count` and `beam_count` both equal the counts of the cached
last reading, and otherwise replaces it by the map computed from the current
image width, which has `2 * beam_count` entries. -/
theorem decodeShader_beam_cols_cache [FloorRing K] (tan tanh : K → K) (dist : Nat → Nat → K)
    (s : Sonar K Time) (cv_image : Mat K) (bins : List K) (enable_noise : Bool) :
    ((s.last_sonar.bin_count = s.bin_count ∧ s.last_sonar.beam_count = s.beam_count) →
      (s.decodeShader tan tanh dist cv_image bins enable_noise).1.beam_cols = s.beam_cols) ∧
    ((s.last_sonar.bin_count ≠ s.bin_count ∨ s.last_sonar.beam_count ≠ s.beam_count) →
      (s.decodeShader tan tanh dist cv_image bins enable_noise).1.beam_cols =
        beamColumns tan s.beam_width s.beam_count cv_image.cols ∧
      (s.decodeShader tan tanh dist cv_image bins enable_noise).1.beam_cols.length =
        2 * s.beam_count) := by
  rw [decodeShader_fst]
  constructor
  · intro h
    unfold Sonar.updateBeamCols
    rw [if_neg (by
      intro hne
      rcases hne with hne | hne
      · exact hne h.1
      · exact hne h.2)]
  · intro h
    unfold Sonar.updateBeamCols
    rw [if_pos h]
    exact ⟨rfl, beamColumns_length tan s.beam_width s.beam_count cv_image.cols⟩

/-- C6 on `sampleSonar`, whose cached reading has the sensor's counts: the
column map is kept; with a fourth bin it is recomputed, with four entries. -/
theorem decodeShader_beam_cols_cache_witness :
    (sampleSonar.decodeShader (fun x => x) (fun x => x) (fun _ _ => 1) sampleImage []
      false).1.beam_cols = [0, 2, 2, 4] ∧
    (({ sampleSonar with bin_count := 4 } : Sonar ℚ Nat).decodeShader (fun x => x)
      (fun x => x) (fun _ _ => 1) sampleImage [] false).1.beam_cols.length = 2 * 2 :=
  ⟨(decodeShader_beam_cols_cache (fun x => x) (fun x => x) (fun _ _ => 1) sampleSonar
      sampleImage [] false).1 ⟨rfl, rfl⟩,
   ((decodeShader_beam_cols_cache (fun x => x) (fun x => x) (fun _ _ => 1)
      ({ sampleSonar with bin_count := 4 } : Sonar ℚ Nat) sampleImage [] false).2
      (Or.inl (by decide))).2⟩

/-! ## The column map over the reals -/

/-- The function `cround` is monotone. -/
theorem cround_mono [FloorRing K] {x y : K} (h : x ≤ y) : cround x ≤ cround y := by
  unfold cround
  by_cases hx : 0 ≤ x
  · rw [if_pos hx, if_pos (le_trans hx h)]
    exact Int.floor_mono (add_le_add_right h _)
  · rw [if_neg hx]
    have hx0 : x - 1 / 2 ≤ ((0 : Int) : K) := by
      rw [Int.cast_zero]
      have : x < 0 := not_le.mp hx
      linarith
    by_cases hy : 0 ≤ y
    · rw [if_pos hy]
      have h1 : ⌈x - 1 / 2⌉ ≤ 0 := Int.ceil_le.mpr hx0
      have h2 : 0 ≤ ⌊y + 1 / 2⌋ := Int.floor_nonneg.mpr (by linarith)
      exact le_trans h1 h2
    · rw [if_neg hy]
      exact Int.ceil_mono (sub_le_sub_right h _)

/-- Rounding a natural number gives that number. -/
theorem cround_natCast [FloorRing K] (n : Nat) : cround (n : K) = (n : Int) := by
  unfold cround
  rw [if_pos (Nat.cast_nonneg n), Int.floor_eq_iff]
  constructor
  · rw [Int.cast_natCast]
    linarith
  · rw [Int.cast_natCast]
    linarith

/-- The angle of the `k`-th edge lies in the field of view. -/
theorem edge_angle_mem (beam_width : ℝ) (beam_count k : Nat) (hk : k ≤ beam_count)
    (h0 : 0 < beam_width) :
    -(beam_width / 2) ≤ -(beam_width / 2) + (k : ℝ) * (beam_width / (beam_count : ℝ)) ∧
    -(beam_width / 2) + (k : ℝ) * (beam_width / (beam_count : ℝ)) ≤ beam_width / 2 := by
  have hk0 : (0 : ℝ) ≤ (k : ℝ) := Nat.cast_nonneg k
  have hq : 0 ≤ beam_width / (beam_count : ℝ) := div_nonneg h0.le (Nat.cast_nonneg _)
  constructor
  · have := mul_nonneg hk0 hq
    linarith
  · by_cases hn : beam_count = 0
    · have hk' : k = 0 := by omega
      subst hk'
      simp only [Nat.cast_zero, zero_mul, add_zero]
      linarith
    · have hnpos : (0 : ℝ) < (beam_count : ℝ) := by
        exact_mod_cast Nat.pos_of_ne_zero hn
      have hkn : (k : ℝ) ≤ (beam_count : ℝ) := by exact_mod_cast hk
      have : (k : ℝ) * (beam_width / (beam_count : ℝ)) ≤ beam_width := by
        rw [mul_div_assoc', div_le_iff₀ hnpos]
        nlinarith
      linarith

/-- The tangent is monotone on the open interval between its poles. -/
theorem tan_le_tan_of_le {x y : ℝ} (hx : -(Real.pi / 2) < x) (hy : y < Real.pi / 2)
    (h : x ≤ y) : Real.tan x ≤ Real.tan y := by
  rcases eq_or_lt_of_le h with e | hlt
  · rw [e]
  · exact (Real.tan_lt_tan_of_lt_of_lt_pi_div_two hx hy hlt).le

/-- Edge columns are non-decreasing in the edge number. -/
theorem beamEdge_mono (beam_width : ℝ) (beam_count cols : Nat) (j k : Nat)
    (hjk : j ≤ k) (hk : k ≤ beam_count) (h0 : 0 < beam_width) (hpi : beam_width < Real.pi) :
    beamEdge Real.tan beam_width beam_count cols j ≤
      beamEdge Real.tan beam_width beam_count cols k := by
  unfold beamEdge
  apply cround_mono
  have hj := edge_angle_mem beam_width beam_count j (le_trans hjk hk) h0
  have hk2 := edge_angle_mem beam_width beam_count k hk h0
  have hhalf : beam_width / 2 < Real.pi / 2 := by linarith
  have htan : 0 < Real.tan (beam_width / 2) :=
    Real.tan_pos_of_pos_of_lt_pi_div_two (by linarith) hhalf
  have hq : 0 ≤ beam_width / (beam_count : ℝ) := div_nonneg h0.le (Nat.cast_nonneg _)
  have hjk' : (j : ℝ) ≤ (k : ℝ) := by exact_mod_cast hjk
  have hang : -(beam_width / 2) + (j : ℝ) * (beam_width / (beam_count : ℝ)) ≤
      -(beam_width / 2) + (k : ℝ) * (beam_width / (beam_count : ℝ)) := by
    have := mul_le_mul_of_nonneg_right hjk' hq
    linarith
  have hmono := tan_le_tan_of_le (by linarith [hj.1]) (by linarith [hk2.2]) hang
  have ha : 0 ≤ (cols : ℝ) / 2 / Real.tan (beam_width / 2) :=
    div_nonneg (div_nonneg (Nat.cast_nonneg _) (by norm_num)) htan.le
  have := mul_le_mul_of_nonneg_right hmono ha
  linarith

/-- The first edge is column `0`. -/
theorem beamEdge_zero (beam_width : ℝ) (beam_count cols : Nat)
    (h0 : 0 < beam_width) (hpi : beam_width < Real.pi) :
    beamEdge Real.tan beam_width beam_count cols 0 = 0 := by
  have htan : 0 < Real.tan (beam_width / 2) :=
    Real.tan_pos_of_pos_of_lt_pi_div_two (by linarith) (by linarith)
  unfold beamEdge
  have e : (cols : ℝ) / 2 +
      Real.tan (-(beam_width / 2) + ((0 : Nat) : ℝ) * (beam_width / (beam_count : ℝ))) *
        ((cols : ℝ) / 2 / Real.tan (beam_width / 2)) = ((0 : Nat) : ℝ) := by
    rw [Nat.cast_zero, zero_mul, add_zero, Real.tan_neg]
    field_simp
    ring
  rw [e, cround_natCast]
  rfl

/-- The last edge is column `cols`. -/
theorem beamEdge_last (beam_width : ℝ) (beam_count cols : Nat) (hbeam : 1 ≤ beam_count)
    (h0 : 0 < beam_width) (hpi : beam_width < Real.pi) :
    beamEdge Real.tan beam_width beam_count cols beam_count = (cols : Int) := by
  have htan : 0 < Real.tan (beam_width / 2) :=
    Real.tan_pos_of_pos_of_lt_pi_div_two (by linarith) (by linarith)
  have hn : (beam_count : ℝ) ≠ 0 := by
    have : (0 : ℝ) < (beam_count : ℝ) := by exact_mod_cast hbeam
    exact this.ne'
  unfold beamEdge
  have hang : -(beam_width / 2) + (beam_count : ℝ) * (beam_width / (beam_count : ℝ)) =
      beam_width / 2 := by
    field_simp
    ring
  have e : (cols : ℝ) / 2 +
      Real.tan (-(beam_width / 2) + (beam_count : ℝ) * (beam_width / (beam_count : ℝ))) *
        ((cols : ℝ) / 2 / Real.tan (beam_width / 2)) = (cols : ℝ) := by
    rw [hang]
    field_simp
    ring
  rw [e, cround_natCast]

/-- The column map computed for a single beam is the whole image. -/
theorem beamColumns_single (beam_width : ℝ) (cols : Nat)
    (h0 : 0 < beam_width) (hpi : beam_width < Real.pi) :
    beamColumns Real.tan beam_width 1 cols = [0, (cols : Int)] := by
  rw [beamColumns_eq]
  have e : List.range 1 = [0] := rfl
  rw [e]
  simp only [List.flatMap_cons, List.flatMap_nil, List.append_nil, Nat.zero_add]
  rw [beamEdge_zero beam_width 1 cols h0 hpi, beamEdge_last beam_width 1 cols (le_refl 1) h0 hpi]

/-- The cache check keeps the map when the cached reading has the sensor's
counts. -/
theorem updateBeamCols_hit [FloorRing K] (tan : K → K) (s : Sonar K Time) (cv_image : Mat K)
    (hbin : s.last_sonar.bin_count = s.bin_count)
    (hbeam : s.last_sonar.beam_count = s.beam_count) :
    s.updateBeamCols tan cv_image = s := by
  unfold Sonar.updateBeamCols
  rw [if_neg (by
    intro hne
    rcases hne with hne | hne
    · exact hne hbin
    · exact hne hbeam)]

/-- Counterexample to C7: on `reconfiguredSonar`, whose cached reading has
other counts, two calls of `decodeShader` with the same counts on images two
and four columns wide leave the maps `[0, 2]` and `[0, 4]`. -/
theorem decodeShader_twice_differs :
    ((reconfiguredSonar.decodeShader Real.tan Real.tanh (fun _ _ => 1) (blankImage 2) []
        false).1.bin_count = reconfiguredSonar.bin_count ∧
      (reconfiguredSonar.decodeShader Real.tan Real.tanh (fun _ _ => 1) (blankImage 2) []
        false).1.beam_count = reconfiguredSonar.beam_count) ∧
    (reconfiguredSonar.decodeShader Real.tan Real.tanh (fun _ _ => 1) (blankImage 2) []
      false).1.beam_cols = [0, 2] ∧
    ((reconfiguredSonar.decodeShader Real.tan Real.tanh (fun _ _ => 1) (blankImage 2) []
      false).1.decodeShader Real.tan Real.tanh (fun _ _ => 1) (blankImage 4) []
      false).1.beam_cols = [0, 4] ∧
    ((reconfiguredSonar.decodeShader Real.tan Real.tanh (fun _ _ => 1) (blankImage 2) []
      false).1.decodeShader Real.tan Real.tanh (fun _ _ => 1) (blankImage 4) []
      false).1.beam_cols ≠
    (reconfiguredSonar.decodeShader Real.tan Real.tanh (fun _ _ => 1) (blankImage 2) []
      false).1.beam_cols := by
  have hpi : (1 : ℝ) < Real.pi := by linarith [Real.pi_gt_three]
  have hmiss : reconfiguredSonar.last_sonar.bin_count ≠ reconfiguredSonar.bin_count ∨
      reconfiguredSonar.last_sonar.beam_count ≠ reconfiguredSonar.beam_count :=
    Or.inl (by decide)
  have h1 : reconfiguredSonar.updateBeamCols Real.tan (blankImage 2) =
      { reconfiguredSonar with beam_cols := [0, 2] } := by
    unfold Sonar.updateBeamCols
    rw [if_pos hmiss]
    have := beamColumns_single 1 2 one_pos hpi
    simp only [reconfiguredSonar, blankImage] at this ⊢
    rw [this]
    rfl
  have h2 : ({ reconfiguredSonar with beam_cols := [0, 2] } : Sonar ℝ Nat).updateBeamCols
      Real.tan (blankImage 4) = { reconfiguredSonar with beam_cols := [0, 4] } := by
    unfold Sonar.updateBeamCols
    rw [if_pos hmiss]
    have := beamColumns_single 1 4 one_pos hpi
    simp only [reconfiguredSonar, blankImage] at this ⊢
    rw [this]
    rfl
  have e1 : (reconfiguredSonar.decodeShader Real.tan Real.tanh (fun _ _ => 1) (blankImage 2) []
      false).1 = { reconfiguredSonar with beam_cols := [0, 2] } := by
    rw [decodeShader_fst]
    exact h1
  have e2 : (({ reconfiguredSonar with beam_cols := [0, 2] } : Sonar ℝ Nat).decodeShader
      Real.tan Real.tanh (fun _ _ => 1) (blankImage 4) [] false).1 =
      { reconfiguredSonar with beam_cols := [0, 4] } := by
    rw [decodeShader_fst]
    exact h2
  rw [e1, e2]
  exact ⟨⟨rfl, rfl⟩, rfl, rfl, by decide⟩

/-- C7, amended. Two calls of `decodeShader` with identical counts on images
of any widths leave the same column map provided the cached last reading holds
the sensor's counts, and they do so in particular when `simulateSonar` is
called between them. -/
theorem decodeShader_cache_stable [FloorRing K] (tan tanh : K → K) (dist : Nat → Nat → K)
    (fromSeconds : K → Time) (now : Time) (s : Sonar K Time) (image1 image2 : Mat K)
    (bins1 bins2 bins : List K) (noise1 noise2 : Bool) (range : K) :
    ((s.last_sonar.bin_count = s.bin_count ∧ s.last_sonar.beam_count = s.beam_count) →
      ((s.decodeShader tan tanh dist image1 bins1 noise1).1.decodeShader tan tanh dist image2
        bins2 noise2).1.beam_cols =
      (s.decodeShader tan tanh dist image1 bins1 noise1).1.beam_cols) ∧
    ((((s.decodeShader tan tanh dist image1 bins1 noise1).1.simulateSonar fromSeconds now bins
        range).1.decodeShader tan tanh dist image2 bins2 noise2).1.beam_cols =
      (s.decodeShader tan tanh dist image1 bins1 noise1).1.beam_cols) := by
  simp only [decodeShader_fst]
  constructor
  · intro h
    rw [updateBeamCols_hit tan s image1 h.1 h.2, updateBeamCols_hit tan s image2 h.1 h.2]
  · rw [updateBeamCols_hit tan _ image2 rfl rfl]
    rfl

/-- C7, amended, on `sampleSonar` with images four and two columns wide. -/
theorem decodeShader_cache_stable_witness :
    (sampleSonar.last_sonar.bin_count = sampleSonar.bin_count ∧
      sampleSonar.last_sonar.beam_count = sampleSonar.beam_count) ∧
    ((sampleSonar.decodeShader (fun x => x) (fun x => x) (fun _ _ => 1) sampleImage []
        false).1.decodeShader (fun x => x) (fun x => x) (fun _ _ => 1)
        { sampleImage with cols := 2 } [] false).1.beam_cols =
      (sampleSonar.decodeShader (fun x => x) (fun x => x) (fun _ _ => 1) sampleImage []
        false).1.beam_cols :=
  ⟨⟨rfl, rfl⟩,
   (decodeShader_cache_stable (fun x => x) (fun x => x) (fun _ _ => 1) (fun _ => 0) 0
      sampleSonar sampleImage { sampleImage with cols := 2 } [] [] [] false false 10).1
      ⟨rfl, rfl⟩⟩

/-! ## Beam-major layout of the decoded buffer -/

/-- The length of a resized vector. -/
theorem resize_length (bins : List K) (n : Nat) : (resize bins n).length = n := by
  unfold resize
  rw [List.length_append, List.length_take, List.length_replicate]
  omega

/-- The vector left by `memcpy`: the copied values inside the target range,
the old values outside it. -/
theorem memcpy_getElem? {K : Type} (dst src out : List K) (off n : Nat)
    (h : memcpy dst off src n = some out) :
    out.length = dst.length ∧
    ∀ k : Nat, out[k]? =
      if k < off then dst[k]? else if k < off + n then src[k - off]? else dst[k]? := by
  unfold memcpy at h
  split_ifs at h with hr
  have e : dst.take off ++ src.take n ++ dst.drop (off + n) = out := Option.some.inj h
  subst e
  have hl1 : (dst.take off).length = off := by
    rw [List.length_take]
    omega
  have hl2 : (src.take n).length = n := by
    rw [List.length_take]
    omega
  constructor
  · rw [List.length_append, List.length_append, hl1, hl2, List.length_drop]
    omega
  · intro k
    by_cases h1 : k < off
    · rw [if_pos h1, List.append_assoc, List.getElem?_append_left (by omega),
        List.getElem?_take, if_pos h1]
    · rw [if_neg h1, List.append_assoc, List.getElem?_append_right (by omega), hl1]
      by_cases h2 : k < off + n
      · rw [if_pos h2, List.getElem?_append_left (by omega), List.getElem?_take,
          if_pos (by omega)]
      · rw [if_neg h2, List.getElem?_append_right (by omega), hl2, List.getElem?_drop]
        congr 1
        omega

/-- An iteration of the beam loop keeps the length of the buffer. -/
theorem decodeBeam_length [FloorRing K] (tanh : K → K) (dist : Nat → Nat → K)
    (s : Sonar K Time) (cv_image : Mat K) (enable_noise : Bool) (bins out : List K)
    (beam_idx : Nat)
    (h : s.decodeBeam tanh dist cv_image enable_noise bins beam_idx = some out) :
    out.length = bins.length := by
  unfold Sonar.decodeBeam at h
  cases ha : s.beam_cols[beam_idx * 2]? with
  | none =>
    rw [ha] at h
    exact absurd h (by simp)
  | some a =>
    cases hb : s.beam_cols[beam_idx * 2 + 1]? with
    | none =>
      rw [ha, hb] at h
      exact absurd h (by simp)
    | some b =>
      rw [ha, hb] at h
      simp only at h
      cases hroi : cv_image.colRange a b with
      | none =>
        rw [hroi] at h
        exact absurd h (by simp)
      | some roi =>
        rw [hroi] at h
        simp only at h
        cases hraw : s.convertShader tanh roi with
        | none =>
          rw [hraw] at h
          exact absurd h (by simp)
        | some raw =>
          rw [hraw] at h
          exact (memcpy_getElem? bins _ out _ _ h).1

/-- The beam loop keeps the length of the buffer. -/
theorem decodeBeams_length [FloorRing K] (tanh : K → K) (dist : Nat → Nat → K)
    (s : Sonar K Time) (cv_image : Mat K) (enable_noise : Bool) (beams : List Nat) :
    ∀ bins out : List K,
    s.decodeBeams tanh dist cv_image enable_noise beams bins = some out →
    out.length = bins.length := by
  induction beams with
  | nil =>
    intro bins out h
    have e : bins = out := Option.some.inj h
    rw [e]
  | cons b rest ih =>
    intro bins out h
    simp only [Sonar.decodeBeams] at h
    cases hmid : s.decodeBeam tanh dist cv_image enable_noise bins b with
    | none =>
      rw [hmid] at h
      exact absurd h (by simp)
    | some mid =>
      rw [hmid] at h
      rw [ih mid out h, decodeBeam_length tanh dist s cv_image enable_noise bins mid b hmid]

/-- A buffer returned by `decodeShader` has `beam_count * bin_count` values. -/
theorem decodeShader_length [FloorRing K] (tan tanh : K → K) (dist : Nat → Nat → K)
    (s : Sonar K Time) (cv_image : Mat K) (bins0 out : List K) (enable_noise : Bool)
    (h : (s.decodeShader tan tanh dist cv_image bins0 enable_noise).2 = some out) :
    out.length = s.beam_count * s.bin_count := by
  unfold Sonar.decodeShader at h
  rw [decodeBeams_length tanh dist _ cv_image enable_noise _ _ out h, resize_length]

/-- Counterexample to C11: `sampleSonar` has two beams and three bins, and on
the empty input buffer the reading returned by `simulateSonar` has a buffer of
length `0`, not `6`. -/
theorem simulateSonar_bins_length_differs :
    (1 ≤ sampleSonar.beam_count ∧ 1 ≤ sampleSonar.bin_count) ∧
    (sampleSonar.simulateSonar (fun _ => 0) 0 [] 10).2.bins.length = 0 ∧
    (sampleSonar.simulateSonar (fun _ => 0) 0 [] 10).2.bins.length ≠
      sampleSonar.beam_count * sampleSonar.bin_count := by
  refine ⟨⟨by decide, by decide⟩, rfl, ?_⟩
  decide

/-- C11, amended. The bin buffer of the reading returned by `simulateSonar`
has the length of the input buffer; it is `beam_count * bin_count` when the
input buffer has that length, as has every buffer returned by `decodeShader`
under the same configuration. -/
theorem simulateSonar_bins_length [FloorRing K] (fromSeconds : K → Time) (now : Time)
    (s : Sonar K Time) (bins : List K) (range : K) :
    (s.simulateSonar fromSeconds now bins range).2.bins.length = bins.length ∧
    (bins.length = s.beam_count * s.bin_count →
      (s.simulateSonar fromSeconds now bins range).2.bins.length =
        s.beam_count * s.bin_count) ∧
    (∀ (tan tanh : K → K) (dist : Nat → Nat → K) (cv_image : Mat K) (bins0 : List K)
      (enable_noise : Bool),
      (s.decodeShader tan tanh dist cv_image bins0 enable_noise).2 = some bins →
      (((s.decodeShader tan tanh dist cv_image bins0 enable_noise).1.simulateSonar fromSeconds
        now bins range).2.bins.length = s.beam_count * s.bin_count)) := by
  refine ⟨rfl, fun h => h, ?_⟩
  intro tan tanh dist cv_image bins0 enable_noise h
  exact decodeShader_length tan tanh dist s cv_image bins0 bins enable_noise h

/-- C11, amended, on `sampleSonar` with a buffer of six values. -/
theorem simulateSonar_bins_length_witness :
    ([0, 0, 0, 0, 0, 0] : List ℚ).length = sampleSonar.beam_count * sampleSonar.bin_count ∧
    (sampleSonar.simulateSonar (fun _ => 0) 0 [0, 0, 0, 0, 0, 0] 10).2.bins.length =
      sampleSonar.beam_count * sampleSonar.bin_count :=
  ⟨rfl, (simulateSonar_bins_length (fun _ => 0) 0 sampleSonar [0, 0, 0, 0, 0, 0] 10).2.1 rfl⟩

/-! ## Speckle noise -/

/-- C13. With the draws given by the sequence `dist`, `applySpeckleNoise`
keeps the length of the bin vector and replaces each value `v_i` by
`max(v_i, 0.03) * |dist i|`; the multiplied value is at least `0.03` and every
output is non-negative. -/
theorem applySpeckleNoise_spec (dist : Nat → K) (bins : List K) :
    (applySpeckleNoise dist bins).length = bins.length ∧
    (∀ i : Nat, (applySpeckleNoise dist bins)[i]? =
      bins[i]?.map (fun v => max v 0.03 * |dist i|)) ∧
    (∀ v : K, (0.03 : K) ≤ max v 0.03) ∧
    (∀ v ∈ applySpeckleNoise dist bins, 0 ≤ v) := by
  have hget : ∀ i : Nat, (applySpeckleNoise dist bins)[i]? =
      bins[i]?.map (fun v => max v 0.03 * |dist i|) := by
    intro i
    unfold applySpeckleNoise
    simp only [List.getElem?_zipWith, List.getElem?_map, List.getElem?_range]
    by_cases hi : i < bins.length
    · rw [List.getElem?_eq_getElem hi, List.getElem?_eq_getElem (by simpa using hi)]
      simp only [List.getElem_range, Option.map_some']
      by_cases hv : bins[i] < 0.03
      · rw [if_pos hv, max_eq_right hv.le]
      · rw [if_neg hv, max_eq_left (not_lt.mp hv)]
    · rw [List.getElem?_eq_none (not_lt.mp hi)]
      rfl
  have hfloor : (0 : K) ≤ 0.03 := by norm_num
  refine ⟨?_, hget, fun v => le_max_right v 0.03, ?_⟩
  · unfold applySpeckleNoise
    simp
  · intro v hv
    obtain ⟨i, hi, hiv⟩ := List.getElem_of_mem hv
    have h := hget i
    rw [List.getElem?_eq_getElem hi, hiv] at h
    cases hb : bins[i]? with
    | none =>
      rw [hb] at h
      exact absurd h (by simp)
    | some w =>
      rw [hb] at h
      have e : v = max w 0.03 * |dist i| := Option.some.inj h
      rw [e]
      exact mul_nonneg (le_trans hfloor (le_max_right w 0.03)) (abs_nonneg _)

/-- C13 on the bins `[1/100, 1/2]` with the samples `-1, -1, ...`: the first
value is raised to `0.03`, and both outputs are non-negative. -/
theorem applySpeckleNoise_spec_witness :
    (applySpeckleNoise (fun _ => (-1 : ℚ)) [1 / 100, 1 / 2]).length = 2 ∧
    (0 : ℚ) ≤ 1 / 2 := by
  have h := applySpeckleNoise_spec (fun _ => (-1 : ℚ)) [1 / 100, 1 / 2]
  refine ⟨h.1, h.2.2.2 (1 / 2) ?_⟩
  unfold applySpeckleNoise
  norm_num [List.range, List.range.loop]

/-! ## Re-applying the gain -/

/-- C14. `applyAdditionalGain` is idempotent when re-applied with gain `0.5`:
twice with gain `0.5` gives the same list as once with gain `0.5`. -/
theorem applyAdditionalGain_half_idempotent (bins : List K) :
    applyAdditionalGain (applyAdditionalGain bins 0.5) 0.5 = applyAdditionalGain bins 0.5 := by
  have h2 : (2 : K) * 0.5 = 1 := by norm_num
  simp only [applyAdditionalGain_eq_map, List.map_map, h2, one_mul]
  apply List.map_congr_left
  intro v _
  simp only [Function.comp_apply]
  by_cases h : v ≤ 1
  · rw [if_pos h, if_pos h]
  · rw [if_neg h, if_pos (le_refl 1)]

/-- C15. `applyAdditionalGain` is not idempotent in general: for a gain above
`0.5` and a bin list containing a value `v` with `0 < 2 * gain * v < 1`,
applying it twice gives a list different from applying it once; `[0.1]` with
gain `1.0` gives `[0.2]` once and `[0.4]` twice. -/
theorem applyAdditionalGain_not_idempotent (bins : List K) (gain v : K)
    (hgain : 0.5 < gain) (hv : v ∈ bins) (hpos : 0 < 2 * gain * v) (hlt : 2 * gain * v < 1) :
    applyAdditionalGain (applyAdditionalGain bins gain) gain ≠ applyAdditionalGain bins gain ∧
    applyAdditionalGain ([0.1] : List ℚ) 1.0 = [0.2] ∧
    applyAdditionalGain (applyAdditionalGain ([0.1] : List ℚ) 1.0) 1.0 = [0.4] := by
  refine ⟨?_, ?_, ?_⟩
  · intro heq
    simp only [applyAdditionalGain_eq_map, List.map_map] at heq
    have h := (List.map_inj_left.mp heq) v hv
    simp only [Function.comp_apply] at h
    rw [if_pos hlt.le] at h
    have h2g : 1 < 2 * gain := by
      have : (2 : K) * 0.5 = 1 := by norm_num
      linarith
    have hgrow : 2 * gain * v < 2 * gain * (2 * gain * v) := by
      have := mul_lt_mul_of_pos_right h2g hpos
      linarith
    by_cases hc : 2 * gain * (2 * gain * v) ≤ 1
    · rw [if_pos hc] at h
      linarith
    · rw [if_neg hc] at h
      linarith
  · rw [applyAdditionalGain_eq_map]
    norm_num
  · simp only [applyAdditionalGain_eq_map]
    norm_num

/-- C15 on the bins `[1/10]` with gain `1`. -/
theorem applyAdditionalGain_not_idempotent_witness :
    ((0.5 : ℚ) < 1 ∧ (1 / 10 : ℚ) ∈ [(1 / 10 : ℚ)] ∧ (0 : ℚ) < 2 * 1 * (1 / 10) ∧
      (2 : ℚ) * 1 * (1 / 10) < 1) ∧
    applyAdditionalGain (applyAdditionalGain ([1 / 10] : List ℚ) 1) 1 ≠
      applyAdditionalGain ([1 / 10] : List ℚ) 1 :=
  ⟨⟨by norm_num, List.mem_singleton.mpr rfl, by norm_num, by norm_num⟩,
   (applyAdditionalGain_not_idempotent ([1 / 10] : List ℚ) 1 (1 / 10) (by norm_num)
     (List.mem_singleton.mpr rfl) (by norm_num) (by norm_num)).1⟩

/-! ## The sigmoid over the reals -/

/-- The hyperbolic tangent through the exponential. -/
theorem tanh_eq_exp (x : ℝ) : Real.tanh x = 1 - 2 / (Real.exp (2 * x) + 1) := by
  have hpos : 0 < Real.exp x := Real.exp_pos x
  have h2 : Real.exp (2 * x) = Real.exp x * Real.exp x := by
    rw [two_mul, Real.exp_add]
  rw [Real.tanh_eq_sinh_div_cosh, Real.sinh_eq, Real.cosh_eq, Real.exp_neg, h2]
  field_simp
  ring

/-- The hyperbolic tangent lies strictly between `-1` and `1`. -/
theorem tanh_mem_Ioo (x : ℝ) : -1 < Real.tanh x ∧ Real.tanh x < 1 := by
  have hpos : 0 < Real.exp (2 * x) := Real.exp_pos _
  have hden : 0 < Real.exp (2 * x) + 1 := by linarith
  rw [tanh_eq_exp]
  constructor
  · have : 2 / (Real.exp (2 * x) + 1) < 2 := by
      rw [div_lt_iff₀ hden]
      linarith
    linarith
  · have : 0 < 2 / (Real.exp (2 * x) + 1) := div_pos (by norm_num) hden
    linarith

/-- The hyperbolic tangent is strictly increasing. -/
theorem tanh_lt_tanh_of_lt {x y : ℝ} (h : x < y) : Real.tanh x < Real.tanh y := by
  have hx : 0 < Real.exp (2 * x) + 1 := by linarith [Real.exp_pos (2 * x)]
  have hexp : Real.exp (2 * x) < Real.exp (2 * y) := Real.exp_lt_exp.mpr (by linarith)
  rw [tanh_eq_exp, tanh_eq_exp]
  have : 2 / (Real.exp (2 * y) + 1) < 2 / (Real.exp (2 * x) + 1) :=
    div_lt_div_of_pos_left (by norm_num) hx (by linarith)
  linarith

/-- The sigmoid with the real hyperbolic tangent lies strictly between `0`
and `1` at every real argument. -/
theorem sigmoid_mem_Ioo (x : ℝ) : 0 < sigmoid Real.tanh x ∧ sigmoid Real.tanh x < 1 := by
  unfold sigmoid
  obtain ⟨h1, h2⟩ := tanh_mem_Ioo (0.5 * ((x - 0.666666667) * 18))
  constructor
  · norm_num
    linarith
  · norm_num
    linarith

/-- C12. For every `x` in `[0, 1]`, `sigmoid(x)`, that is
`0.5 * tanh(0.5 * 18 * (x - 0.666666667)) + 0.5`, lies strictly between `0`
and `1`. -/
theorem sigmoid_bounds (x : ℝ) (_h0 : 0 ≤ x) (_h1 : x ≤ 1) :
    sigmoid Real.tanh x = 0.5 * Real.tanh (0.5 * 18 * (x - 0.666666667)) + 0.5 ∧
    0 < sigmoid Real.tanh x ∧ sigmoid Real.tanh x < 1 := by
  refine ⟨?_, sigmoid_mem_Ioo x⟩
  unfold sigmoid
  have e : (0.5 : ℝ) * ((x - 0.666666667) * 18) = 0.5 * 18 * (x - 0.666666667) := by ring
  simp only [e]

/-- C12 at `x = 1/2`. -/
theorem sigmoid_bounds_witness :
    ((0 : ℝ) ≤ 1 / 2 ∧ (1 / 2 : ℝ) ≤ 1) ∧
    0 < sigmoid Real.tanh (1 / 2) ∧ sigmoid Real.tanh (1 / 2) < 1 :=
  ⟨⟨by norm_num, by norm_num⟩, (sigmoid_bounds (1 / 2) (by norm_num) (by norm_num)).2⟩

/-! ## The boundary cases of the histogram -/

/-- An integer rounds to itself. -/
theorem roundHalfEven_intCast (z : Int) : roundHalfEven (z : ℚ) = z := by
  unfold roundHalfEven
  rw [Int.floor_intCast, sub_self, if_pos (by norm_num)]

/-- A rational within less than one half of an integer rounds to it. -/
theorem roundHalfEven_eq_of_abs_sub_lt (q : ℚ) (z : Int) (h : |q - (z : ℚ)| < 1 / 2) :
    roundHalfEven q = z := by
  have h1 := (abs_lt.mp h).1
  have h2 := (abs_lt.mp h).2
  unfold roundHalfEven
  by_cases hz : (z : ℚ) ≤ q
  · have hf : ⌊q⌋ = z := by
      rw [Int.floor_eq_iff]
      exact ⟨hz, by linarith⟩
    rw [hf, if_pos (by linarith)]
  · have hf : ⌊q⌋ = z - 1 := by
      rw [Int.floor_eq_iff]
      push_cast
      exact ⟨by linarith, by linarith⟩
    rw [hf]
    push_cast
    rw [if_neg (by linarith), if_pos (by linarith)]
    ring

/-- The rounded value lies between the floor and the floor plus one. -/
theorem roundHalfEven_mem (q : ℚ) : ⌊q⌋ ≤ roundHalfEven q ∧ roundHalfEven q ≤ ⌊q⌋ + 1 := by
  unfold roundHalfEven
  split_ifs <;> constructor <;> omega

/-- Rounding to the nearest integer is monotone. -/
theorem roundHalfEven_mono {q r : ℚ} (h : q ≤ r) : roundHalfEven q ≤ roundHalfEven r := by
  have hfl : ⌊q⌋ ≤ ⌊r⌋ := Int.floor_mono h
  rcases lt_or_eq_of_le hfl with hlt | heq
  · exact le_trans (roundHalfEven_mem q).2 (le_trans (by omega) (roundHalfEven_mem r).1)
  · unfold roundHalfEven
    rw [← heq]
    by_cases h1 : q - (⌊q⌋ : ℚ) < 1 / 2
    · rw [if_pos h1]
      split_ifs <;> omega
    · rw [if_neg h1]
      have h1r : ¬ r - (⌊q⌋ : ℚ) < 1 / 2 := by
        intro hc
        exact h1 (by linarith)
      rw [if_neg h1r]
      by_cases h2 : 1 / 2 < q - (⌊q⌋ : ℚ)
      · rw [if_pos h2, if_pos (by linarith)]
      · rw [if_neg h2]
        split_ifs <;> omega

/-- The binade of a nonzero rational. -/
theorem zpow_log_le_abs (x : ℚ) (hx : x ≠ 0) :
    (2 : ℚ) ^ Int.log 2 |x| ≤ |x| ∧ |x| < (2 : ℚ) ^ (Int.log 2 |x| + 1) := by
  have hpos : 0 < |x| := abs_pos.mpr hx
  have h1 := Int.zpow_log_le_self (b := 2) (by norm_num) hpos
  have h2 := Int.lt_zpow_succ_log_self (b := 2) (by norm_num) |x|
  exact ⟨by exact_mod_cast h1, by exact_mod_cast h2⟩

/-- The binade determines the logarithm. -/
theorem log_eq_of_binade (x : ℚ) (e : Int) (h1 : (2 : ℚ) ^ e ≤ |x|)
    (h2 : |x| < (2 : ℚ) ^ (e + 1)) : Int.log 2 |x| = e := by
  have hpos : 0 < |x| := lt_of_lt_of_le (zpow_pos (by norm_num) e) h1
  have a1 : e ≤ Int.log 2 |x| :=
    (Int.zpow_le_iff_le_log (b := 2) (by norm_num) hpos).mp (by exact_mod_cast h1)
  have a2 : Int.log 2 |x| < e + 1 :=
    (Int.lt_zpow_iff_log_lt (b := 2) (by norm_num) hpos).mp (by exact_mod_cast h2)
  omega

/-- Rounding in a known binade. -/
theorem roundToFormat_of_binade (frac : Nat) (x : ℚ) (e : Int) (h1 : (2 : ℚ) ^ e ≤ |x|)
    (h2 : |x| < (2 : ℚ) ^ (e + 1)) :
    roundToFormat frac x =
      (roundHalfEven (x / (2 : ℚ) ^ (e - (frac : Int))) : ℚ) * (2 : ℚ) ^ (e - (frac : Int)) := by
  unfold roundToFormat ulpExponent
  rw [log_eq_of_binade x e h1 h2]

/-- Zero rounds to zero. -/
theorem roundToFormat_zero (frac : Nat) : roundToFormat frac 0 = 0 := by
  unfold roundToFormat
  rw [zero_div]
  have h := roundHalfEven_intCast 0
  rw [Int.cast_zero] at h
  rw [h, Int.cast_zero, zero_mul]

/-- A number `m * 2 ^ k` with `|m| < 2 ^ (frac + 1)` is representable: it
rounds to itself. -/
theorem roundToFormat_of_representable (frac : Nat) (m k : Int)
    (hm : |m| < 2 ^ (frac + 1)) :
    roundToFormat frac ((m : ℚ) * (2 : ℚ) ^ k) = (m : ℚ) * (2 : ℚ) ^ k := by
  by_cases hm0 : m = 0
  · rw [hm0, Int.cast_zero, zero_mul, roundToFormat_zero]
  have h2k : (0 : ℚ) < (2 : ℚ) ^ k := zpow_pos (by norm_num) k
  have hx : (m : ℚ) * (2 : ℚ) ^ k ≠ 0 := mul_ne_zero (Int.cast_ne_zero.mpr hm0) h2k.ne'
  obtain ⟨hb1, _⟩ := zpow_log_le_abs _ hx
  have habs : |(m : ℚ) * (2 : ℚ) ^ k| < (2 : ℚ) ^ ((frac : Int) + 1 + k) := by
    rw [abs_mul, abs_of_pos h2k, zpow_add₀ (by norm_num : (2 : ℚ) ≠ 0)]
    apply mul_lt_mul_of_pos_right _ h2k
    have : ((|m| : Int) : ℚ) < ((2 ^ (frac + 1) : Int) : ℚ) := Int.cast_lt.mpr hm
    rw [Int.cast_abs] at this
    rw [show ((frac : Int) + 1) = ((frac + 1 : Nat) : Int) by push_cast; ring, zpow_natCast]
    exact_mod_cast this
  have hlog : Int.log 2 |(m : ℚ) * (2 : ℚ) ^ k| < (frac : Int) + 1 + k :=
    (zpow_lt_zpow_iff_right₀ (by norm_num : (1 : ℚ) < 2)).mp (lt_of_le_of_lt hb1 habs)
  unfold roundToFormat ulpExponent
  obtain ⟨d, hd⟩ : ∃ d : Nat, k - (Int.log 2 |(m : ℚ) * (2 : ℚ) ^ k| - (frac : Int)) = d :=
    ⟨(k - (Int.log 2 |(m : ℚ) * (2 : ℚ) ^ k| - (frac : Int))).toNat,
      (Int.toNat_of_nonneg (by omega)).symm⟩
  have hq : (m : ℚ) * (2 : ℚ) ^ k / (2 : ℚ) ^ (Int.log 2 |(m : ℚ) * (2 : ℚ) ^ k| - (frac : Int))
      = ((m * 2 ^ d : Int) : ℚ) := by
    rw [mul_div_assoc, ← zpow_sub₀ (by norm_num : (2 : ℚ) ≠ 0), hd, zpow_natCast]
    push_cast
    ring
  rw [hq, roundHalfEven_intCast]
  push_cast
  rw [mul_assoc, ← zpow_natCast, ← hd, ← zpow_add₀ (by norm_num : (2 : ℚ) ≠ 0)]
  congr 2
  ring

/-- An integer of magnitude below `2 ^ (frac + 1)` is representable. -/
theorem roundToFormat_intCast (frac : Nat) (m : Int) (hm : |m| < 2 ^ (frac + 1)) :
    roundToFormat frac (m : ℚ) = (m : ℚ) := by
  have h := roundToFormat_of_representable frac m 0 hm
  rw [zpow_zero, mul_one] at h
  exact h

/-- The sign of the rounded integer follows the sign of the rational. -/
theorem roundHalfEven_nonneg {q : ℚ} (h : 0 ≤ q) : 0 ≤ roundHalfEven q := by
  have := roundHalfEven_mono h
  rw [show (0 : ℚ) = ((0 : Int) : ℚ) by norm_num, roundHalfEven_intCast] at this
  exact this

/-- The sign of the rounded integer follows the sign of the rational. -/
theorem roundHalfEven_nonpos {q : ℚ} (h : q ≤ 0) : roundHalfEven q ≤ 0 := by
  have := roundHalfEven_mono h
  rw [show (0 : ℚ) = ((0 : Int) : ℚ) by norm_num, roundHalfEven_intCast] at this
  exact this

/-- A non-negative number rounds to a non-negative number. -/
theorem roundToFormat_nonneg (frac : Nat) {x : ℚ} (h : 0 ≤ x) : 0 ≤ roundToFormat frac x := by
  unfold roundToFormat
  have h2 : (0 : ℚ) < (2 : ℚ) ^ ulpExponent frac x := zpow_pos (by norm_num) _
  have hq : 0 ≤ roundHalfEven (x / (2 : ℚ) ^ ulpExponent frac x) :=
    roundHalfEven_nonneg (div_nonneg h h2.le)
  exact mul_nonneg (by exact_mod_cast hq) h2.le

/-- A non-positive number rounds to a non-positive number. -/
theorem roundToFormat_nonpos (frac : Nat) {x : ℚ} (h : x ≤ 0) : roundToFormat frac x ≤ 0 := by
  unfold roundToFormat
  have h2 : (0 : ℚ) < (2 : ℚ) ^ ulpExponent frac x := zpow_pos (by norm_num) _
  have hq : roundHalfEven (x / (2 : ℚ) ^ ulpExponent frac x) ≤ 0 :=
    roundHalfEven_nonpos (div_nonpos_of_nonpos_of_nonneg h h2.le)
  exact mul_nonpos_of_nonpos_of_nonneg (by exact_mod_cast hq) h2.le

/-- The scaling of one binade: `2 ^ frac * 2 ^ (e - frac) = 2 ^ e`. -/
theorem two_pow_mul_zpow (frac : Nat) (e : Int) :
    ((2 ^ frac : Int) : ℚ) * (2 : ℚ) ^ (e - (frac : Int)) = (2 : ℚ) ^ e := by
  push_cast
  rw [← zpow_natCast, ← zpow_add₀ (by norm_num : (2 : ℚ) ≠ 0)]
  congr 1
  ring

/-- The scaling of one binade: `2 ^ (frac + 1) * 2 ^ (e - frac) = 2 ^ (e + 1)`. -/
theorem two_pow_succ_mul_zpow (frac : Nat) (e : Int) :
    ((2 ^ (frac + 1) : Int) : ℚ) * (2 : ℚ) ^ (e - (frac : Int)) = (2 : ℚ) ^ (e + 1) := by
  push_cast
  rw [← zpow_natCast, ← zpow_add₀ (by norm_num : (2 : ℚ) ≠ 0)]
  congr 1
  push_cast
  ring

/-- A positive number of binade `e` rounds into `[2 ^ e, 2 ^ (e + 1)]`. -/
theorem roundToFormat_mem_binade (frac : Nat) (x : ℚ) (e : Int) (hx : 0 < x)
    (h1 : (2 : ℚ) ^ e ≤ x) (h2 : x < (2 : ℚ) ^ (e + 1)) :
    (2 : ℚ) ^ e ≤ roundToFormat frac x ∧ roundToFormat frac x ≤ (2 : ℚ) ^ (e + 1) := by
  have hs : (0 : ℚ) < (2 : ℚ) ^ (e - (frac : Int)) := zpow_pos (by norm_num) _
  rw [roundToFormat_of_binade frac x e (by rwa [abs_of_pos hx]) (by rwa [abs_of_pos hx])]
  have hlo : ((2 ^ frac : Int) : ℚ) ≤ x / (2 : ℚ) ^ (e - (frac : Int)) := by
    rw [le_div_iff₀ hs, two_pow_mul_zpow]
    exact h1
  have hhi : x / (2 : ℚ) ^ (e - (frac : Int)) ≤ ((2 ^ (frac + 1) : Int) : ℚ) := by
    rw [div_le_iff₀ hs, two_pow_succ_mul_zpow]
    exact h2.le
  have rlo := roundHalfEven_mono hlo
  have rhi := roundHalfEven_mono hhi
  rw [roundHalfEven_intCast] at rlo rhi
  constructor
  · rw [← two_pow_mul_zpow frac e]
    exact mul_le_mul_of_nonneg_right (by exact_mod_cast rlo) hs.le
  · rw [← two_pow_succ_mul_zpow frac e]
    exact mul_le_mul_of_nonneg_right (by exact_mod_cast rhi) hs.le

/-- Rounding commutes with negation. -/
theorem roundHalfEven_neg (q : ℚ) : roundHalfEven (-q) = -roundHalfEven q := by
  by_cases hint : (⌊q⌋ : ℚ) = q
  · rw [← hint, ← Int.cast_neg, roundHalfEven_intCast, roundHalfEven_intCast]
  · have hlt : (⌊q⌋ : ℚ) < q := lt_of_le_of_ne (Int.floor_le q) hint
    have hfn : ⌊-q⌋ = -⌊q⌋ - 1 := by
      rw [Int.floor_eq_iff]
      push_cast
      constructor
      · have := Int.lt_floor_add_one q
        linarith
      · linarith
    unfold roundHalfEven
    rw [hfn]
    push_cast
    by_cases h1 : q - (⌊q⌋ : ℚ) < 1 / 2
    · rw [if_pos h1, if_neg (by linarith), if_pos (by linarith)]
      ring
    · rw [if_neg h1]
      by_cases h2 : 1 / 2 < q - (⌊q⌋ : ℚ)
      · rw [if_pos h2, if_pos (by linarith)]
        ring
      · rw [if_neg h2, if_neg (by linarith), if_neg (by linarith)]
        by_cases hp : ⌊q⌋ % 2 = 0
        · rw [if_pos hp, if_neg (by omega)]
          ring
        · rw [if_neg hp, if_pos (by omega)]
          ring

/-- Rounding to a format commutes with negation. -/
theorem roundToFormat_neg (frac : Nat) (x : ℚ) :
    roundToFormat frac (-x) = -roundToFormat frac x := by
  unfold roundToFormat ulpExponent
  rw [abs_neg, neg_div, roundHalfEven_neg]
  push_cast
  ring

/-- Rounding to a format is monotone on the positive numbers. -/
theorem roundToFormat_mono_pos (frac : Nat) {x y : ℚ} (hx : 0 < x) (h : x ≤ y) :
    roundToFormat frac x ≤ roundToFormat frac y := by
  have hy : 0 < y := lt_of_lt_of_le hx h
  obtain ⟨x1, x2⟩ := zpow_log_le_abs x hx.ne'
  obtain ⟨y1, y2⟩ := zpow_log_le_abs y hy.ne'
  rw [abs_of_pos hx] at x1 x2
  rw [abs_of_pos hy] at y1 y2
  have hlog : Int.log 2 x ≤ Int.log 2 y := Int.log_mono_right hx h
  rcases lt_or_eq_of_le hlog with hlt | heq
  · have a := (roundToFormat_mem_binade frac x _ hx x1 x2).2
    have b := (roundToFormat_mem_binade frac y _ hy y1 y2).1
    have c : (2 : ℚ) ^ (Int.log 2 x + 1) ≤ (2 : ℚ) ^ Int.log 2 y :=
      zpow_le_zpow_right₀ (by norm_num) (by omega)
    linarith
  · unfold roundToFormat ulpExponent
    rw [abs_of_pos hx, abs_of_pos hy, heq]
    have hs : (0 : ℚ) < (2 : ℚ) ^ (Int.log 2 y - (frac : Int)) := zpow_pos (by norm_num) _
    have := roundHalfEven_mono (div_le_div_of_nonneg_right h hs.le)
    exact mul_le_mul_of_nonneg_right (by exact_mod_cast this) hs.le

/-- Rounding to a format is monotone. -/
theorem roundToFormat_mono (frac : Nat) {x y : ℚ} (h : x ≤ y) :
    roundToFormat frac x ≤ roundToFormat frac y := by
  rcases lt_trichotomy 0 x with hx | hx | hx
  · exact roundToFormat_mono_pos frac hx h
  · rw [← hx, roundToFormat_zero]
    exact roundToFormat_nonneg frac (hx ▸ h)
  · rcases le_or_lt 0 y with hy | hy
    · exact le_trans (roundToFormat_nonpos frac hx.le) (roundToFormat_nonneg frac hy)
    · have := roundToFormat_mono_pos frac (neg_pos.mpr hy) (neg_le_neg h)
      rw [roundToFormat_neg, roundToFormat_neg] at this
      linarith

/-- Rounding to `float` is monotone. -/
theorem toFloat_mono {x y : ℚ} (h : x ≤ y) : toFloat x ≤ toFloat y :=
  roundToFormat_mono 23 h

/-- Rounding to `double` is monotone. -/
theorem toDouble_mono {x y : ℚ} (h : x ≤ y) : toDouble x ≤ toDouble y :=
  roundToFormat_mono 52 h

/-! ## The bin index in binary32 -/

/-- A rational halfway between two integers rounds to the even one. -/
theorem roundHalfEven_tie (z : Int) :
    roundHalfEven ((z : ℚ) + 1 / 2) = if z % 2 = 0 then z else z + 1 := by
  have hf : ⌊(z : ℚ) + 1 / 2⌋ = z := by
    rw [Int.floor_eq_iff]
    constructor <;> linarith
  unfold roundHalfEven
  rw [hf, if_neg (by norm_num), if_neg (by norm_num)]

/-- A natural number below `2 ^ 24` is a `float`. -/
theorem toFloat_natCast (n : Nat) (h : n < 16777216) : toFloat (n : ℚ) = (n : ℚ) := by
  have := roundToFormat_intCast 23 (n : Int) (by
    rw [abs_of_nonneg (Int.natCast_nonneg n)]
    norm_num
    omega)
  simpa using this

/-- An even natural number below `2 ^ 25` is a `float`. -/
theorem toFloat_two_mul (n : Nat) (h : n < 16777216) : toFloat ((2 * n : Nat) : ℚ) = (2 * n : Nat) := by
  have := roundToFormat_of_representable 23 (n : Int) 1 (by
    rw [abs_of_nonneg (Int.natCast_nonneg n)]
    norm_num
    omega)
  rw [zpow_one] at this
  unfold toFloat
  push_cast
  rw [mul_comm (2 : ℚ) (n : ℚ)]
  exact_mod_cast this

/-- The conversion of `2 ^ 24 + 1` to `float` rounds down to `2 ^ 24`. -/
theorem toFloat_16777217 : toFloat (16777217 : ℚ) = 16777216 := by
  unfold toFloat
  rw [roundToFormat_of_binade 23 16777217 24 (by norm_num) (by norm_num)]
  have hq : (16777217 : ℚ) / (2 : ℚ) ^ ((24 : Int) - ((23 : Nat) : Int)) =
      ((8388608 : Int) : ℚ) + 1 / 2 := by norm_num
  rw [hq, roundHalfEven_tie, if_pos (by decide)]
  norm_num

/-- The conversion of `2 ^ 24 + 3` to `float` rounds up to `2 ^ 24 + 4`. -/
theorem toFloat_16777219 : toFloat (16777219 : ℚ) = 16777220 := by
  unfold toFloat
  rw [roundToFormat_of_binade 23 16777219 24 (by norm_num) (by norm_num)]
  have hq : (16777219 : ℚ) / (2 : ℚ) ^ ((24 : Int) - ((23 : Nat) : Int)) =
      ((8388609 : Int) : ℚ) + 1 / 2 := by norm_num
  rw [hq, roundHalfEven_tie, if_neg (by decide)]
  norm_num

/-- For `m` up to `2 ^ 24 + 2`, the conversion of `m` to `float` is a natural
number that does not exceed `m` and is itself a `float`. -/
theorem toFloat_natCast_le (m : Nat) (hm : m ≤ 16777218) :
    ∃ M : Nat, toFloat (m : ℚ) = (M : ℚ) ∧ M ≤ m ∧ toFloat (M : ℚ) = (M : ℚ) := by
  have h16 : toFloat ((16777216 : Nat) : ℚ) = ((16777216 : Nat) : ℚ) :=
    toFloat_two_mul 8388608 (by norm_num)
  rcases Nat.lt_or_ge m 16777216 with h | h
  · exact ⟨m, toFloat_natCast m h, le_refl m, toFloat_natCast m h⟩
  · have hcases : m = 16777216 ∨ m = 16777217 ∨ m = 16777218 := by omega
    rcases hcases with rfl | rfl | rfl
    · exact ⟨16777216, h16, le_refl _, h16⟩
    · refine ⟨16777216, ?_, by norm_num, h16⟩
      have := toFloat_16777217
      exact_mod_cast this
    · have := toFloat_two_mul 8388609 (by norm_num)
      exact ⟨16777218, this, le_refl _, this⟩

/-- Counterexample to C8: with `bin_count = 16777220` the conversion of
`bin_count - 1` to `float` rounds up to `16777220`, so a pixel whose encoded
range is `1` gets the bin index `16777220 = bin_count`, outside the vectors of
size `bin_count`. -/
theorem bin_idx_float_out_of_bounds :
    (1 ≤ 16777220 ∧ (0 : ℚ) ≤ saturatedPixel.ptr (0 * 3 + 1) ∧
      saturatedPixel.ptr (0 * 3 + 1) ≤ 1) ∧
    bin_idx_float 16777220 saturatedPixel 0 = 16777220 ∧
    ¬ bin_idx_float 16777220 saturatedPixel 0 ≤ ((16777220 : Nat) : Int) - 1 ∧
    ¬ (bin_idx_float 16777220 saturatedPixel 0).toNat <
      (List.replicate 16777220 (0 : Int)).length := by
  have e : bin_idx_float 16777220 saturatedPixel 0 = 16777220 := by
    unfold bin_idx_float
    have h1 : saturatedPixel.ptr (0 * 3 + 1) = 1 := rfl
    have h2 : (((16777220 - 1 : Nat)) : ℚ) = 16777219 := by norm_num
    rw [h1, h2, toFloat_16777219, one_mul]
    have h3 := toFloat_two_mul 8388610 (by norm_num)
    have h4 : toFloat (16777220 : ℚ) = 16777220 := by exact_mod_cast h3
    rw [h4]
    unfold ctrunc
    rw [if_pos (by norm_num)]
    exact_mod_cast Int.floor_natCast (16777220 : Nat)
  rw [e, List.length_replicate]
  refine ⟨⟨by norm_num, ?_, ?_⟩, rfl, by norm_num, by norm_num⟩
  · exact zero_le_one
  · exact le_refl _

/-- C8, amended. For `1 <= bin_count <= 16777219` and an encoded range in
`[0, 1]` (the value `1` included), the bin index computed in `convertShader`,
with the `float` conversion of `bin_count - 1` and the `float` product, lies in
`[0, bin_count - 1]`, so the accesses to `bins_depth` and to `bins`, both of
size `bin_count`, are in bounds. -/
theorem bin_idx_float_in_bounds (bin_count : Nat) (cv_image : Mat ℚ) (i : Nat)
    (hbin : 1 ≤ bin_count) (hmax : bin_count ≤ 16777219)
    (h0 : 0 ≤ cv_image.ptr (i * 3 + 1)) (h1 : cv_image.ptr (i * 3 + 1) ≤ 1) :
    0 ≤ bin_idx_float bin_count cv_image i ∧
    bin_idx_float bin_count cv_image i ≤ (bin_count : Int) - 1 ∧
    (bin_idx_float bin_count cv_image i).toNat < (List.replicate bin_count (0 : Int)).length ∧
    (bin_idx_float bin_count cv_image i).toNat < (List.replicate bin_count (0 : ℚ)).length := by
  obtain ⟨M, hM, hle, hfix⟩ := toFloat_natCast_le (bin_count - 1) (by omega)
  have hMnn : (0 : ℚ) ≤ (M : ℚ) := Nat.cast_nonneg M
  have hlo : 0 ≤ toFloat (cv_image.ptr (i * 3 + 1) * toFloat ((bin_count - 1 : Nat) : ℚ)) := by
    rw [hM]
    exact roundToFormat_nonneg 23 (mul_nonneg h0 hMnn)
  have hhi : toFloat (cv_image.ptr (i * 3 + 1) * toFloat ((bin_count - 1 : Nat) : ℚ)) ≤
      (M : ℚ) := by
    rw [hM]
    have := toFloat_mono (mul_le_of_le_one_left hMnn h1)
    rw [hfix] at this
    exact this
  have h := ctrunc_mem_range _ M hlo hhi
  have hidx : bin_idx_float bin_count cv_image i ≤ (M : Int) := h.2
  rw [List.length_replicate, List.length_replicate]
  refine ⟨h.1, by omega, by omega, by omega⟩

/-- C8, amended, with five bins at an encoded range of `1/2`. -/
theorem bin_idx_float_in_bounds_witness :
    (1 ≤ 5 ∧ 5 ≤ 16777219 ∧ (0 : ℚ) ≤ 1 / 2 ∧ (1 / 2 : ℚ) ≤ 1) ∧
    bin_idx_float 5 ({ rows := 1, cols := 1, ptr := fun _ => 1 / 2 } : Mat ℚ) 0 ≤ (5 : Int) - 1 :=
  ⟨⟨by norm_num, by norm_num, by norm_num, by norm_num⟩,
   (bin_idx_float_in_bounds 5 ({ rows := 1, cols := 1, ptr := fun _ => 1 / 2 } : Mat ℚ) 0
     (by norm_num) (by norm_num) (by norm_num) (by norm_num)).2.1⟩

/-- An encoded range of exactly `1` is mapped to the conversion of
`bin_count - 1` to `float`. -/
theorem bin_idx_float_of_one (bin_count : Nat) (cv_image : Mat ℚ) (i : Nat) (M : Nat)
    (h : cv_image.ptr (i * 3 + 1) = 1)
    (hM : toFloat ((bin_count - 1 : Nat) : ℚ) = (M : ℚ)) (hfix : toFloat (M : ℚ) = (M : ℚ)) :
    bin_idx_float bin_count cv_image i = (M : Int) := by
  unfold bin_idx_float ctrunc
  rw [h, hM, one_mul, hfix, if_pos (Nat.cast_nonneg M)]
  exact_mod_cast Int.floor_natCast M

/-- Counterexample to C17: with five bins, a pixel whose encoded range is
exactly `1` gets the bin index `4`, not `5`, and `4` is a valid index. -/
theorem bin_idx_float_saturated_is_last :
    saturatedPixel.ptr (0 * 3 + 1) = 1 ∧
    bin_idx_float 5 saturatedPixel 0 = 4 ∧
    bin_idx_float 5 saturatedPixel 0 ≠ ((5 : Nat) : Int) ∧
    (bin_idx_float 5 saturatedPixel 0).toNat < 5 := by
  have h := bin_idx_float_of_one 5 saturatedPixel 0 4 rfl (toFloat_natCast 4 (by norm_num))
    (toFloat_natCast 4 (by norm_num))
  rw [h]
  exact ⟨rfl, by norm_num, by norm_num, by norm_num⟩

/-- C17, amended. When a pixel's encoded range is exactly `1.0` and
`1 <= bin_count <= 16777217`, the bin index computed by `convertShader` equals
`bin_count - 1`, the last valid index, so the accesses are in range; with
`bin_count = 16777218` the index is `16777216`. -/
theorem bin_idx_float_at_one (bin_count : Nat) (cv_image : Mat ℚ) (i : Nat)
    (hbin : 1 ≤ bin_count) (hmax : bin_count ≤ 16777217)
    (h : cv_image.ptr (i * 3 + 1) = 1) :
    bin_idx_float bin_count cv_image i = (bin_count : Int) - 1 ∧
    bin_idx_float bin_count cv_image i ≠ (bin_count : Int) ∧
    (bin_idx_float bin_count cv_image i).toNat < (List.replicate bin_count (0 : Int)).length ∧
    (bin_idx_float bin_count cv_image i).toNat < (List.replicate bin_count (0 : ℚ)).length ∧
    bin_idx_float 16777218 saturatedPixel 0 = 16777216 := by
  have hfix : toFloat ((bin_count - 1 : Nat) : ℚ) = ((bin_count - 1 : Nat) : ℚ) := by
    rcases Nat.lt_or_ge (bin_count - 1) 16777216 with hlt | hge
    · exact toFloat_natCast _ hlt
    · have e : bin_count - 1 = 2 * 8388608 := by omega
      rw [e]
      exact toFloat_two_mul 8388608 (by norm_num)
  have hidx := bin_idx_float_of_one bin_count cv_image i (bin_count - 1) h hfix hfix
  have h16 : toFloat ((16777216 : Nat) : ℚ) = ((16777216 : Nat) : ℚ) :=
    toFloat_two_mul 8388608 (by norm_num)
  have hbig := bin_idx_float_of_one 16777218 saturatedPixel 0 16777216 rfl
    (by
      have := toFloat_16777217
      exact_mod_cast this) h16
  rw [hidx, List.length_replicate, List.length_replicate]
  refine ⟨by omega, by omega, by omega, by omega, ?_⟩
  rw [hbig]
  rfl

/-- C17, amended, with three bins on `saturatedPixel`: the index is `2`. -/
theorem bin_idx_float_at_one_witness :
    (1 ≤ 3 ∧ 3 ≤ 16777217 ∧ saturatedPixel.ptr (0 * 3 + 1) = 1) ∧
    bin_idx_float 3 saturatedPixel 0 = ((3 : Nat) : Int) - 1 :=
  ⟨⟨by norm_num, by norm_num, rfl⟩,
   (bin_idx_float_at_one 3 saturatedPixel 0 (by norm_num) (by norm_num) rfl).1⟩

/-! ## The sigmoid in binary32 -/

/-- Rounding in a known binade of a number whose scaled value is within less
than one half of an integer. -/
theorem roundToFormat_eq_of_near (frac : Nat) (x : ℚ) (e z : Int)
    (h1 : (2 : ℚ) ^ e ≤ |x|) (h2 : |x| < (2 : ℚ) ^ (e + 1))
    (hz : |x / (2 : ℚ) ^ (e - (frac : Int)) - (z : ℚ)| < 1 / 2) :
    roundToFormat frac x = (z : ℚ) * (2 : ℚ) ^ (e - (frac : Int)) := by
  rw [roundToFormat_of_binade frac x e h1 h2, roundHalfEven_eq_of_abs_sub_lt _ z hz]

/-- Small integers are `double` values. -/
theorem toDouble_natCast (n : Nat) (h : n < 16777216) : toDouble (n : ℚ) = (n : ℚ) := by
  have := roundToFormat_intCast 52 (n : Int) (by
    rw [abs_of_nonneg (Int.natCast_nonneg n)]
    have : (n : Int) < 16777216 := by exact_mod_cast h
    have h2 : (16777216 : Int) < 2 ^ (52 + 1) := by norm_num
    exact lt_trans this h2)
  simpa using this

/-- The value `1 - 2 ^ (-31)` rounds to the `float` `1`. -/
theorem toFloat_below_one : toFloat (1 - 1 / 2147483648) = 1 := by
  unfold toFloat
  rw [roundToFormat_eq_of_near 23 (1 - 1 / 2147483648) (-1) 16777216
    (by rw [abs_of_pos (by norm_num)]; norm_num)
    (by rw [abs_of_pos (by norm_num)]; norm_num)
    (by
      have e : ((1 : ℚ) - 1 / 2147483648) / (2 : ℚ) ^ ((-1 : Int) - ((23 : Nat) : Int)) -
          ((16777216 : Int) : ℚ) = -(1 / 128) := by norm_num
      rw [e, abs_neg, abs_of_pos (by norm_num)]
      norm_num)]
  norm_num

/-- The value `1 + 2 ^ (-31)` rounds to the `float` `1`. -/
theorem toFloat_above_one : toFloat (1 + 1 / 2147483648) = 1 := by
  unfold toFloat
  rw [roundToFormat_eq_of_near 23 (1 + 1 / 2147483648) 0 8388608
    (by rw [abs_of_pos (by norm_num)]; norm_num)
    (by rw [abs_of_pos (by norm_num)]; norm_num)
    (by
      have e : ((1 : ℚ) + 1 / 2147483648) / (2 : ℚ) ^ ((0 : Int) - ((23 : Nat) : Int)) -
          ((8388608 : Int) : ℚ) = 1 / 256 := by norm_num
      rw [e, abs_of_pos (by norm_num)]
      norm_num)]
  norm_num

/-- A multiple of `2 ^ (-31)` of magnitude at most `2 ^ 32` is a `double`. -/
theorem toDouble_dyadic (m : Int) (hm : |m| < 4294967296) :
    toDouble ((m : ℚ) / 2147483648) = (m : ℚ) / 2147483648 := by
  have := roundToFormat_of_representable 52 m (-31) (by
    have h2 : (4294967296 : Int) < 2 ^ (52 + 1) := by norm_num
    exact lt_trans hm h2)
  have e : (m : ℚ) * (2 : ℚ) ^ (-31 : Int) = (m : ℚ) / 2147483648 := by
    rw [zpow_neg, div_eq_mul_inv]
    norm_num
  rw [e] at this
  exact this

/-- The real hyperbolic tangent at `18` or more is within `2 ^ (-35)` of `1`. -/
theorem tanh_ge_of_ge_18 (x : ℝ) (hx : 18 ≤ x) : 1 - 1 / 34359738368 ≤ Real.tanh x := by
  have h2 : (2 : ℝ) ≤ Real.exp 1 := by
    have := Real.add_one_le_exp (1 : ℝ)
    linarith
  have h36 : (2 : ℝ) ^ 36 ≤ Real.exp 36 := by
    have e : Real.exp 36 = Real.exp 1 ^ 36 := by
      rw [← Real.exp_nat_mul]
      norm_num
    rw [e]
    exact pow_le_pow_left₀ (by norm_num) h2 36
  have hmono : Real.exp 36 ≤ Real.exp (2 * x) := Real.exp_le_exp.mpr (by linarith)
  have hden : (2 : ℝ) ^ 36 ≤ Real.exp (2 * x) + 1 := by
    have := Real.exp_pos (2 * x)
    linarith
  rw [tanh_eq_exp]
  have hfrac : 2 / (Real.exp (2 * x) + 1) ≤ 2 / (2 : ℝ) ^ 36 :=
    div_le_div_of_nonneg_left (by norm_num) (by norm_num) hden
  have : (2 : ℝ) / (2 : ℝ) ^ 36 = 1 / 34359738368 := by norm_num
  linarith

/-- With a library `tanh` within `2 ^ (-31)` of the hyperbolic tangent, the
`float` sigmoid is exactly `1` at every argument from `3` on. -/
theorem sigmoid_float_eq_one (tanh : ℚ → ℚ)
    (hacc : ∀ q : ℚ, |((tanh q : ℚ) : ℝ) - Real.tanh (q : ℝ)| ≤ 1 / 2147483648)
    (x : ℚ) (hx : 3 ≤ x) : sigmoid_float tanh x = 1 := by
  have hx0 : toFloat (toDouble 0.666666667) ≤ 1 := by
    have h1 : toDouble 0.666666667 ≤ toDouble ((1 : Nat) : ℚ) := toDouble_mono (by norm_num)
    rw [toDouble_natCast 1 (by norm_num)] at h1
    have h2 := toFloat_mono h1
    rw [toFloat_natCast 1 (by norm_num)] at h2
    exact_mod_cast h2
  have hbeta : toFloat 18 = 18 := by exact_mod_cast toFloat_natCast 18 (by norm_num)
  have hdiff : (2 : ℚ) ≤ toFloat (x - toFloat (toDouble 0.666666667)) := by
    have := toFloat_mono (show ((2 : Nat) : ℚ) ≤ x - toFloat (toDouble 0.666666667) by
      push_cast
      linarith)
    rw [toFloat_natCast 2 (by norm_num)] at this
    exact_mod_cast this
  have ht : (36 : ℚ) ≤ toFloat (toFloat (x - toFloat (toDouble 0.666666667)) * 18) := by
    have := toFloat_mono (show ((36 : Nat) : ℚ) ≤
        toFloat (x - toFloat (toDouble 0.666666667)) * 18 by
      push_cast
      linarith)
    rw [toFloat_natCast 36 (by norm_num)] at this
    exact_mod_cast this
  have hq : (18 : ℚ) ≤ toDouble (0.5 *
      toFloat (toFloat (x - toFloat (toDouble 0.666666667)) * 18)) := by
    have := toDouble_mono (show ((18 : Nat) : ℚ) ≤
        0.5 * toFloat (toFloat (x - toFloat (toDouble 0.666666667)) * 18) by
      push_cast
      norm_num
      linarith)
    rw [toDouble_natCast 18 (by norm_num)] at this
    exact_mod_cast this
  unfold sigmoid_float
  simp only [hbeta]
  generalize toDouble (0.5 *
      toFloat (toFloat (x - toFloat (toDouble 0.666666667)) * 18)) = q at hq
  have hreal : (1 : ℝ) - 1 / 34359738368 ≤ Real.tanh (q : ℝ) :=
    tanh_ge_of_ge_18 (q : ℝ) (by exact_mod_cast hq)
  have hlt : Real.tanh (q : ℝ) < 1 := (tanh_mem_Ioo (q : ℝ)).2
  have hab := abs_le.mp (hacc q)
  have hTlo : (1 : ℚ) - 1 / 1073741824 ≤ tanh q := by
    have : (((1 : ℚ) - 1 / 1073741824 : ℚ) : ℝ) ≤ ((tanh q : ℚ) : ℝ) := by
      push_cast
      linarith [hab.1]
    exact Rat.cast_le.mp this
  have hThi : tanh q ≤ (1 : ℚ) + 1 / 1073741824 := by
    have : ((tanh q : ℚ) : ℝ) ≤ (((1 : ℚ) + 1 / 1073741824 : ℚ) : ℝ) := by
      push_cast
      linarith [hab.2]
    exact Rat.cast_le.mp this
  have hlo1 := toDouble_mono (show ((1073741823 : Int) : ℚ) / 2147483648 ≤ 0.5 * tanh q by
    norm_num
    linarith)
  have hhi1 := toDouble_mono (show 0.5 * tanh q ≤ ((1073741825 : Int) : ℚ) / 2147483648 by
    norm_num
    linarith)
  rw [toDouble_dyadic _ (by norm_num)] at hlo1 hhi1
  have hlo2 := toDouble_mono (show ((2147483647 : Int) : ℚ) / 2147483648 ≤
      toDouble (0.5 * tanh q) + 0.5 by
    norm_num at hlo1 ⊢
    linarith)
  have hhi2 := toDouble_mono (show toDouble (0.5 * tanh q) + 0.5 ≤
      ((2147483649 : Int) : ℚ) / 2147483648 by
    norm_num at hhi1 ⊢
    linarith)
  rw [toDouble_dyadic _ (by norm_num)] at hlo2 hhi2
  have hlo3 := toFloat_mono (show (1 : ℚ) - 1 / 2147483648 ≤
      toDouble (toDouble (0.5 * tanh q) + 0.5) by
    norm_num at hlo2 ⊢
    linarith)
  have hhi3 := toFloat_mono (show toDouble (toDouble (0.5 * tanh q) + 0.5) ≤
      (1 : ℚ) + 1 / 2147483648 by
    norm_num at hhi2 ⊢
    linarith)
  rw [toFloat_below_one] at hlo3
  rw [toFloat_above_one] at hhi3
  exact le_antisymm hhi3 hlo3

/-- A library `tanh` with rational values within `2 ^ (-31)` of the hyperbolic
tangent exists. -/
theorem exists_tanh_within :
    ∃ tanh : ℚ → ℚ,
      ∀ q : ℚ, |((tanh q : ℚ) : ℝ) - Real.tanh (q : ℝ)| ≤ 1 / 2147483648 := by
  have h : ∀ q : ℚ, ∃ r : ℚ, |((r : ℚ) : ℝ) - Real.tanh (q : ℝ)| ≤ 1 / 2147483648 := by
    intro q
    obtain ⟨r, h1, h2⟩ := exists_rat_btwn
      (show Real.tanh (q : ℝ) < Real.tanh (q : ℝ) + 1 / 2147483648 by linarith)
    refine ⟨r, ?_⟩
    rw [abs_le]
    constructor <;> linarith
  exact ⟨fun q => (h q).choose, fun q => (h q).choose_spec⟩

/-- Counterexample to C19: whenever the library `tanh` is within `2 ^ (-31)`
of the hyperbolic tangent (such functions exist), the `float` sigmoid is
exactly `1` both at `3` and at `4`; so no such `tanh` makes it strictly
increasing. -/
theorem sigmoid_float_not_strictMono :
    (∃ tanh : ℚ → ℚ,
      ∀ q : ℚ, |((tanh q : ℚ) : ℝ) - Real.tanh (q : ℝ)| ≤ 1 / 2147483648) ∧
    (∀ tanh : ℚ → ℚ,
      (∀ q : ℚ, |((tanh q : ℚ) : ℝ) - Real.tanh (q : ℝ)| ≤ 1 / 2147483648) →
      sigmoid_float tanh 3 = 1 ∧ sigmoid_float tanh 4 = 1) ∧
    ¬ ∃ tanh : ℚ → ℚ,
      (∀ q : ℚ, |((tanh q : ℚ) : ℝ) - Real.tanh (q : ℝ)| ≤ 1 / 2147483648) ∧
      ∀ x y : ℚ, x < y → sigmoid_float tanh x < sigmoid_float tanh y := by
  refine ⟨exists_tanh_within, ?_, ?_⟩
  · intro tanh hacc
    exact ⟨sigmoid_float_eq_one tanh hacc 3 (le_refl 3),
      sigmoid_float_eq_one tanh hacc 4 (by norm_num)⟩
  · rintro ⟨tanh, hacc, hstrict⟩
    have h := hstrict 3 4 (by norm_num)
    rw [sigmoid_float_eq_one tanh hacc 3 (le_refl 3),
      sigmoid_float_eq_one tanh hacc 4 (by norm_num)] at h
    exact lt_irrefl 1 h

/-- C19, amended. With a library `tanh` that is non-decreasing and maps `0` to
`0`, the `float` sigmoid is non-decreasing, and its value at the centre, the
`float` nearest `0.666666667`, is exactly `0.5`; the real function that it
rounds, the sigmoid with the real hyperbolic tangent, is strictly increasing. -/
theorem sigmoid_float_monotone (tanh : ℚ → ℚ)
    (hmono : ∀ a b : ℚ, a ≤ b → tanh a ≤ tanh b) (hzero : tanh 0 = 0) :
    (∀ x y : ℚ, x ≤ y → sigmoid_float tanh x ≤ sigmoid_float tanh y) ∧
    sigmoid_float tanh (toFloat (toDouble 0.666666667)) = 0.5 ∧
    (∀ x y : ℝ, x < y → sigmoid Real.tanh x < sigmoid Real.tanh y) := by
  have hbeta : toFloat 18 = 18 := by exact_mod_cast toFloat_natCast 18 (by norm_num)
  have hhalf : toDouble 0.5 = 0.5 := by
    have := toDouble_dyadic 1073741824 (by norm_num)
    norm_num at this ⊢
    exact this
  have hhalf32 : toFloat 0.5 = 0.5 := by
    have := roundToFormat_of_representable 23 1 (-1) (by norm_num)
    unfold toFloat
    norm_num at this ⊢
    exact this
  refine ⟨?_, ?_, ?_⟩
  · intro x y hxy
    unfold sigmoid_float
    simp only [hbeta]
    apply toFloat_mono
    apply toDouble_mono
    apply add_le_add_right
    apply toDouble_mono
    apply mul_le_mul_of_nonneg_left _ (by norm_num)
    apply hmono
    apply toDouble_mono
    apply mul_le_mul_of_nonneg_left _ (by norm_num)
    apply toFloat_mono
    apply mul_le_mul_of_nonneg_right _ (by norm_num)
    apply toFloat_mono
    linarith
  · unfold sigmoid_float
    simp only [sub_self, toFloat, toDouble, roundToFormat_zero, zero_mul, mul_zero, hzero,
      zero_add]
    have h1 : roundToFormat 52 0.5 = 0.5 := hhalf
    have h2 : roundToFormat 23 0.5 = 0.5 := hhalf32
    rw [h1, h2]
  · intro x y h
    unfold sigmoid
    have harg : (0.5 : ℝ) * ((x - 0.666666667) * 18) < 0.5 * ((y - 0.666666667) * 18) := by
      linarith
    have := tanh_lt_tanh_of_lt harg
    simp only
    linarith

/-- C19, amended, with the identity as the library function. -/
theorem sigmoid_float_monotone_witness :
    ((∀ a b : ℚ, a ≤ b → (fun q : ℚ => q) a ≤ (fun q : ℚ => q) b) ∧
      (fun q : ℚ => q) 0 = 0) ∧
    sigmoid_float (fun q => q) (toFloat (toDouble 0.666666667)) = 0.5 :=
  ⟨⟨fun _ _ h => h, rfl⟩, (sigmoid_float_monotone (fun q => q) (fun _ _ h => h) rfl).2.1⟩

/-! ## The column map in binary64 near a field of view of pi -/

/-- With a non-negative tangent at the half field of view and a non-positive
tangent at the angle of edge `k`, the edge is not to the right of the middle
column. -/
theorem beamEdge_double_le_middle (tan : ℚ → ℚ) (beam_width : ℚ) (beam_count cols k : Nat)
    (h1 : 0 ≤ tan (toDouble (beam_width / 2)))
    (h2 : tan (toDouble (-toDouble (beam_width / 2) +
      toDouble (toDouble (k : ℚ) * toDouble (beam_width / toDouble (beam_count : ℚ))))) ≤ 0) :
    beamEdge_double tan beam_width beam_count cols k ≤
      cround (toDouble (toDouble (toDouble (cols : ℚ) / 2))) := by
  unfold beamEdge_double
  apply cround_mono
  apply toDouble_mono
  have hw : 0 ≤ toDouble (toDouble (cols : ℚ) / 2) :=
    roundToFormat_nonneg 52 (div_nonneg (roundToFormat_nonneg 52 (Nat.cast_nonneg cols))
      (by norm_num))
  have ha : 0 ≤ toDouble (toDouble (toDouble (cols : ℚ) / 2) /
      tan (toDouble (beam_width / 2))) :=
    roundToFormat_nonneg 52 (div_nonneg hw h1)
  have hp := roundToFormat_nonpos 52 (mul_nonpos_of_nonpos_of_nonneg h2 ha)
  have hp2 : toDouble (tan (toDouble (-toDouble (beam_width / 2) +
      toDouble (toDouble (k : ℚ) * toDouble (beam_width / toDouble (beam_count : ℚ))))) *
      toDouble (toDouble (toDouble (cols : ℚ) / 2) / tan (toDouble (beam_width / 2)))) ≤ 0 := hp
  linarith

/-- The half of `widthBelowPi` is a `double`. -/
theorem toDouble_half_widthBelowPi :
    toDouble (widthBelowPi / 2) = 7074237752028439 / 4503599627370496 := by
  have := roundToFormat_of_representable 52 7074237752028439 (-52) (by norm_num)
  unfold toDouble widthBelowPi
  norm_num at this ⊢
  exact this

/-- The angle of the last edge of three beams over `widthBelowPi`: the
`double` operations give `widthBelowPi / 2 + 2 ^ (-51)`. -/
theorem last_angle_widthBelowPi :
    toDouble (-toDouble (widthBelowPi / 2) +
      toDouble (toDouble ((3 : Nat) : ℚ) * toDouble (widthBelowPi / toDouble ((3 : Nat) : ℚ)))) =
      7074237752028441 / 4503599627370496 := by
  have h3 : toDouble ((3 : Nat) : ℚ) = 3 := by
    exact_mod_cast toDouble_natCast 3 (by norm_num)
  have hB : toDouble (widthBelowPi / 3) = 4716158501352293 / 4503599627370496 := by
    unfold toDouble widthBelowPi
    rw [roundToFormat_eq_of_near 52 _ 0 4716158501352293
      (by rw [abs_of_pos (by norm_num)]; norm_num)
      (by rw [abs_of_pos (by norm_num)]; norm_num)
      (by
        have e : (7074237752028439 / 2251799813685248 / 3 : ℚ) /
            (2 : ℚ) ^ ((0 : Int) - ((52 : Nat) : Int)) - ((4716158501352293 : Int) : ℚ) =
            -(1 / 3) := by norm_num
        rw [e, abs_neg, abs_of_pos (by norm_num)]
        norm_num)]
    norm_num
  have h3B : toDouble (3 * (4716158501352293 / 4503599627370496)) =
      7074237752028440 / 2251799813685248 := by
    unfold toDouble
    rw [roundToFormat_of_binade 52 _ 1
      (by rw [abs_of_pos (by norm_num)]; norm_num)
      (by rw [abs_of_pos (by norm_num)]; norm_num)]
    have hq : (3 * (4716158501352293 / 4503599627370496) : ℚ) /
        (2 : ℚ) ^ ((1 : Int) - ((52 : Nat) : Int)) =
        ((7074237752028439 : Int) : ℚ) + 1 / 2 := by norm_num
    rw [hq, roundHalfEven_tie, if_neg (by decide)]
    norm_num
  rw [h3, hB, h3B, toDouble_half_widthBelowPi]
  have := roundToFormat_of_representable 52 7074237752028441 (-52) (by norm_num)
  unfold toDouble
  norm_num at this ⊢
  exact this

/-- The field of view `widthBelowPi` is positive and below pi. -/
theorem widthBelowPi_lt_pi :
    (0 : ℝ) < ((widthBelowPi : ℚ) : ℝ) ∧ ((widthBelowPi : ℚ) : ℝ) < Real.pi := by
  unfold widthBelowPi
  have := Real.pi_gt_d20
  push_cast
  constructor
  · norm_num
  · norm_num at this ⊢
    linarith

/-- The tangent is positive at the half of `widthBelowPi`. -/
theorem tan_half_widthBelowPi_pos :
    0 < Real.tan (((7074237752028439 / 4503599627370496 : ℚ) : ℝ)) := by
  have h := widthBelowPi_lt_pi
  unfold widthBelowPi at h
  push_cast at h ⊢
  apply Real.tan_pos_of_pos_of_lt_pi_div_two
  · norm_num
  · have := h.2
    linarith

/-- The angle of the last edge is beyond the pole of the tangent, where the
tangent is negative. -/
theorem tan_last_angle_neg :
    Real.tan (((7074237752028441 / 4503599627370496 : ℚ) : ℝ)) < 0 := by
  have hlt := Real.pi_lt_d20
  have hgt := Real.pi_gt_d20
  push_cast
  rw [← Real.tan_sub_pi]
  apply Real.tan_neg_of_neg_of_pi_div_two_lt
  · norm_num at hgt ⊢
    linarith
  · norm_num at hlt ⊢
    linarith

/-- With a library `tan` that has the sign of the tangent, the last edge of
three beams over `widthBelowPi` on `640` columns is at column `320` or less. -/
theorem last_edge_widthBelowPi (tan : ℚ → ℚ)
    (hpos : ∀ q : ℚ, 0 < Real.tan (q : ℝ) → 0 < tan q)
    (hneg : ∀ q : ℚ, Real.tan (q : ℝ) < 0 → tan q < 0) :
    beamEdge_double tan widthBelowPi 3 640 3 ≤ 320 := by
  have h := beamEdge_double_le_middle tan widthBelowPi 3 640 3
    (by
      rw [toDouble_half_widthBelowPi]
      exact (hpos _ tan_half_widthBelowPi_pos).le)
    (by
      rw [last_angle_widthBelowPi]
      exact (hneg _ tan_last_angle_neg).le)
  have e640 : toDouble ((640 : Nat) : ℚ) = 640 := by
    exact_mod_cast toDouble_natCast 640 (by norm_num)
  have e320 : toDouble ((320 : Nat) : ℚ) = 320 := by
    exact_mod_cast toDouble_natCast 320 (by norm_num)
  have e : toDouble (toDouble (toDouble ((640 : Nat) : ℚ) / 2)) = ((320 : Nat) : ℚ) := by
    rw [e640]
    norm_num
    rw [show (320 : ℚ) = ((320 : Nat) : ℚ) by norm_num, e320]
    norm_num
    exact_mod_cast e320
  rw [e, cround_natCast] at h
  exact_mod_cast h

/-- A library `tan` with rational values and the sign of the tangent exists. -/
theorem exists_tan_sign :
    ∃ tan : ℚ → ℚ,
      (∀ q : ℚ, 0 < Real.tan (q : ℝ) → 0 < tan q) ∧
      (∀ q : ℚ, Real.tan (q : ℝ) < 0 → tan q < 0) := by
  have h : ∀ q : ℚ, ∃ r : ℚ,
      (0 < Real.tan (q : ℝ) → 0 < r) ∧ (Real.tan (q : ℝ) < 0 → r < 0) := by
    intro q
    rcases lt_trichotomy (Real.tan (q : ℝ)) 0 with h | h | h
    · exact ⟨-1, fun h2 => absurd h (not_lt.mpr h2.le), fun _ => by norm_num⟩
    · exact ⟨0, fun h2 => absurd h.symm h2.ne, fun h2 => absurd h h2.ne⟩
    · exact ⟨1, fun _ => one_pos, fun h2 => absurd h (not_lt.mpr h2.le)⟩
  exact ⟨fun q => (h q).choose, fun q => (h q).choose_spec.1, fun q => (h q).choose_spec.2⟩

/-- Counterexample to C4: three beams over the field of view `widthBelowPi`,
a `double` below pi, on `640` columns. The `double` operations put the angle of
the last edge beyond the pole of the tangent, and for every library `tan` with
the sign of the tangent (such functions exist) the last `max_col` is `320` or
less, not within one column of `640`. -/
theorem beamColumns_double_near_pi :
    (1 ≤ 3 ∧ (0 : ℝ) < ((widthBelowPi : ℚ) : ℝ) ∧ ((widthBelowPi : ℚ) : ℝ) < Real.pi) ∧
    (∃ tan : ℚ → ℚ,
      (∀ q : ℚ, 0 < Real.tan (q : ℝ) → 0 < tan q) ∧
      (∀ q : ℚ, Real.tan (q : ℝ) < 0 → tan q < 0)) ∧
    (∀ tan : ℚ → ℚ,
      (∀ q : ℚ, 0 < Real.tan (q : ℝ) → 0 < tan q) →
      (∀ q : ℚ, Real.tan (q : ℝ) < 0 → tan q < 0) →
      ∃ max_col : Int,
        (beamColumns_double tan widthBelowPi 3 640)[(3 - 1) * 2 + 1]? = some max_col ∧
        max_col ≤ 320) ∧
    ¬ ∃ tan : ℚ → ℚ,
      (∀ q : ℚ, 0 < Real.tan (q : ℝ) → 0 < tan q) ∧
      (∀ q : ℚ, Real.tan (q : ℝ) < 0 → tan q < 0) ∧
      ∃ max_col : Int,
        (beamColumns_double tan widthBelowPi 3 640)[(3 - 1) * 2 + 1]? = some max_col ∧
        |max_col - ((640 : Nat) : Int)| ≤ 1 := by
  have hget : ∀ tan : ℚ → ℚ, (beamColumns_double tan widthBelowPi 3 640)[(3 - 1) * 2 + 1]? =
      some (beamEdge_double tan widthBelowPi 3 640 3) := by
    intro tan
    exact (flatMap_pair_getElem? _ _ 3 2 (by norm_num)).2
  refine ⟨⟨by norm_num, widthBelowPi_lt_pi.1, widthBelowPi_lt_pi.2⟩, exists_tan_sign, ?_, ?_⟩
  · intro tan hpos hneg
    exact ⟨_, hget tan, last_edge_widthBelowPi tan hpos hneg⟩
  · rintro ⟨tan, hpos, hneg, max_col, hm, habs⟩
    rw [hget tan] at hm
    have e : beamEdge_double tan widthBelowPi 3 640 3 = max_col := Option.some.inj hm
    have hle := last_edge_widthBelowPi tan hpos hneg
    rw [e] at hle
    have := (abs_le.mp habs).1
    omega

/-! ## Beam-major layout: which pixels each slice holds -/

/-- A field of view of at most `3.1415` is below pi. -/
theorem lt_pi_of_le (beam_width : ℝ) (h : beam_width ≤ 3.1415) : beam_width < Real.pi :=
  lt_of_le_of_lt h Real.pi_gt_d4

/-- C4, amended. For `beam_count >= 1` and `0 < beam_width <= 3.1415`, in the
column map computed by `decodeShader` every beam has `min_col <= max_col`, the
`max_col` of beam `i` is the `min_col` of beam `i + 1`, the first `min_col` is
within one column of `0` and the last `max_col` within one column of the image
width. -/
theorem beamColumns_partition (beam_width : ℝ) (beam_count cols : Nat)
    (hbeam : 1 ≤ beam_count) (h0 : 0 < beam_width) (hw : beam_width ≤ 3.1415) :
    (∀ i < beam_count, ∃ min_col max_col : Int,
      (beamColumns Real.tan beam_width beam_count cols)[i * 2]? = some min_col ∧
      (beamColumns Real.tan beam_width beam_count cols)[i * 2 + 1]? = some max_col ∧
      min_col ≤ max_col) ∧
    (∀ i : Nat, i + 1 < beam_count → ∃ col : Int,
      (beamColumns Real.tan beam_width beam_count cols)[i * 2 + 1]? = some col ∧
      (beamColumns Real.tan beam_width beam_count cols)[(i + 1) * 2]? = some col) ∧
    (∃ min_col : Int,
      (beamColumns Real.tan beam_width beam_count cols)[0]? = some min_col ∧
      |min_col - 0| ≤ 1) ∧
    (∃ max_col : Int,
      (beamColumns Real.tan beam_width beam_count cols)[(beam_count - 1) * 2 + 1]? =
        some max_col ∧
      |max_col - (cols : Int)| ≤ 1) := by
  have hpi := lt_pi_of_le beam_width hw
  refine ⟨?_, ?_, ?_, ?_⟩
  · intro i hi
    obtain ⟨h1, h2⟩ := beamColumns_getElem? Real.tan beam_width beam_count cols i hi
    exact ⟨_, _, h1, h2, beamEdge_mono beam_width beam_count cols i (i + 1) (by omega)
      (by omega) h0 hpi⟩
  · intro i hi
    obtain ⟨_, h2⟩ := beamColumns_getElem? Real.tan beam_width beam_count cols i (by omega)
    obtain ⟨h3, _⟩ := beamColumns_getElem? Real.tan beam_width beam_count cols (i + 1) hi
    exact ⟨_, h2, h3⟩
  · obtain ⟨h1, _⟩ := beamColumns_getElem? Real.tan beam_width beam_count cols 0 (by omega)
    refine ⟨_, h1, ?_⟩
    rw [beamEdge_zero beam_width beam_count cols h0 hpi]
    decide
  · obtain ⟨_, h2⟩ := beamColumns_getElem? Real.tan beam_width beam_count cols
      (beam_count - 1) (by omega)
    refine ⟨_, h2, ?_⟩
    have e : beam_count - 1 + 1 = beam_count := by omega
    rw [e, beamEdge_last beam_width beam_count cols hbeam h0 hpi]
    simp

/-- C4, amended, for three beams over a field of view of one radian and `640`
columns. -/
theorem beamColumns_partition_witness :
    (1 ≤ 3 ∧ (0 : ℝ) < 1 ∧ (1 : ℝ) ≤ 3.1415) ∧
    ∃ min_col : Int, (beamColumns Real.tan 1 3 640)[0]? = some min_col ∧ |min_col - 0| ≤ 1 :=
  ⟨⟨by decide, one_pos, by norm_num⟩,
   (beamColumns_partition 1 3 640 (by decide) one_pos (by norm_num)).2.2.1⟩

/-- Rounding to an integer moves a rational by at most one half. -/
theorem roundHalfEven_sub_le (q : ℚ) :
    (roundHalfEven q : ℚ) ≤ q + 1 / 2 ∧ q - 1 / 2 ≤ (roundHalfEven q : ℚ) := by
  have h1 := Int.floor_le q
  have h2 := Int.lt_floor_add_one q
  unfold roundHalfEven
  split_ifs with a b c
  · constructor <;> linarith
  · push_cast
    constructor <;> linarith
  · constructor <;> linarith
  · push_cast
    constructor <;> linarith

/-- Rounding to a format moves a nonzero number by at most half a unit in the
last place, which is at most the number times `2 ^ (-(frac + 1))`. -/
theorem roundToFormat_le_add (frac : Nat) (x : ℚ) (hx : 0 ≤ x) :
    roundToFormat frac x ≤ x + x / 2 ^ (frac + 1) := by
  rcases hx.eq_or_lt with h0 | hpos
  · rw [← h0, roundToFormat_zero]
    norm_num
  have hb := (zpow_log_le_abs x hpos.ne').1
  rw [abs_of_pos hpos] at hb
  unfold roundToFormat ulpExponent
  rw [abs_of_pos hpos]
  set e : Int := Int.log 2 x - (frac : Int) with he
  have hs : (0 : ℚ) < (2 : ℚ) ^ e := zpow_pos (by norm_num) e
  have hr := (roundHalfEven_sub_le (x / (2 : ℚ) ^ e)).1
  have h1 : (roundHalfEven (x / (2 : ℚ) ^ e) : ℚ) * (2 : ℚ) ^ e ≤
      (x / (2 : ℚ) ^ e + 1 / 2) * (2 : ℚ) ^ e := mul_le_mul_of_nonneg_right hr hs.le
  have h2 : (x / (2 : ℚ) ^ e + 1 / 2) * (2 : ℚ) ^ e = x + (2 : ℚ) ^ e / 2 := by
    field_simp
    ring
  have h3 : ((2 ^ frac : Int) : ℚ) * (2 : ℚ) ^ e = (2 : ℚ) ^ Int.log 2 x := by
    rw [he]
    exact two_pow_mul_zpow frac (Int.log 2 x)
  have h4 : (2 : ℚ) ^ e / 2 ≤ x / 2 ^ (frac + 1) := by
    rw [pow_succ, div_le_div_iff₀ (by norm_num) (by positivity)]
    push_cast at h3
    nlinarith
  linarith

/-- Rounding a positive number gives a positive number. -/
theorem roundToFormat_pos (frac : Nat) {x : ℚ} (hx : 0 < x) : 0 < roundToFormat frac x := by
  have hb := zpow_log_le_abs x hx.ne'
  rw [abs_of_pos hx] at hb
  exact lt_of_lt_of_le (zpow_pos (by norm_num) _)
    (roundToFormat_mem_binade frac x (Int.log 2 x) hx hb.1 hb.2).1

/-- Below `1` a `float` rounding adds at most `2 ^ (-25)`. -/
theorem toFloat_le_add (x : ℚ) (h0 : 0 ≤ x) (h1 : x < 1) : toFloat x ≤ x + 1 / 33554432 := by
  rcases h0.eq_or_lt with hz | hpos
  · unfold toFloat
    rw [← hz, roundToFormat_zero]
    norm_num
  have hb := (zpow_log_le_abs x hpos.ne').1
  rw [abs_of_pos hpos] at hb
  have hlog : Int.log 2 x < 0 := by
    have : (2 : ℚ) ^ Int.log 2 x < (2 : ℚ) ^ (0 : Int) := by
      rw [zpow_zero]
      exact lt_of_le_of_lt hb h1
    exact (zpow_lt_zpow_iff_right₀ (by norm_num : (1 : ℚ) < 2)).mp this
  unfold toFloat roundToFormat ulpExponent
  rw [abs_of_pos hpos]
  set e : Int := Int.log 2 x - ((23 : Nat) : Int) with he
  have hs : (0 : ℚ) < (2 : ℚ) ^ e := zpow_pos (by norm_num) e
  have hr := (roundHalfEven_sub_le (x / (2 : ℚ) ^ e)).1
  have h1 : (roundHalfEven (x / (2 : ℚ) ^ e) : ℚ) * (2 : ℚ) ^ e ≤
      (x / (2 : ℚ) ^ e + 1 / 2) * (2 : ℚ) ^ e := mul_le_mul_of_nonneg_right hr hs.le
  have h2 : (x / (2 : ℚ) ^ e + 1 / 2) * (2 : ℚ) ^ e = x + (2 : ℚ) ^ e / 2 := by
    field_simp
    ring
  have h3 : (2 : ℚ) ^ e ≤ (2 : ℚ) ^ (-24 : Int) :=
    (zpow_le_zpow_iff_right₀ (by norm_num : (1 : ℚ) < 2)).mpr (by
      rw [he]
      push_cast
      omega)
  have h4 : (2 : ℚ) ^ (-24 : Int) = 1 / 16777216 := by
    rw [zpow_neg]
    norm_num
  rw [h4] at h3
  linarith

/-- The first loop in `float` arithmetic counts, for each bin, the visited
pixels that fall into it, and performs every access in bounds when each index
is in range. -/
theorem depthHistogram_float_count (bin_count : Nat) (cv_image : Mat ℚ)
    (pixels : List Nat) :
    ∀ bins_depth : List Int,
    (∀ i ∈ pixels, 0 ≤ bin_idx_float bin_count cv_image i ∧
      (bin_idx_float bin_count cv_image i).toNat < bins_depth.length) →
    ∃ out, depthHistogram_float bin_count cv_image pixels bins_depth = some out ∧
      out.length = bins_depth.length ∧
      ∀ b : Nat, out.getD b 0 = bins_depth.getD b 0 +
        ((pixels.filter (fun i => bin_idx_float bin_count cv_image i = (b : Int))).length :
          Int) := by
  induction pixels with
  | nil =>
    intro bins_depth _
    exact ⟨bins_depth, rfl, rfl, fun b => by simp⟩
  | cons i rest ih =>
    intro bins_depth h
    have hi := h i (List.mem_cons_self i rest)
    obtain ⟨out, hout, hlen, hget⟩ := ih
      (bins_depth.set (bin_idx_float bin_count cv_image i).toNat
        (bins_depth.getD (bin_idx_float bin_count cv_image i).toNat 0 + 1))
      (fun j hj => by
        rw [List.length_set]
        exact h j (List.mem_cons_of_mem i hj))
    refine ⟨out, ?_, ?_, ?_⟩
    · simp only [depthHistogram_float]
      rw [if_pos hi]
      exact hout
    · rw [hlen, List.length_set]
    · intro b
      rw [hget b, getD_set_eq _ _ _ _ _ hi.2, List.filter_cons]
      by_cases hb : bin_idx_float bin_count cv_image i = (b : Int)
      · have hb2 : b = (bin_idx_float bin_count cv_image i).toNat := by omega
        rw [if_pos hb2]
        simp only [hb, decide_True, if_true, List.length_cons, Int.toNat_ofNat]
        push_cast
        ring
      · have hb2 : ¬ b = (bin_idx_float bin_count cv_image i).toNat := by omega
        rw [if_neg hb2]
        simp only [hb, decide_False]
        rfl

/-- The second loop in `float` arithmetic adds to each bin, one rounded
addition after the other and in visiting order, the intensity of every visited
pixel that falls into it. -/
theorem accumulateIntensity_float_fold (tanh : ℚ → ℚ) (bin_count : Nat)
    (cv_image : Mat ℚ) (bins_depth : List Int) (pixels : List Nat) :
    ∀ bins : List ℚ,
    (∀ i ∈ pixels, 0 ≤ bin_idx_float bin_count cv_image i ∧
      (bin_idx_float bin_count cv_image i).toNat < bins_depth.length ∧
      (bin_idx_float bin_count cv_image i).toNat < bins.length) →
    ∃ out, accumulateIntensity_float tanh bin_count cv_image bins_depth pixels bins =
        some out ∧
      out.length = bins.length ∧
      ∀ b : Nat, out.getD b 0 =
        (pixels.filter (fun i => bin_idx_float bin_count cv_image i = (b : Int))).foldl
          (fun v i => toFloat (v +
            intensity_float tanh (bins_depth.getD b 0) (cv_image.ptr (i * 3))))
          (bins.getD b 0) := by
  induction pixels with
  | nil =>
    intro bins _
    exact ⟨bins, rfl, rfl, fun b => by simp⟩
  | cons i rest ih =>
    intro bins h
    have hi := h i (List.mem_cons_self i rest)
    obtain ⟨out, hout, hlen, hget⟩ := ih
      (bins.set (bin_idx_float bin_count cv_image i).toNat
        (toFloat (bins.getD (bin_idx_float bin_count cv_image i).toNat 0 +
          intensity_float tanh
            (bins_depth.getD (bin_idx_float bin_count cv_image i).toNat 0)
            (cv_image.ptr (i * 3)))))
      (fun j hj => by
        rw [List.length_set]
        exact h j (List.mem_cons_of_mem i hj))
    refine ⟨out, ?_, ?_, ?_⟩
    · simp only [accumulateIntensity_float]
      rw [if_pos hi]
      exact hout
    · rw [hlen, List.length_set]
    · intro b
      rw [hget b, getD_set_eq _ _ _ _ _ hi.2.2, List.filter_cons]
      by_cases hb : bin_idx_float bin_count cv_image i = (b : Int)
      · have hb2 : b = (bin_idx_float bin_count cv_image i).toNat := by omega
        rw [if_pos hb2]
        simp only [hb, decide_True, if_true, List.foldl_cons, Int.toNat_ofNat]
      · have hb2 : ¬ b = (bin_idx_float bin_count cv_image i).toNat := by omega
        rw [if_neg hb2]
        simp only [hb, decide_False]
        rfl

/-- The decoder in `float` arithmetic on a region whose bin indices are all in
range: it returns `bin_count` values, bin `b` holding the result of adding, one
rounded addition after the other, the intensities of its pixels. -/
theorem convertShader_float_getD (tanh : ℚ → ℚ) (s : Sonar ℚ Time) (cv_image : Mat ℚ)
    (hidx : ∀ i < cv_image.cols * cv_image.rows,
      0 ≤ bin_idx_float s.bin_count cv_image i ∧
      (bin_idx_float s.bin_count cv_image i).toNat < s.bin_count) :
    ∃ bins, s.convertShader_float tanh cv_image = some bins ∧ bins.length = s.bin_count ∧
      ∀ b : Nat, bins.getD b 0 =
        (binPixels_float s.bin_count cv_image b).foldl
          (fun v i => toFloat (v + intensity_float tanh
            ((binPixels_float s.bin_count cv_image b).length : Int) (cv_image.ptr (i * 3)))) 0 := by
  have hidx2 : ∀ i ∈ List.range (cv_image.cols * cv_image.rows),
      0 ≤ bin_idx_float s.bin_count cv_image i ∧
      (bin_idx_float s.bin_count cv_image i).toNat < s.bin_count := fun i hi =>
    hidx i (List.mem_range.mp hi)
  obtain ⟨dep, hdep, hdlen, hdget⟩ := depthHistogram_float_count s.bin_count cv_image
    (List.range (cv_image.cols * cv_image.rows)) (List.replicate s.bin_count 0)
    (fun i hi => by
      rw [List.length_replicate]
      exact hidx2 i hi)
  rw [List.length_replicate] at hdlen
  obtain ⟨out, hout, holen, hoget⟩ := accumulateIntensity_float_fold tanh s.bin_count cv_image
    dep (List.range (cv_image.cols * cv_image.rows)) (List.replicate s.bin_count 0)
    (fun i hi => by
      rw [List.length_replicate, hdlen]
      exact ⟨(hidx2 i hi).1, (hidx2 i hi).2, (hidx2 i hi).2⟩)
  rw [List.length_replicate] at holen
  refine ⟨out, ?_, holen, ?_⟩
  · simp only [Sonar.convertShader_float, hdep]
    exact hout
  · intro b
    have hz : ∀ (α : Type) [Zero α] (n : Nat), (List.replicate n (0 : α)).getD b 0 = 0 := by
      intro α _ n
      rw [List.getD_eq_getElem?_getD, List.getElem?_replicate]
      split_ifs <;> rfl
    rw [hoget b, hdget b, hz ℚ, hz Int, zero_add]
    rfl

/-- The `float` constant `x0` of the sigmoid: the `float` nearest
`0.666666667` is `11184811 / 2 ^ 24`. -/
theorem sigmoid_float_x0 : toFloat (toDouble 0.666666667) = 11184811 / 16777216 := by
  have h1 : toDouble 0.666666667 = 6004799506163061 / 9007199254740992 := by
    unfold toDouble
    rw [roundToFormat_eq_of_near 52 0.666666667 (-1) 6004799506163061
      (by rw [abs_of_pos (by norm_num)]; norm_num)
      (by rw [abs_of_pos (by norm_num)]; norm_num)
      (by rw [abs_lt]; constructor <;> norm_num)]
    norm_num
  rw [h1]
  unfold toFloat
  rw [roundToFormat_eq_of_near 23 (6004799506163061 / 9007199254740992) (-1) 11184811
    (by rw [abs_of_pos (by norm_num)]; norm_num)
    (by rw [abs_of_pos (by norm_num)]; norm_num)
    (by rw [abs_lt]; constructor <;> norm_num)]
  norm_num

/-- The argument of `tanh` in the `float` sigmoid at amplitude `1`:
`3 - 2 ^ (-22)`. -/
theorem sigmoid_float_arg_one :
    toDouble (0.5 * toFloat (toFloat (1 - toFloat (toDouble 0.666666667)) * toFloat 18)) =
      12582911 / 4194304 := by
  have hbeta : toFloat 18 = 18 := by exact_mod_cast toFloat_natCast 18 (by norm_num)
  have h1 : toFloat (1 - 11184811 / 16777216) = 5592405 / 16777216 := by
    have := roundToFormat_of_representable 23 5592405 (-24) (by norm_num)
    unfold toFloat
    norm_num at this ⊢
    exact this
  have h2 : toFloat (5592405 / 16777216 * 18) = 12582911 / 2097152 := by
    unfold toFloat
    rw [roundToFormat_eq_of_near 23 (5592405 / 16777216 * 18) 2 12582911
      (by rw [abs_of_pos (by norm_num)]; norm_num)
      (by rw [abs_of_pos (by norm_num)]; norm_num)
      (by rw [abs_lt]; constructor <;> norm_num)]
    norm_num
  have h3 : toDouble (0.5 * (12582911 / 2097152)) = 12582911 / 4194304 := by
    have := roundToFormat_of_representable 52 12582911 (-22) (by norm_num)
    unfold toDouble
    norm_num at this ⊢
    exact this
  rw [sigmoid_float_x0, hbeta, h1, h2, h3]

/-- The real hyperbolic tangent at `3 - 2 ^ (-22)`, to eight decimal places. -/
theorem tanh_near_three :
    (2136863619 / 2147483648 : ℝ) ≤ Real.tanh (12582911 / 4194304) ∧
    Real.tanh (12582911 / 4194304) ≤ (2136863869 / 2147483648 : ℝ) := by
  have hlo := Real.exp_one_gt_d9
  have hhi := Real.exp_one_lt_d9
  have e6 : Real.exp 6 = Real.exp 1 ^ 6 := by
    rw [← Real.exp_nat_mul]
    norm_num
  have h6lo : (2.7182818283 : ℝ) ^ 6 ≤ Real.exp 6 := by
    rw [e6]
    exact pow_le_pow_left₀ (by norm_num) hlo.le 6
  have h6hi : Real.exp 6 ≤ (2.7182818286 : ℝ) ^ 6 := by
    rw [e6]
    exact pow_le_pow_left₀ (Real.exp_pos 1).le hhi.le 6
  have hsplit : Real.exp (2 * (12582911 / 4194304)) = Real.exp 6 * Real.exp (-(1 / 2097152)) := by
    rw [← Real.exp_add]
    congr 1
    norm_num
  have hsmall : (1 : ℝ) - 1 / 2097152 ≤ Real.exp (-(1 / 2097152)) := by
    have := Real.add_one_le_exp (-(1 / 2097152 : ℝ))
    linarith
  have hsmall1 : Real.exp (-(1 / 2097152)) ≤ 1 := by
    rw [← Real.exp_zero]
    exact Real.exp_le_exp.mpr (by norm_num)
  have h6pos : (0 : ℝ) < Real.exp 6 := Real.exp_pos 6
  have hElo : (2.7182818283 : ℝ) ^ 6 * (1 - 1 / 2097152) ≤
      Real.exp (2 * (12582911 / 4194304)) := by
    rw [hsplit]
    exact mul_le_mul h6lo hsmall (by norm_num) h6pos.le
  have hEhi : Real.exp (2 * (12582911 / 4194304)) ≤ (2.7182818286 : ℝ) ^ 6 := by
    rw [hsplit]
    calc Real.exp 6 * Real.exp (-(1 / 2097152)) ≤ Real.exp 6 * 1 :=
          mul_le_mul_of_nonneg_left hsmall1 h6pos.le
      _ = Real.exp 6 := mul_one _
      _ ≤ _ := h6hi
  rw [tanh_eq_exp]
  constructor
  · have h : 2 / (Real.exp (2 * (12582911 / 4194304)) + 1) ≤
        2 / ((2.7182818283 : ℝ) ^ 6 * (1 - 1 / 2097152) + 1) :=
      div_le_div_of_nonneg_left (by norm_num) (by norm_num) (by linarith)
    have hn : (2136863619 / 2147483648 : ℝ) ≤
        1 - 2 / ((2.7182818283 : ℝ) ^ 6 * (1 - 1 / 2097152) + 1) := by norm_num
    linarith
  · have h : 2 / ((2.7182818286 : ℝ) ^ 6 + 1) ≤
        2 / (Real.exp (2 * (12582911 / 4194304)) + 1) :=
      div_le_div_of_nonneg_left (by norm_num) (by positivity) (by linarith)
    have hn : 1 - 2 / ((2.7182818286 : ℝ) ^ 6 + 1) ≤ (2136863869 / 2147483648 : ℝ) := by
      norm_num
    linarith

/-- With a library `tanh` within `2 ^ (-31)` of the hyperbolic tangent, the
`float` sigmoid at amplitude `1` is `4183933 / 2 ^ 22`, about `0.99752736`. -/
theorem sigmoid_float_one (tanh : ℚ → ℚ)
    (hacc : ∀ q : ℚ, |((tanh q : ℚ) : ℝ) - Real.tanh (q : ℝ)| ≤ 1 / 2147483648) :
    sigmoid_float tanh 1 = 4183933 / 4194304 := by
  unfold sigmoid_float
  simp only [sigmoid_float_arg_one]
  have hab := abs_le.mp (hacc (12582911 / 4194304))
  have hreal := tanh_near_three
  have hcast : (((12582911 / 4194304 : ℚ) : ℚ) : ℝ) = (12582911 / 4194304 : ℝ) := by
    push_cast
    rfl
  rw [hcast] at hab
  have hTlo : ((1068431809 : Int) : ℚ) / 1073741824 ≤ tanh (12582911 / 4194304) := by
    have : ((((1068431809 : Int) : ℚ) / 1073741824 : ℚ) : ℝ) ≤
        ((tanh (12582911 / 4194304) : ℚ) : ℝ) := by
      push_cast
      linarith [hab.1, hreal.1]
    exact Rat.cast_le.mp this
  have hThi : tanh (12582911 / 4194304) ≤ ((1068431935 : Int) : ℚ) / 1073741824 := by
    have : ((tanh (12582911 / 4194304) : ℚ) : ℝ) ≤
        ((((1068431935 : Int) : ℚ) / 1073741824 : ℚ) : ℝ) := by
      push_cast
      linarith [hab.2, hreal.2]
    exact Rat.cast_le.mp this
  generalize tanh (12582911 / 4194304) = th at hTlo hThi
  have hlo1 := toDouble_mono (show ((1068431809 : Int) : ℚ) / 2147483648 ≤ 0.5 * th by
    norm_num at hTlo ⊢
    linarith)
  have hhi1 := toDouble_mono (show 0.5 * th ≤ ((1068431935 : Int) : ℚ) / 2147483648 by
    norm_num at hThi ⊢
    linarith)
  rw [toDouble_dyadic _ (by norm_num)] at hlo1 hhi1
  have hlo2 := toDouble_mono (show ((2142173633 : Int) : ℚ) / 2147483648 ≤
      toDouble (0.5 * th) + 0.5 by
    norm_num at hlo1 ⊢
    linarith)
  have hhi2 := toDouble_mono (show toDouble (0.5 * th) + 0.5 ≤
      ((2142173759 : Int) : ℚ) / 2147483648 by
    norm_num at hhi1 ⊢
    linarith)
  rw [toDouble_dyadic _ (by norm_num)] at hlo2 hhi2
  have hlo3 := toFloat_mono hlo2
  have hhi3 := toFloat_mono hhi2
  have elo : toFloat (((2142173633 : Int) : ℚ) / 2147483648) = 4183933 / 4194304 := by
    unfold toFloat
    rw [roundToFormat_eq_of_near 23 (((2142173633 : Int) : ℚ) / 2147483648) (-1) 16735732
      (by rw [abs_of_pos (by norm_num)]; norm_num)
      (by rw [abs_of_pos (by norm_num)]; norm_num)
      (by rw [abs_lt]; constructor <;> norm_num)]
    norm_num
  have ehi : toFloat (((2142173759 : Int) : ℚ) / 2147483648) = 4183933 / 4194304 := by
    unfold toFloat
    rw [roundToFormat_eq_of_near 23 (((2142173759 : Int) : ℚ) / 2147483648) (-1) 16735732
      (by rw [abs_of_pos (by norm_num)]; norm_num)
      (by rw [abs_of_pos (by norm_num)]; norm_num)
      (by rw [abs_lt]; constructor <;> norm_num)]
    norm_num
  rw [elo] at hlo3
  rw [ehi] at hhi3
  exact le_antisymm hhi3 hlo3

/-- One `float` addition of a non-negative increment to a sum that stays in
its binade: when the increment is within less than one half of `k` units in
the last place of the sum, the sum grows by exactly `k` units. -/
theorem toFloat_add_of_near (c : ℚ) (e : Int) (k m : Nat) (hc : 0 ≤ c)
    (hk : |c / (2 : ℚ) ^ e - (k : ℚ)| < 1 / 2)
    (hm : 8388608 ≤ m) (hmk : m + k < 16777216) :
    toFloat ((m : ℚ) * (2 : ℚ) ^ e + c) = ((m + k : Nat) : ℚ) * (2 : ℚ) ^ e := by
  have hs : (0 : ℚ) < (2 : ℚ) ^ e := zpow_pos (by norm_num) e
  have hk2 := abs_lt.mp hk
  have hdiv : ((m : ℚ) * (2 : ℚ) ^ e + c) / (2 : ℚ) ^ e = (m : ℚ) + c / (2 : ℚ) ^ e := by
    field_simp
  have hx : (m : ℚ) * (2 : ℚ) ^ e + c = ((m : ℚ) + c / (2 : ℚ) ^ e) * (2 : ℚ) ^ e := by
    field_simp
  have hmq : (8388608 : ℚ) ≤ (m : ℚ) := by exact_mod_cast hm
  have hmkq : (m : ℚ) + (k : ℚ) ≤ 16777215 := by
    have : m + k ≤ 16777215 := by omega
    exact_mod_cast this
  have hcs : 0 ≤ c / (2 : ℚ) ^ e := div_nonneg hc hs.le
  have hpos : 0 < (m : ℚ) * (2 : ℚ) ^ e + c := by
    have : 0 < (m : ℚ) * (2 : ℚ) ^ e := mul_pos (by linarith) hs
    linarith
  have e23 : (2 : ℚ) ^ (e + 23) = 8388608 * (2 : ℚ) ^ e := by
    rw [zpow_add₀ (by norm_num : (2 : ℚ) ≠ 0)]
    norm_num
    ring
  have e24 : (2 : ℚ) ^ (e + 23 + 1) = 16777216 * (2 : ℚ) ^ e := by
    rw [zpow_add₀ (by norm_num : (2 : ℚ) ≠ 0), e23]
    norm_num
    ring
  have hsub : e + 23 - ((23 : Nat) : Int) = e := by
    push_cast
    ring
  unfold toFloat
  rw [roundToFormat_eq_of_near 23 _ (e + 23) ((m + k : Nat) : Int)
    (by
      rw [abs_of_pos hpos, e23, hx]
      exact mul_le_mul_of_nonneg_right (by linarith) hs.le)
    (by
      rw [abs_of_pos hpos, e24, hx]
      exact mul_lt_mul_of_pos_right (by linarith) hs)
    (by
      rw [hsub, hdiv]
      push_cast
      rw [abs_lt]
      constructor <;> linarith)]
  rw [hsub]
  push_cast
  rfl

/-- One `float` addition of a positive increment that carries the sum into the
next binade. -/
theorem toFloat_add_carry (c : ℚ) (e : Int) (m z : Nat)
    (h1 : (16777216 : ℚ) ≤ (m : ℚ) + c / (2 : ℚ) ^ e)
    (h2 : (m : ℚ) + c / (2 : ℚ) ^ e < 33554432)
    (hz : |((m : ℚ) + c / (2 : ℚ) ^ e) / 2 - (z : ℚ)| < 1 / 2) :
    toFloat ((m : ℚ) * (2 : ℚ) ^ e + c) = (z : ℚ) * (2 : ℚ) ^ (e + 1) := by
  have hs : (0 : ℚ) < (2 : ℚ) ^ e := zpow_pos (by norm_num) e
  have hx : (m : ℚ) * (2 : ℚ) ^ e + c = ((m : ℚ) + c / (2 : ℚ) ^ e) * (2 : ℚ) ^ e := by
    field_simp
  have e1 : (2 : ℚ) ^ (e + 1) = 2 * (2 : ℚ) ^ e := by
    rw [zpow_add₀ (by norm_num : (2 : ℚ) ≠ 0)]
    norm_num
    ring
  have e24 : (2 : ℚ) ^ (e + 24) = 16777216 * (2 : ℚ) ^ e := by
    rw [zpow_add₀ (by norm_num : (2 : ℚ) ≠ 0)]
    norm_num
    ring
  have e25 : (2 : ℚ) ^ (e + 24 + 1) = 33554432 * (2 : ℚ) ^ e := by
    rw [zpow_add₀ (by norm_num : (2 : ℚ) ≠ 0), e24]
    norm_num
    ring
  have hsub : e + 24 - ((23 : Nat) : Int) = e + 1 := by
    push_cast
    ring
  have hdiv : ((m : ℚ) * (2 : ℚ) ^ e + c) / (2 : ℚ) ^ (e + 1) =
      ((m : ℚ) + c / (2 : ℚ) ^ e) / 2 := by
    rw [e1, hx, mul_comm 2, ← div_div, mul_div_assoc, div_self hs.ne', mul_one]
  have hpos : 0 < (m : ℚ) * (2 : ℚ) ^ e + c := by
    rw [hx]
    exact mul_pos (by linarith) hs
  unfold toFloat
  rw [roundToFormat_eq_of_near 23 _ (e + 24) (z : Int)
    (by
      rw [abs_of_pos hpos, e24, hx]
      exact mul_le_mul_of_nonneg_right h1 hs.le)
    (by
      rw [abs_of_pos hpos, e25, hx]
      exact mul_lt_mul_of_pos_right h2 hs)
    (by
      rw [hsub, hdiv]
      exact_mod_cast hz)]
  rw [hsub]
  push_cast
  rfl

/-- One `float` addition of an increment that falls halfway between two
neighbours of the sum: the even neighbour is taken. -/
theorem toFloat_add_of_tie (c : ℚ) (e : Int) (k m : Nat)
    (hk : c / (2 : ℚ) ^ e = (k : ℚ) - 1 / 2) (hk1 : 1 ≤ k) (hpar : (m + k) % 2 = 0)
    (hm : 8388608 ≤ m) (hmk : m + k < 16777216) :
    toFloat ((m : ℚ) * (2 : ℚ) ^ e + c) = ((m + k : Nat) : ℚ) * (2 : ℚ) ^ e := by
  have hs : (0 : ℚ) < (2 : ℚ) ^ e := zpow_pos (by norm_num) e
  have hdiv : ((m : ℚ) * (2 : ℚ) ^ e + c) / (2 : ℚ) ^ e = (m : ℚ) + c / (2 : ℚ) ^ e := by
    field_simp
  have hx : (m : ℚ) * (2 : ℚ) ^ e + c = ((m : ℚ) + c / (2 : ℚ) ^ e) * (2 : ℚ) ^ e := by
    field_simp
  have hmq : (8388608 : ℚ) ≤ (m : ℚ) := by exact_mod_cast hm
  have hkq : (1 : ℚ) ≤ (k : ℚ) := by exact_mod_cast hk1
  have hmkq : (m : ℚ) + (k : ℚ) ≤ 16777215 := by
    have : m + k ≤ 16777215 := by omega
    exact_mod_cast this
  have hpos : 0 < (m : ℚ) * (2 : ℚ) ^ e + c := by
    rw [hx, hk]
    exact mul_pos (by linarith) hs
  have e23 : (2 : ℚ) ^ (e + 23) = 8388608 * (2 : ℚ) ^ e := by
    rw [zpow_add₀ (by norm_num : (2 : ℚ) ≠ 0)]
    norm_num
    ring
  have e24 : (2 : ℚ) ^ (e + 23 + 1) = 16777216 * (2 : ℚ) ^ e := by
    rw [zpow_add₀ (by norm_num : (2 : ℚ) ≠ 0), e23]
    norm_num
    ring
  have hsub : e + 23 - ((23 : Nat) : Int) = e := by
    push_cast
    ring
  unfold toFloat
  rw [roundToFormat_of_binade 23 _ (e + 23)
    (by
      rw [abs_of_pos hpos, e23, hx, hk]
      exact mul_le_mul_of_nonneg_right (by linarith) hs.le)
    (by
      rw [abs_of_pos hpos, e24, hx, hk]
      exact mul_lt_mul_of_pos_right (by linarith) hs)]
  rw [hsub, hdiv, hk]
  have hz : (m : ℚ) + ((k : ℚ) - 1 / 2) = (((m + k : Nat) : Int) - 1 : Int) + 1 / 2 := by
    push_cast
    ring
  rw [hz, roundHalfEven_tie]
  have hodd : (((m + k : Nat) : Int) - 1) % 2 ≠ 0 := by omega
  rw [if_neg hodd]
  push_cast
  ring

/-- Repeated `float` additions of the same increment within one binade. -/
theorem iterate_toFloat_add_of_near (c : ℚ) (e : Int) (k : Nat) (hc : 0 ≤ c)
    (hk : |c / (2 : ℚ) ^ e - (k : ℚ)| < 1 / 2) :
    ∀ (n m m2 : Nat), 8388608 ≤ m → m + n * k = m2 → m2 < 16777216 →
      (fun v : ℚ => toFloat (v + c))^[n] ((m : ℚ) * (2 : ℚ) ^ e) =
        (m2 : ℚ) * (2 : ℚ) ^ e := by
  intro n
  induction n with
  | zero =>
    intro m m2 _ h _
    rw [← h]
    simp
  | succ n ih =>
    intro m m2 hm h hlt
    have hmk : m + k < 16777216 := by
      have : m + k ≤ m + (n + 1) * k := by
        rw [Nat.add_mul, one_mul]
        omega
      omega
    rw [Function.iterate_succ_apply]
    show (fun v : ℚ => toFloat (v + c))^[n] (toFloat ((m : ℚ) * (2 : ℚ) ^ e + c)) = _
    rw [toFloat_add_of_near c e k m hc hk hm hmk]
    exact ih (m + k) m2 (by omega) (by rw [← h, Nat.add_mul, one_mul]; omega) hlt

/-- Repeated `float` additions of the same increment within one binade, each
falling halfway between two neighbours of an even sum. -/
theorem iterate_toFloat_add_of_tie (c : ℚ) (e : Int) (k : Nat)
    (hk : c / (2 : ℚ) ^ e = (k : ℚ) - 1 / 2) (hk1 : 1 ≤ k) (hk2 : k % 2 = 0) :
    ∀ (n m m2 : Nat), 8388608 ≤ m → m % 2 = 0 → m + n * k = m2 → m2 < 16777216 →
      (fun v : ℚ => toFloat (v + c))^[n] ((m : ℚ) * (2 : ℚ) ^ e) =
        (m2 : ℚ) * (2 : ℚ) ^ e := by
  intro n
  induction n with
  | zero =>
    intro m m2 _ _ h _
    rw [← h]
    simp
  | succ n ih =>
    intro m m2 hm hpar h hlt
    have hmk : m + k < 16777216 := by
      have : m + k ≤ m + (n + 1) * k := by
        rw [Nat.add_mul, one_mul]
        omega
      omega
    rw [Function.iterate_succ_apply]
    show (fun v : ℚ => toFloat (v + c))^[n] (toFloat ((m : ℚ) * (2 : ℚ) ^ e + c)) = _
    rw [toFloat_add_of_tie c e k m hk hk1 (by omega) hm hmk]
    exact ih (m + k) m2 (by omega) (by omega) (by rw [← h, Nat.add_mul, one_mul]; omega) hlt

/-- The `float` sum of `168198` equal increments `1630211 / 2 ^ 38`, added one
after the other to `0`: the sum passes through nineteen binades, in each of
which every addition rounds to the same number of units in the last place, and
ends at `8388823 / 2 ^ 23`, above `1`. -/
theorem iterate_toFloat_add_fullBin :
    (fun v : ℚ => toFloat (v + 1630211 / 274877906944))^[168198] 0 = 8388823 / 8388608 := by
  have hc : (0 : ℚ) ≤ 1630211 / 274877906944 := by norm_num
  have h0 :
      (fun v : ℚ => toFloat (v + 1630211 / 274877906944))^[1] 0 =
      (((13041688 : Nat) : ℚ) * (2 : ℚ) ^ (-41 : Int)) := by
    rw [Function.iterate_one]
    show toFloat (0 + 1630211 / 274877906944) = _
    have hr := roundToFormat_of_representable 23 13041688 (-41) (by norm_num)
    have hv : (0 : ℚ) + 1630211 / 274877906944 =
        ((13041688 : Int) : ℚ) * (2 : ℚ) ^ (-41 : Int) := by norm_num
    unfold toFloat
    rw [hv, hr]
    push_cast
    rfl
  have a0 :
      (fun v : ℚ => toFloat (v + 1630211 / 274877906944))^[0]
        (((13041688 : Nat) : ℚ) * (2 : ℚ) ^ (-41 : Int)) =
      (((13041688 : Nat) : ℚ) * (2 : ℚ) ^ (-41 : Int)) :=
    iterate_toFloat_add_of_near (1630211 / 274877906944) (-41) 13041688 hc
      (by rw [abs_lt]; constructor <;> norm_num) 0 13041688 13041688
      (by norm_num) (by norm_num) (by norm_num)
  have b0 :
      toFloat ((((13041688 : Nat) : ℚ) * (2 : ℚ) ^ (-41 : Int)) + 1630211 / 274877906944) =
      (((13041688 : Nat) : ℚ) * (2 : ℚ) ^ (-40 : Int)) := by
    have h := toFloat_add_carry (1630211 / 274877906944) (-41) 13041688 13041688
      (by norm_num) (by norm_num) (by rw [abs_lt]; constructor <;> norm_num)
    rw [show ((-41 : Int) + 1) = (-40 : Int) by norm_num] at h
    exact h
  have h1 :
      (fun v : ℚ => toFloat (v + 1630211 / 274877906944))^[2] 0 =
      (((13041688 : Nat) : ℚ) * (2 : ℚ) ^ (-40 : Int)) := by
    rw [show (2 : Nat) = 1 + (0 + 1) by norm_num, Function.iterate_add_apply,
      Function.iterate_add_apply, h0, a0, Function.iterate_one]
    exact b0
  have a1 :
      (fun v : ℚ => toFloat (v + 1630211 / 274877906944))^[0]
        (((13041688 : Nat) : ℚ) * (2 : ℚ) ^ (-40 : Int)) =
      (((13041688 : Nat) : ℚ) * (2 : ℚ) ^ (-40 : Int)) :=
    iterate_toFloat_add_of_near (1630211 / 274877906944) (-40) 6520844 hc
      (by rw [abs_lt]; constructor <;> norm_num) 0 13041688 13041688
      (by norm_num) (by norm_num) (by norm_num)
  have b1 :
      toFloat ((((13041688 : Nat) : ℚ) * (2 : ℚ) ^ (-40 : Int)) + 1630211 / 274877906944) =
      (((9781266 : Nat) : ℚ) * (2 : ℚ) ^ (-39 : Int)) := by
    have h := toFloat_add_carry (1630211 / 274877906944) (-40) 13041688 9781266
      (by norm_num) (by norm_num) (by rw [abs_lt]; constructor <;> norm_num)
    rw [show ((-40 : Int) + 1) = (-39 : Int) by norm_num] at h
    exact h
  have h2 :
      (fun v : ℚ => toFloat (v + 1630211 / 274877906944))^[3] 0 =
      (((9781266 : Nat) : ℚ) * (2 : ℚ) ^ (-39 : Int)) := by
    rw [show (3 : Nat) = 1 + (0 + 2) by norm_num, Function.iterate_add_apply,
      Function.iterate_add_apply, h1, a1, Function.iterate_one]
    exact b1
  have a2 :
      (fun v : ℚ => toFloat (v + 1630211 / 274877906944))^[2]
        (((9781266 : Nat) : ℚ) * (2 : ℚ) ^ (-39 : Int)) =
      (((16302110 : Nat) : ℚ) * (2 : ℚ) ^ (-39 : Int)) :=
    iterate_toFloat_add_of_near (1630211 / 274877906944) (-39) 3260422 hc
      (by rw [abs_lt]; constructor <;> norm_num) 2 9781266 16302110
      (by norm_num) (by norm_num) (by norm_num)
  have b2 :
      toFloat ((((16302110 : Nat) : ℚ) * (2 : ℚ) ^ (-39 : Int)) + 1630211 / 274877906944) =
      (((9781266 : Nat) : ℚ) * (2 : ℚ) ^ (-38 : Int)) := by
    have h := toFloat_add_carry (1630211 / 274877906944) (-39) 16302110 9781266
      (by norm_num) (by norm_num) (by rw [abs_lt]; constructor <;> norm_num)
    rw [show ((-39 : Int) + 1) = (-38 : Int) by norm_num] at h
    exact h
  have h3 :
      (fun v : ℚ => toFloat (v + 1630211 / 274877906944))^[6] 0 =
      (((9781266 : Nat) : ℚ) * (2 : ℚ) ^ (-38 : Int)) := by
    rw [show (6 : Nat) = 1 + (2 + 3) by norm_num, Function.iterate_add_apply,
      Function.iterate_add_apply, h2, a2, Function.iterate_one]
    exact b2
  have a3 :
      (fun v : ℚ => toFloat (v + 1630211 / 274877906944))^[4]
        (((9781266 : Nat) : ℚ) * (2 : ℚ) ^ (-38 : Int)) =
      (((16302110 : Nat) : ℚ) * (2 : ℚ) ^ (-38 : Int)) :=
    iterate_toFloat_add_of_near (1630211 / 274877906944) (-38) 1630211 hc
      (by rw [abs_lt]; constructor <;> norm_num) 4 9781266 16302110
      (by norm_num) (by norm_num) (by norm_num)
  have b3 :
      toFloat ((((16302110 : Nat) : ℚ) * (2 : ℚ) ^ (-38 : Int)) + 1630211 / 274877906944) =
      (((8966160 : Nat) : ℚ) * (2 : ℚ) ^ (-37 : Int)) := by
    unfold toFloat
    rw [roundToFormat_of_binade 23 _ (-14)
      (by rw [abs_of_pos (by norm_num)]; norm_num)
      (by rw [abs_of_pos (by norm_num)]; norm_num)]
    have hq : ((((16302110 : Nat) : ℚ) * (2 : ℚ) ^ (-38 : Int)) + 1630211 / 274877906944) /
        (2 : ℚ) ^ ((-14 : Int) - ((23 : Nat) : Int)) =
        ((8966160 : Int) : ℚ) + 1 / 2 := by norm_num
    rw [hq, roundHalfEven_tie, if_pos (by decide)]
    norm_num
  have h4 :
      (fun v : ℚ => toFloat (v + 1630211 / 274877906944))^[11] 0 =
      (((8966160 : Nat) : ℚ) * (2 : ℚ) ^ (-37 : Int)) := by
    rw [show (11 : Nat) = 1 + (4 + 6) by norm_num, Function.iterate_add_apply,
      Function.iterate_add_apply, h3, a3, Function.iterate_one]
    exact b3
  have a4 :
      (fun v : ℚ => toFloat (v + 1630211 / 274877906944))^[9]
        (((8966160 : Nat) : ℚ) * (2 : ℚ) ^ (-37 : Int)) =
      (((16302114 : Nat) : ℚ) * (2 : ℚ) ^ (-37 : Int)) :=
    iterate_toFloat_add_of_tie (1630211 / 274877906944) (-37) 815106 (by norm_num) (by norm_num)
      (by norm_num) 9 8966160 16302114 (by norm_num) (by norm_num) (by norm_num) (by norm_num)
  have b4 :
      toFloat ((((16302114 : Nat) : ℚ) * (2 : ℚ) ^ (-37 : Int)) + 1630211 / 274877906944) =
      (((8558610 : Nat) : ℚ) * (2 : ℚ) ^ (-36 : Int)) := by
    have h := toFloat_add_carry (1630211 / 274877906944) (-37) 16302114 8558610
      (by norm_num) (by norm_num) (by rw [abs_lt]; constructor <;> norm_num)
    rw [show ((-37 : Int) + 1) = (-36 : Int) by norm_num] at h
    exact h
  have h5 :
      (fun v : ℚ => toFloat (v + 1630211 / 274877906944))^[21] 0 =
      (((8558610 : Nat) : ℚ) * (2 : ℚ) ^ (-36 : Int)) := by
    rw [show (21 : Nat) = 1 + (9 + 11) by norm_num, Function.iterate_add_apply,
      Function.iterate_add_apply, h4, a4, Function.iterate_one]
    exact b4
  have a5 :
      (fun v : ℚ => toFloat (v + 1630211 / 274877906944))^[20]
        (((8558610 : Nat) : ℚ) * (2 : ℚ) ^ (-36 : Int)) =
      (((16709670 : Nat) : ℚ) * (2 : ℚ) ^ (-36 : Int)) :=
    iterate_toFloat_add_of_near (1630211 / 274877906944) (-36) 407553 hc
      (by rw [abs_lt]; constructor <;> norm_num) 20 8558610 16709670
      (by norm_num) (by norm_num) (by norm_num)
  have b5 :
      toFloat ((((16709670 : Nat) : ℚ) * (2 : ℚ) ^ (-36 : Int)) + 1630211 / 274877906944) =
      (((8558611 : Nat) : ℚ) * (2 : ℚ) ^ (-35 : Int)) := by
    have h := toFloat_add_carry (1630211 / 274877906944) (-36) 16709670 8558611
      (by norm_num) (by norm_num) (by rw [abs_lt]; constructor <;> norm_num)
    rw [show ((-36 : Int) + 1) = (-35 : Int) by norm_num] at h
    exact h
  have h6 :
      (fun v : ℚ => toFloat (v + 1630211 / 274877906944))^[42] 0 =
      (((8558611 : Nat) : ℚ) * (2 : ℚ) ^ (-35 : Int)) := by
    rw [show (42 : Nat) = 1 + (20 + 21) by norm_num, Function.iterate_add_apply,
      Function.iterate_add_apply, h5, a5, Function.iterate_one]
    exact b5
  have a6 :
      (fun v : ℚ => toFloat (v + 1630211 / 274877906944))^[40]
        (((8558611 : Nat) : ℚ) * (2 : ℚ) ^ (-35 : Int)) =
      (((16709651 : Nat) : ℚ) * (2 : ℚ) ^ (-35 : Int)) :=
    iterate_toFloat_add_of_near (1630211 / 274877906944) (-35) 203776 hc
      (by rw [abs_lt]; constructor <;> norm_num) 40 8558611 16709651
      (by norm_num) (by norm_num) (by norm_num)
  have b6 :
      toFloat ((((16709651 : Nat) : ℚ) * (2 : ℚ) ^ (-35 : Int)) + 1630211 / 274877906944) =
      (((8456714 : Nat) : ℚ) * (2 : ℚ) ^ (-34 : Int)) := by
    have h := toFloat_add_carry (1630211 / 274877906944) (-35) 16709651 8456714
      (by norm_num) (by norm_num) (by rw [abs_lt]; constructor <;> norm_num)
    rw [show ((-35 : Int) + 1) = (-34 : Int) by norm_num] at h
    exact h
  have h7 :
      (fun v : ℚ => toFloat (v + 1630211 / 274877906944))^[83] 0 =
      (((8456714 : Nat) : ℚ) * (2 : ℚ) ^ (-34 : Int)) := by
    rw [show (83 : Nat) = 1 + (40 + 42) by norm_num, Function.iterate_add_apply,
      Function.iterate_add_apply, h6, a6, Function.iterate_one]
    exact b6
  have a7 :
      (fun v : ℚ => toFloat (v + 1630211 / 274877906944))^[81]
        (((8456714 : Nat) : ℚ) * (2 : ℚ) ^ (-34 : Int)) =
      (((16709642 : Nat) : ℚ) * (2 : ℚ) ^ (-34 : Int)) :=
    iterate_toFloat_add_of_near (1630211 / 274877906944) (-34) 101888 hc
      (by rw [abs_lt]; constructor <;> norm_num) 81 8456714 16709642
      (by norm_num) (by norm_num) (by norm_num)
  have b7 :
      toFloat ((((16709642 : Nat) : ℚ) * (2 : ℚ) ^ (-34 : Int)) + 1630211 / 274877906944) =
      (((8405765 : Nat) : ℚ) * (2 : ℚ) ^ (-33 : Int)) := by
    have h := toFloat_add_carry (1630211 / 274877906944) (-34) 16709642 8405765
      (by norm_num) (by norm_num) (by rw [abs_lt]; constructor <;> norm_num)
    rw [show ((-34 : Int) + 1) = (-33 : Int) by norm_num] at h
    exact h
  have h8 :
      (fun v : ℚ => toFloat (v + 1630211 / 274877906944))^[165] 0 =
      (((8405765 : Nat) : ℚ) * (2 : ℚ) ^ (-33 : Int)) := by
    rw [show (165 : Nat) = 1 + (81 + 83) by norm_num, Function.iterate_add_apply,
      Function.iterate_add_apply, h7, a7, Function.iterate_one]
    exact b7
  have a8 :
      (fun v : ℚ => toFloat (v + 1630211 / 274877906944))^[164]
        (((8405765 : Nat) : ℚ) * (2 : ℚ) ^ (-33 : Int)) =
      (((16760581 : Nat) : ℚ) * (2 : ℚ) ^ (-33 : Int)) :=
    iterate_toFloat_add_of_near (1630211 / 274877906944) (-33) 50944 hc
      (by rw [abs_lt]; constructor <;> norm_num) 164 8405765 16760581
      (by norm_num) (by norm_num) (by norm_num)
  have b8 :
      toFloat ((((16760581 : Nat) : ℚ) * (2 : ℚ) ^ (-33 : Int)) + 1630211 / 274877906944) =
      (((8405763 : Nat) : ℚ) * (2 : ℚ) ^ (-32 : Int)) := by
    have h := toFloat_add_carry (1630211 / 274877906944) (-33) 16760581 8405763
      (by norm_num) (by norm_num) (by rw [abs_lt]; constructor <;> norm_num)
    rw [show ((-33 : Int) + 1) = (-32 : Int) by norm_num] at h
    exact h
  have h9 :
      (fun v : ℚ => toFloat (v + 1630211 / 274877906944))^[330] 0 =
      (((8405763 : Nat) : ℚ) * (2 : ℚ) ^ (-32 : Int)) := by
    rw [show (330 : Nat) = 1 + (164 + 165) by norm_num, Function.iterate_add_apply,
      Function.iterate_add_apply, h8, a8, Function.iterate_one]
    exact b8
  have a9 :
      (fun v : ℚ => toFloat (v + 1630211 / 274877906944))^[328]
        (((8405763 : Nat) : ℚ) * (2 : ℚ) ^ (-32 : Int)) =
      (((16760579 : Nat) : ℚ) * (2 : ℚ) ^ (-32 : Int)) :=
    iterate_toFloat_add_of_near (1630211 / 274877906944) (-32) 25472 hc
      (by rw [abs_lt]; constructor <;> norm_num) 328 8405763 16760579
      (by norm_num) (by norm_num) (by norm_num)
  have b9 :
      toFloat ((((16760579 : Nat) : ℚ) * (2 : ℚ) ^ (-32 : Int)) + 1630211 / 274877906944) =
      (((8393026 : Nat) : ℚ) * (2 : ℚ) ^ (-31 : Int)) := by
    have h := toFloat_add_carry (1630211 / 274877906944) (-32) 16760579 8393026
      (by norm_num) (by norm_num) (by rw [abs_lt]; constructor <;> norm_num)
    rw [show ((-32 : Int) + 1) = (-31 : Int) by norm_num] at h
    exact h
  have h10 :
      (fun v : ℚ => toFloat (v + 1630211 / 274877906944))^[659] 0 =
      (((8393026 : Nat) : ℚ) * (2 : ℚ) ^ (-31 : Int)) := by
    rw [show (659 : Nat) = 1 + (328 + 330) by norm_num, Function.iterate_add_apply,
      Function.iterate_add_apply, h9, a9, Function.iterate_one]
    exact b9
  have a10 :
      (fun v : ℚ => toFloat (v + 1630211 / 274877906944))^[658]
        (((8393026 : Nat) : ℚ) * (2 : ℚ) ^ (-31 : Int)) =
      (((16773314 : Nat) : ℚ) * (2 : ℚ) ^ (-31 : Int)) :=
    iterate_toFloat_add_of_near (1630211 / 274877906944) (-31) 12736 hc
      (by rw [abs_lt]; constructor <;> norm_num) 658 8393026 16773314
      (by norm_num) (by norm_num) (by norm_num)
  have b10 :
      toFloat ((((16773314 : Nat) : ℚ) * (2 : ℚ) ^ (-31 : Int)) + 1630211 / 274877906944) =
      (((8393025 : Nat) : ℚ) * (2 : ℚ) ^ (-30 : Int)) := by
    have h := toFloat_add_carry (1630211 / 274877906944) (-31) 16773314 8393025
      (by norm_num) (by norm_num) (by rw [abs_lt]; constructor <;> norm_num)
    rw [show ((-31 : Int) + 1) = (-30 : Int) by norm_num] at h
    exact h
  have h11 :
      (fun v : ℚ => toFloat (v + 1630211 / 274877906944))^[1318] 0 =
      (((8393025 : Nat) : ℚ) * (2 : ℚ) ^ (-30 : Int)) := by
    rw [show (1318 : Nat) = 1 + (658 + 659) by norm_num, Function.iterate_add_apply,
      Function.iterate_add_apply, h10, a10, Function.iterate_one]
    exact b10
  have a11 :
      (fun v : ℚ => toFloat (v + 1630211 / 274877906944))^[1316]
        (((8393025 : Nat) : ℚ) * (2 : ℚ) ^ (-30 : Int)) =
      (((16773313 : Nat) : ℚ) * (2 : ℚ) ^ (-30 : Int)) :=
    iterate_toFloat_add_of_near (1630211 / 274877906944) (-30) 6368 hc
      (by rw [abs_lt]; constructor <;> norm_num) 1316 8393025 16773313
      (by norm_num) (by norm_num) (by norm_num)
  have b11 :
      toFloat ((((16773313 : Nat) : ℚ) * (2 : ℚ) ^ (-30 : Int)) + 1630211 / 274877906944) =
      (((8389841 : Nat) : ℚ) * (2 : ℚ) ^ (-29 : Int)) := by
    have h := toFloat_add_carry (1630211 / 274877906944) (-30) 16773313 8389841
      (by norm_num) (by norm_num) (by rw [abs_lt]; constructor <;> norm_num)
    rw [show ((-30 : Int) + 1) = (-29 : Int) by norm_num] at h
    exact h
  have h12 :
      (fun v : ℚ => toFloat (v + 1630211 / 274877906944))^[2635] 0 =
      (((8389841 : Nat) : ℚ) * (2 : ℚ) ^ (-29 : Int)) := by
    rw [show (2635 : Nat) = 1 + (1316 + 1318) by norm_num, Function.iterate_add_apply,
      Function.iterate_add_apply, h11, a11, Function.iterate_one]
    exact b11
  have a12 :
      (fun v : ℚ => toFloat (v + 1630211 / 274877906944))^[2634]
        (((8389841 : Nat) : ℚ) * (2 : ℚ) ^ (-29 : Int)) =
      (((16776497 : Nat) : ℚ) * (2 : ℚ) ^ (-29 : Int)) :=
    iterate_toFloat_add_of_near (1630211 / 274877906944) (-29) 3184 hc
      (by rw [abs_lt]; constructor <;> norm_num) 2634 8389841 16776497
      (by norm_num) (by norm_num) (by norm_num)
  have b12 :
      toFloat ((((16776497 : Nat) : ℚ) * (2 : ℚ) ^ (-29 : Int)) + 1630211 / 274877906944) =
      (((8389841 : Nat) : ℚ) * (2 : ℚ) ^ (-28 : Int)) := by
    have h := toFloat_add_carry (1630211 / 274877906944) (-29) 16776497 8389841
      (by norm_num) (by norm_num) (by rw [abs_lt]; constructor <;> norm_num)
    rw [show ((-29 : Int) + 1) = (-28 : Int) by norm_num] at h
    exact h
  have h13 :
      (fun v : ℚ => toFloat (v + 1630211 / 274877906944))^[5270] 0 =
      (((8389841 : Nat) : ℚ) * (2 : ℚ) ^ (-28 : Int)) := by
    rw [show (5270 : Nat) = 1 + (2634 + 2635) by norm_num, Function.iterate_add_apply,
      Function.iterate_add_apply, h12, a12, Function.iterate_one]
    exact b12
  have a13 :
      (fun v : ℚ => toFloat (v + 1630211 / 274877906944))^[5268]
        (((8389841 : Nat) : ℚ) * (2 : ℚ) ^ (-28 : Int)) =
      (((16776497 : Nat) : ℚ) * (2 : ℚ) ^ (-28 : Int)) :=
    iterate_toFloat_add_of_near (1630211 / 274877906944) (-28) 1592 hc
      (by rw [abs_lt]; constructor <;> norm_num) 5268 8389841 16776497
      (by norm_num) (by norm_num) (by norm_num)
  have b13 :
      toFloat ((((16776497 : Nat) : ℚ) * (2 : ℚ) ^ (-28 : Int)) + 1630211 / 274877906944) =
      (((8389045 : Nat) : ℚ) * (2 : ℚ) ^ (-27 : Int)) := by
    have h := toFloat_add_carry (1630211 / 274877906944) (-28) 16776497 8389045
      (by norm_num) (by norm_num) (by rw [abs_lt]; constructor <;> norm_num)
    rw [show ((-28 : Int) + 1) = (-27 : Int) by norm_num] at h
    exact h
  have h14 :
      (fun v : ℚ => toFloat (v + 1630211 / 274877906944))^[10539] 0 =
      (((8389045 : Nat) : ℚ) * (2 : ℚ) ^ (-27 : Int)) := by
    rw [show (10539 : Nat) = 1 + (5268 + 5270) by norm_num, Function.iterate_add_apply,
      Function.iterate_add_apply, h13, a13, Function.iterate_one]
    exact b13
  have a14 :
      (fun v : ℚ => toFloat (v + 1630211 / 274877906944))^[10537]
        (((8389045 : Nat) : ℚ) * (2 : ℚ) ^ (-27 : Int)) =
      (((16776497 : Nat) : ℚ) * (2 : ℚ) ^ (-27 : Int)) :=
    iterate_toFloat_add_of_near (1630211 / 274877906944) (-27) 796 hc
      (by rw [abs_lt]; constructor <;> norm_num) 10537 8389045 16776497
      (by norm_num) (by norm_num) (by norm_num)
  have b14 :
      toFloat ((((16776497 : Nat) : ℚ) * (2 : ℚ) ^ (-27 : Int)) + 1630211 / 274877906944) =
      (((8388647 : Nat) : ℚ) * (2 : ℚ) ^ (-26 : Int)) := by
    have h := toFloat_add_carry (1630211 / 274877906944) (-27) 16776497 8388647
      (by norm_num) (by norm_num) (by rw [abs_lt]; constructor <;> norm_num)
    rw [show ((-27 : Int) + 1) = (-26 : Int) by norm_num] at h
    exact h
  have h15 :
      (fun v : ℚ => toFloat (v + 1630211 / 274877906944))^[21077] 0 =
      (((8388647 : Nat) : ℚ) * (2 : ℚ) ^ (-26 : Int)) := by
    rw [show (21077 : Nat) = 1 + (10537 + 10539) by norm_num, Function.iterate_add_apply,
      Function.iterate_add_apply, h14, a14, Function.iterate_one]
    exact b14
  have a15 :
      (fun v : ℚ => toFloat (v + 1630211 / 274877906944))^[21076]
        (((8388647 : Nat) : ℚ) * (2 : ℚ) ^ (-26 : Int)) =
      (((16776895 : Nat) : ℚ) * (2 : ℚ) ^ (-26 : Int)) :=
    iterate_toFloat_add_of_near (1630211 / 274877906944) (-26) 398 hc
      (by rw [abs_lt]; constructor <;> norm_num) 21076 8388647 16776895
      (by norm_num) (by norm_num) (by norm_num)
  have b15 :
      toFloat ((((16776895 : Nat) : ℚ) * (2 : ℚ) ^ (-26 : Int)) + 1630211 / 274877906944) =
      (((8388647 : Nat) : ℚ) * (2 : ℚ) ^ (-25 : Int)) := by
    have h := toFloat_add_carry (1630211 / 274877906944) (-26) 16776895 8388647
      (by norm_num) (by norm_num) (by rw [abs_lt]; constructor <;> norm_num)
    rw [show ((-26 : Int) + 1) = (-25 : Int) by norm_num] at h
    exact h
  have h16 :
      (fun v : ℚ => toFloat (v + 1630211 / 274877906944))^[42154] 0 =
      (((8388647 : Nat) : ℚ) * (2 : ℚ) ^ (-25 : Int)) := by
    rw [show (42154 : Nat) = 1 + (21076 + 21077) by norm_num, Function.iterate_add_apply,
      Function.iterate_add_apply, h15, a15, Function.iterate_one]
    exact b15
  have a16 :
      (fun v : ℚ => toFloat (v + 1630211 / 274877906944))^[42153]
        (((8388647 : Nat) : ℚ) * (2 : ℚ) ^ (-25 : Int)) =
      (((16777094 : Nat) : ℚ) * (2 : ℚ) ^ (-25 : Int)) :=
    iterate_toFloat_add_of_near (1630211 / 274877906944) (-25) 199 hc
      (by rw [abs_lt]; constructor <;> norm_num) 42153 8388647 16777094
      (by norm_num) (by norm_num) (by norm_num)
  have b16 :
      toFloat ((((16777094 : Nat) : ℚ) * (2 : ℚ) ^ (-25 : Int)) + 1630211 / 274877906944) =
      (((8388647 : Nat) : ℚ) * (2 : ℚ) ^ (-24 : Int)) := by
    have h := toFloat_add_carry (1630211 / 274877906944) (-25) 16777094 8388647
      (by norm_num) (by norm_num) (by rw [abs_lt]; constructor <;> norm_num)
    rw [show ((-25 : Int) + 1) = (-24 : Int) by norm_num] at h
    exact h
  have h17 :
      (fun v : ℚ => toFloat (v + 1630211 / 274877906944))^[84308] 0 =
      (((8388647 : Nat) : ℚ) * (2 : ℚ) ^ (-24 : Int)) := by
    rw [show (84308 : Nat) = 1 + (42153 + 42154) by norm_num, Function.iterate_add_apply,
      Function.iterate_add_apply, h16, a16, Function.iterate_one]
    exact b16
  have a17 :
      (fun v : ℚ => toFloat (v + 1630211 / 274877906944))^[83885]
        (((8388647 : Nat) : ℚ) * (2 : ℚ) ^ (-24 : Int)) =
      (((16777147 : Nat) : ℚ) * (2 : ℚ) ^ (-24 : Int)) :=
    iterate_toFloat_add_of_near (1630211 / 274877906944) (-24) 100 hc
      (by rw [abs_lt]; constructor <;> norm_num) 83885 8388647 16777147
      (by norm_num) (by norm_num) (by norm_num)
  have b17 :
      toFloat ((((16777147 : Nat) : ℚ) * (2 : ℚ) ^ (-24 : Int)) + 1630211 / 274877906944) =
      (((8388623 : Nat) : ℚ) * (2 : ℚ) ^ (-23 : Int)) := by
    have h := toFloat_add_carry (1630211 / 274877906944) (-24) 16777147 8388623
      (by norm_num) (by norm_num) (by rw [abs_lt]; constructor <;> norm_num)
    rw [show ((-24 : Int) + 1) = (-23 : Int) by norm_num] at h
    exact h
  have h18 :
      (fun v : ℚ => toFloat (v + 1630211 / 274877906944))^[168194] 0 =
      (((8388623 : Nat) : ℚ) * (2 : ℚ) ^ (-23 : Int)) := by
    rw [show (168194 : Nat) = 1 + (83885 + 84308) by norm_num, Function.iterate_add_apply,
      Function.iterate_add_apply, h17, a17, Function.iterate_one]
    exact b17
  have a18 :
      (fun v : ℚ => toFloat (v + 1630211 / 274877906944))^[4]
        (((8388623 : Nat) : ℚ) * (2 : ℚ) ^ (-23 : Int)) =
      (((8388823 : Nat) : ℚ) * (2 : ℚ) ^ (-23 : Int)) :=
    iterate_toFloat_add_of_near (1630211 / 274877906944) (-23) 50 hc
      (by rw [abs_lt]; constructor <;> norm_num) 4 8388623 8388823
      (by norm_num) (by norm_num) (by norm_num)
  rw [show (168198 : Nat) = 4 + 168194 by norm_num, Function.iterate_add_apply, h18,
    a18]
  norm_num

/-- The intensity of one of `168198` pixels of amplitude `1` that share a bin,
with a library `tanh` within `2 ^ (-31)` of the hyperbolic tangent:
`1630211 / 2 ^ 38`, about `5.93e-6`. -/
theorem intensity_float_fullBin (tanh : ℚ → ℚ)
    (hacc : ∀ q : ℚ, |((tanh q : ℚ) : ℝ) - Real.tanh (q : ℝ)| ≤ 1 / 2147483648) :
    intensity_float tanh 168198 1 = 1630211 / 274877906944 := by
  have h1 : toDouble (((168198 : Int) : ℚ)) = 168198 := by
    have := roundToFormat_intCast 52 168198 (by norm_num)
    unfold toDouble
    exact_mod_cast this
  have h2 : toDouble (1 / 168198) = 3509529306880615 / 590295810358705651712 := by
    unfold toDouble
    rw [roundToFormat_eq_of_near 52 (1 / 168198) (-18) 7019058613761230
      (by rw [abs_of_pos (by norm_num)]; norm_num)
      (by rw [abs_of_pos (by norm_num)]; norm_num)
      (by rw [abs_lt]; constructor <;> norm_num)]
    norm_num
  have h3 : toDouble (3509529306880615 / 590295810358705651712 * (4183933 / 4194304)) =
      1750425753775231 / 295147905179352825856 := by
    unfold toDouble
    rw [roundToFormat_eq_of_near 52
      (3509529306880615 / 590295810358705651712 * (4183933 / 4194304)) (-18) 7001703015100924
      (by rw [abs_of_pos (by norm_num)]; norm_num)
      (by rw [abs_of_pos (by norm_num)]; norm_num)
      (by rw [abs_lt]; constructor <;> norm_num)]
    norm_num
  have h4 : toFloat (1750425753775231 / 295147905179352825856) = 1630211 / 274877906944 := by
    unfold toFloat
    rw [roundToFormat_eq_of_near 23 (1750425753775231 / 295147905179352825856) (-18) 13041688
      (by rw [abs_of_pos (by norm_num)]; norm_num)
      (by rw [abs_of_pos (by norm_num)]; norm_num)
      (by rw [abs_lt]; constructor <;> norm_num)]
    norm_num
  unfold intensity_float
  rw [sigmoid_float_one tanh hacc, h1, h2, h3, h4]

/-- Every pixel of `fullBinImage` has the `float` bin index `0` when there is a
single bin. -/
theorem bin_idx_float_fullBin (i : Nat) : bin_idx_float 1 fullBinImage i = 0 := by
  have h := bin_idx_float_of_one 1 fullBinImage i 0 rfl
    (by
      have := toFloat_natCast 0 (by norm_num)
      exact_mod_cast this)
    (by
      have := toFloat_natCast 0 (by norm_num)
      exact_mod_cast this)
  exact_mod_cast h

/-- Counterexample to C18: an image of `168198` pixels whose channels are all
`1`, decoded into a single bin. All channel values lie in `[0, 1]`, and with
every library `tanh` within `2 ^ (-31)` of the hyperbolic tangent (such
functions exist) the `float` decoder returns the single value
`8388823 / 2 ^ 23`, about `1.0000256`, which is not below `1`. -/
theorem convertShader_float_reaches_one :
    (1 ≤ oneBinSonar.bin_count ∧ ∀ k : Nat, 0 ≤ fullBinImage.ptr k ∧ fullBinImage.ptr k ≤ 1) ∧
    (∃ tanh : ℚ → ℚ,
      ∀ q : ℚ, |((tanh q : ℚ) : ℝ) - Real.tanh (q : ℝ)| ≤ 1 / 2147483648) ∧
    (∀ tanh : ℚ → ℚ,
      (∀ q : ℚ, |((tanh q : ℚ) : ℝ) - Real.tanh (q : ℝ)| ≤ 1 / 2147483648) →
      oneBinSonar.convertShader_float tanh fullBinImage = some [8388823 / 8388608]) ∧
    ¬ (8388823 / 8388608 : ℚ) < 1 := by
  refine ⟨⟨le_refl 1, fun k => ⟨zero_le_one, le_refl 1⟩⟩, exists_tanh_within, ?_, by norm_num⟩
  intro tanh hacc
  obtain ⟨bins, hsome, hlen, hget⟩ := convertShader_float_getD tanh oneBinSonar fullBinImage
    (fun i _ => by
      have hb : oneBinSonar.bin_count = 1 := rfl
      rw [hb, bin_idx_float_fullBin]
      exact ⟨le_refl 0, by simp⟩)
  have hpix : binPixels_float oneBinSonar.bin_count fullBinImage 0 = List.range 168198 := by
    have hn : fullBinImage.cols * fullBinImage.rows = 168198 := rfl
    unfold binPixels_float
    rw [hn]
    apply List.filter_eq_self.mpr
    intro i _
    have : bin_idx_float oneBinSonar.bin_count fullBinImage i = ((0 : Nat) : Int) :=
      bin_idx_float_fullBin i
    simp only [this, decide_True]
  have h0 := hget 0
  rw [hpix, List.length_range] at h0
  have hfun : (fun (v : ℚ) (i : Nat) => toFloat (v + intensity_float tanh ((168198 : Nat) : Int)
      (fullBinImage.ptr (i * 3)))) =
      fun (v : ℚ) (_ : Nat) => (fun w : ℚ => toFloat (w + 1630211 / 274877906944)) v := by
    funext v i
    have hp : fullBinImage.ptr (i * 3) = 1 := rfl
    have hd : ((168198 : Nat) : Int) = 168198 := rfl
    rw [hp, hd, intensity_float_fullBin tanh hacc]
  rw [hfun, List.foldl_const, List.length_range, iterate_toFloat_add_fullBin] at h0
  have hlen1 : bins.length = 1 := hlen
  match bins, hlen1, h0 with
  | [v], _, hv =>
    rw [hsome]
    have : v = 8388823 / 8388608 := hv
    rw [this]

/-- The argument of `tanh` in the `float` sigmoid, for an amplitude in
`[0, 1]`, lies in `[-7, 3]`. -/
theorem sigmoid_float_arg_mem (x : ℚ) (h0 : 0 ≤ x) (h1 : x ≤ 1) :
    -7 ≤ toDouble (0.5 * toFloat (toFloat (x - toFloat (toDouble 0.666666667)) * toFloat 18)) ∧
    toDouble (0.5 * toFloat (toFloat (x - toFloat (toDouble 0.666666667)) * toFloat 18)) ≤ 3 := by
  have hbeta : toFloat 18 = 18 := by exact_mod_cast toFloat_natCast 18 (by norm_num)
  constructor
  · rw [sigmoid_float_x0, hbeta]
    have e1 : toFloat (-(3 / 4)) = -(3 / 4) := by
      have := roundToFormat_of_representable 23 (-3) (-2) (by norm_num)
      unfold toFloat
      norm_num at this ⊢
      exact this
    have e2 : toFloat (-(27 / 2)) = -(27 / 2) := by
      have := roundToFormat_of_representable 23 (-27) (-1) (by norm_num)
      unfold toFloat
      norm_num at this ⊢
      exact this
    have e3 : toDouble (-(27 / 4)) = -(27 / 4) := by
      have := roundToFormat_of_representable 52 (-27) (-2) (by norm_num)
      unfold toDouble
      norm_num at this ⊢
      exact this
    have a1 := toFloat_mono (show -(3 / 4) ≤ x - 11184811 / 16777216 by linarith)
    rw [e1] at a1
    have a2 := toFloat_mono (show -(27 / 2) ≤ toFloat (x - 11184811 / 16777216) * 18 by
      linarith)
    rw [e2] at a2
    have a3 := toDouble_mono (show -(27 / 4) ≤
        0.5 * toFloat (toFloat (x - 11184811 / 16777216) * 18) by
      norm_num
      linarith)
    rw [e3] at a3
    linarith
  · have hmono : toDouble (0.5 *
        toFloat (toFloat (x - toFloat (toDouble 0.666666667)) * toFloat 18)) ≤
        toDouble (0.5 *
          toFloat (toFloat (1 - toFloat (toDouble 0.666666667)) * toFloat 18)) := by
      rw [hbeta]
      apply toDouble_mono
      apply mul_le_mul_of_nonneg_left _ (by norm_num)
      apply toFloat_mono
      apply mul_le_mul_of_nonneg_right _ (by norm_num)
      apply toFloat_mono
      linarith
    rw [sigmoid_float_arg_one] at hmono
    linarith

/-- With a library `tanh` whose values on `[-7, 3]` lie in
`[-0.999999, 0.9951]`, the `float` sigmoid of an amplitude in `[0, 1]` lies in
`[2 ^ (-21), 2043 / 2048]`. -/
theorem sigmoid_float_mem (tanh : ℚ → ℚ)
    (htanh : ∀ q : ℚ, -7 ≤ q → q ≤ 3 → -(999999 / 1000000) ≤ tanh q ∧ tanh q ≤ 9951 / 10000)
    (x : ℚ) (h0 : 0 ≤ x) (h1 : x ≤ 1) :
    1 / 2097152 ≤ sigmoid_float tanh x ∧ sigmoid_float tanh x ≤ 2043 / 2048 := by
  obtain ⟨ha, hb⟩ := sigmoid_float_arg_mem x h0 h1
  unfold sigmoid_float
  simp only
  generalize toDouble (0.5 *
    toFloat (toFloat (x - toFloat (toDouble 0.666666667)) * toFloat 18)) = q at ha hb
  obtain ⟨hlo, hhi⟩ := htanh q ha hb
  generalize tanh q = th at hlo hhi
  have d1 : toDouble (-(1048575 / 2097152)) = -(1048575 / 2097152) := by
    have := roundToFormat_of_representable 52 (-1048575) (-21) (by norm_num)
    unfold toDouble
    norm_num at this ⊢
    exact this
  have d2 : toDouble (1019 / 2048) = 1019 / 2048 := by
    have := roundToFormat_of_representable 52 1019 (-11) (by norm_num)
    unfold toDouble
    norm_num at this ⊢
    exact this
  have d3 : toDouble (1 / 2097152) = 1 / 2097152 := by
    have := roundToFormat_of_representable 52 1 (-21) (by norm_num)
    unfold toDouble
    norm_num at this ⊢
    exact this
  have d4 : toDouble (2043 / 2048) = 2043 / 2048 := by
    have := roundToFormat_of_representable 52 2043 (-11) (by norm_num)
    unfold toDouble
    norm_num at this ⊢
    exact this
  have f3 : toFloat (1 / 2097152) = 1 / 2097152 := by
    have := roundToFormat_of_representable 23 1 (-21) (by norm_num)
    unfold toFloat
    norm_num at this ⊢
    exact this
  have f4 : toFloat (2043 / 2048) = 2043 / 2048 := by
    have := roundToFormat_of_representable 23 2043 (-11) (by norm_num)
    unfold toFloat
    norm_num at this ⊢
    exact this
  have a1 := toDouble_mono (show -(1048575 / 2097152) ≤ 0.5 * th by
    norm_num
    linarith)
  have b1 := toDouble_mono (show 0.5 * th ≤ 1019 / 2048 by
    norm_num
    linarith)
  rw [d1] at a1
  rw [d2] at b1
  have a2 := toDouble_mono (show 1 / 2097152 ≤ toDouble (0.5 * th) + 0.5 by
    norm_num
    linarith)
  have b2 := toDouble_mono (show toDouble (0.5 * th) + 0.5 ≤ 2043 / 2048 by
    norm_num
    linarith)
  rw [d3] at a2
  rw [d4] at b2
  have a3 := toFloat_mono a2
  have b3 := toFloat_mono b2
  rw [f3] at a3
  rw [f4] at b3
  exact ⟨a3, b3⟩

/-- The intensity of a pixel of amplitude in `[0, 1]` whose bin holds `n`
pixels is positive and at most `(2043 / 2048) / n * (1 + 2 ^ (-23))`. -/
theorem intensity_float_mem (tanh : ℚ → ℚ)
    (htanh : ∀ q : ℚ, -7 ≤ q → q ≤ 3 → -(999999 / 1000000) ≤ tanh q ∧ tanh q ≤ 9951 / 10000)
    (n : Nat) (hn : 1 ≤ n) (hn2 : n ≤ 80000) (x : ℚ) (h0 : 0 ≤ x) (h1 : x ≤ 1) :
    0 < intensity_float tanh (n : Int) x ∧
    intensity_float tanh (n : Int) x ≤ 2043 / 2048 / (n : ℚ) * (1 + 1 / 8388608) := by
  obtain ⟨hs0, hs1⟩ := sigmoid_float_mem tanh htanh x h0 h1
  have hnq : (0 : ℚ) < (n : ℚ) := by exact_mod_cast hn
  have hd : toDouble (((n : Nat) : Int) : ℚ) = (n : ℚ) := by
    have := roundToFormat_intCast 52 (n : Int) (by
      rw [abs_of_nonneg (Int.natCast_nonneg n)]
      have h2 : (n : Int) ≤ 80000 := by exact_mod_cast hn2
      have h3 : (80000 : Int) < 2 ^ (52 + 1) := by norm_num
      exact lt_of_le_of_lt h2 h3)
    unfold toDouble
    exact_mod_cast this
  have hinv : (0 : ℚ) < 1 / (n : ℚ) := by positivity
  have hA0 : 0 < toDouble (1 / (n : ℚ)) := roundToFormat_pos 52 hinv
  have e53 : (2 : ℚ) ^ (52 + 1) = 9007199254740992 := by norm_num
  have e24 : (2 : ℚ) ^ (23 + 1) = 16777216 := by norm_num
  have hA1 : toDouble (1 / (n : ℚ)) ≤ 1 / (n : ℚ) * (1 + 1 / 9007199254740992) := by
    have h := roundToFormat_le_add 52 (1 / (n : ℚ)) hinv.le
    rw [e53] at h
    exact le_trans h (le_of_eq (by ring))
  have hs : 0 < sigmoid_float tanh x := lt_of_lt_of_le (by norm_num) hs0
  have hP0 : 0 < toDouble (toDouble (1 / (n : ℚ)) * sigmoid_float tanh x) :=
    roundToFormat_pos 52 (mul_pos hA0 hs)
  have hB0 : (0 : ℚ) ≤ 1 / (n : ℚ) * (1 + 1 / 9007199254740992) * (2043 / 2048) := by
    positivity
  have hP1 : toDouble (toDouble (1 / (n : ℚ)) * sigmoid_float tanh x) ≤
      1 / (n : ℚ) * (1 + 1 / 9007199254740992) * (2043 / 2048) *
        (1 + 1 / 9007199254740992) := by
    have hm := toDouble_mono (show toDouble (1 / (n : ℚ)) * sigmoid_float tanh x ≤
        1 / (n : ℚ) * (1 + 1 / 9007199254740992) * (2043 / 2048) from
      mul_le_mul hA1 hs1 hs.le (by positivity))
    have h := roundToFormat_le_add 52 _ hB0
    rw [e53] at h
    exact le_trans hm (le_trans h (le_of_eq (by ring)))
  have hB1 : (0 : ℚ) ≤ 1 / (n : ℚ) * (1 + 1 / 9007199254740992) * (2043 / 2048) *
      (1 + 1 / 9007199254740992) := by positivity
  have hI1 : toFloat (toDouble (toDouble (1 / (n : ℚ)) * sigmoid_float tanh x)) ≤
      1 / (n : ℚ) * (1 + 1 / 9007199254740992) * (2043 / 2048) *
        (1 + 1 / 9007199254740992) * (1 + 1 / 16777216) := by
    have hm := toFloat_mono hP1
    have h := roundToFormat_le_add 23 _ hB1
    rw [e24] at h
    exact le_trans hm (le_trans h (le_of_eq (by ring)))
  unfold intensity_float
  rw [hd]
  refine ⟨roundToFormat_pos 23 hP0, le_trans hI1 ?_⟩
  have hnum : ((1 : ℚ) + 1 / 9007199254740992) * (2043 / 2048) *
      (1 + 1 / 9007199254740992) * (1 + 1 / 16777216) ≤ 2043 / 2048 * (1 + 1 / 8388608) := by
    norm_num
  have := mul_le_mul_of_nonneg_left hnum hinv.le
  calc 1 / (n : ℚ) * (1 + 1 / 9007199254740992) * (2043 / 2048) *
        (1 + 1 / 9007199254740992) * (1 + 1 / 16777216)
      = 1 / (n : ℚ) * ((1 + 1 / 9007199254740992) * (2043 / 2048) *
        (1 + 1 / 9007199254740992) * (1 + 1 / 16777216)) := by ring
    _ ≤ 1 / (n : ℚ) * (2043 / 2048 * (1 + 1 / 8388608)) := this
    _ = 2043 / 2048 / (n : ℚ) * (1 + 1 / 8388608) := by ring

/-- A `float` sum of positive increments, each at most `C`, that cannot reach
`1`: every addition adds at most `C + 2 ^ (-25)`, and the sum is positive once
an increment has been added. -/
theorem foldl_toFloat_add_mem (f : Nat → ℚ) (C : ℚ) (l : List Nat)
    (hf : ∀ i ∈ l, 0 < f i ∧ f i ≤ C) :
    ∀ v : ℚ, 0 ≤ v → v + (l.length : ℚ) * (C + 1 / 33554432) < 1 →
      (0 < v ∨ l ≠ [] → 0 < l.foldl (fun w i => toFloat (w + f i)) v) ∧
      l.foldl (fun w i => toFloat (w + f i)) v ≤ v + (l.length : ℚ) * (C + 1 / 33554432) := by
  induction l with
  | nil =>
    intro v _ _
    refine ⟨fun h => ?_, by simp⟩
    rcases h with h | h
    · exact h
    · exact absurd rfl h
  | cons i t ih =>
    intro v hv hlt
    obtain ⟨hfi0, hfi1⟩ := hf i (List.mem_cons_self i t)
    have hC : 0 < C := lt_of_lt_of_le hfi0 hfi1
    have hlen : (((i :: t).length : Nat) : ℚ) = (t.length : ℚ) + 1 := by
      rw [List.length_cons]
      push_cast
      rfl
    rw [hlen] at hlt ⊢
    have ht0 : (0 : ℚ) ≤ (t.length : ℚ) * (C + 1 / 33554432) := by positivity
    have hsum0 : 0 < v + f i := by linarith
    have hsum1 : v + f i < 1 := by nlinarith
    have hv0 : 0 < toFloat (v + f i) := roundToFormat_pos 23 hsum0
    have hv1 := toFloat_le_add (v + f i) hsum0.le hsum1
    obtain ⟨ih1, ih2⟩ := ih (fun j hj => hf j (List.mem_cons_of_mem i hj))
      (toFloat (v + f i)) hv0.le (by nlinarith)
    rw [List.foldl_cons]
    refine ⟨fun _ => ih1 (Or.inl hv0), ?_⟩
    nlinarith

/-- For `1 <= bin_count <= 16777219` and an encoded range in `[0, 1]` the
`float` bin index is a valid index of a vector of size `bin_count`. -/
theorem bin_idx_float_mem_range (bin_count : Nat) (cv_image : Mat ℚ) (i : Nat)
    (hbin : 1 ≤ bin_count) (hmax : bin_count ≤ 16777219)
    (h0 : 0 ≤ cv_image.ptr (i * 3 + 1)) (h1 : cv_image.ptr (i * 3 + 1) ≤ 1) :
    0 ≤ bin_idx_float bin_count cv_image i ∧
    (bin_idx_float bin_count cv_image i).toNat < bin_count := by
  obtain ⟨M, hM, hle, hfix⟩ := toFloat_natCast_le (bin_count - 1) (by omega)
  have hMnn : (0 : ℚ) ≤ (M : ℚ) := Nat.cast_nonneg M
  have hlo : 0 ≤ toFloat (cv_image.ptr (i * 3 + 1) * toFloat ((bin_count - 1 : Nat) : ℚ)) := by
    rw [hM]
    exact roundToFormat_nonneg 23 (mul_nonneg h0 hMnn)
  have hhi : toFloat (cv_image.ptr (i * 3 + 1) * toFloat ((bin_count - 1 : Nat) : ℚ)) ≤
      (M : ℚ) := by
    rw [hM]
    have := toFloat_mono (mul_le_of_le_one_left hMnn h1)
    rw [hfix] at this
    exact this
  have h := ctrunc_mem_range _ M hlo hhi
  have hidx : bin_idx_float bin_count cv_image i ≤ (M : Int) := h.2
  exact ⟨h.1, by omega⟩

/-- The real hyperbolic tangent on `[-7, 3]` lies in `[-0.999999, 0.9951]`. -/
theorem tanh_mem_of_mem (x : ℝ) (h0 : -7 ≤ x) (h1 : x ≤ 3) :
    -(999999 / 1000000) ≤ Real.tanh x ∧ Real.tanh x ≤ 9951 / 10000 := by
  have hhi := Real.exp_one_lt_d9
  have hepos := Real.exp_pos 1
  have e6 : Real.exp 6 = Real.exp 1 ^ 6 := by
    rw [← Real.exp_nat_mul]
    norm_num
  have e14 : Real.exp 14 = Real.exp 1 ^ 14 := by
    rw [← Real.exp_nat_mul]
    norm_num
  have h6 : Real.exp 6 ≤ (2.72 : ℝ) ^ 6 := by
    rw [e6]
    exact pow_le_pow_left₀ hepos.le (by linarith) 6
  have h14 : Real.exp 14 ≤ (2.72 : ℝ) ^ 14 := by
    rw [e14]
    exact pow_le_pow_left₀ hepos.le (by linarith) 14
  have hxpos := Real.exp_pos (2 * x)
  have hup : Real.exp (2 * x) ≤ (2.72 : ℝ) ^ 6 :=
    le_trans (Real.exp_le_exp.mpr (by linarith)) h6
  have hdn : 1 / (2.72 : ℝ) ^ 14 ≤ Real.exp (2 * x) := by
    have h1 : Real.exp (-14) ≤ Real.exp (2 * x) := Real.exp_le_exp.mpr (by linarith)
    have h2 : Real.exp (-14) = 1 / Real.exp 14 := by
      rw [Real.exp_neg, one_div]
    have h3 : 1 / (2.72 : ℝ) ^ 14 ≤ 1 / Real.exp 14 :=
      one_div_le_one_div_of_le (Real.exp_pos 14) h14
    linarith
  rw [tanh_eq_exp]
  constructor
  · have h : 2 / (Real.exp (2 * x) + 1) ≤ 2 / (1 / (2.72 : ℝ) ^ 14 + 1) :=
      div_le_div_of_nonneg_left (by norm_num) (by positivity) (by linarith)
    have hn : (2 : ℝ) / (1 / (2.72 : ℝ) ^ 14 + 1) ≤ 1 + 999999 / 1000000 := by norm_num
    linarith
  · have h : 2 / ((2.72 : ℝ) ^ 6 + 1) ≤ 2 / (Real.exp (2 * x) + 1) :=
      div_le_div_of_nonneg_left (by norm_num) (by positivity) (by linarith)
    have hn : 1 - 9951 / 10000 ≤ (2 : ℝ) / ((2.72 : ℝ) ^ 6 + 1) := by norm_num
    linarith

/-- C18, amended. For `1 <= bin_count <= 16777219`, an image region whose
amplitude and range channels lie in `[0, 1]` and in which no bin receives more
than `80000` pixels, and a library `tanh` whose values on `[-7, 3]` lie in
`[-0.999999, 0.9951]`, the decoder with the roundings of the C++ types returns
`bin_count` values, each in `[0, 1)`: a populated bin is strictly between `0`
and `1` and an unpopulated bin is `0`. The hyperbolic tangent itself has its
values on `[-7, 3]` in `[-0.999999, 0.9951]`. -/
theorem convertShader_float_values_lt_one (tanh : ℚ → ℚ) (s : Sonar ℚ Time)
    (cv_image : Mat ℚ) (hbin : 1 ≤ s.bin_count) (hmax : s.bin_count ≤ 16777219)
    (hch : ∀ i < cv_image.cols * cv_image.rows,
      (0 ≤ cv_image.ptr (i * 3) ∧ cv_image.ptr (i * 3) ≤ 1) ∧
      (0 ≤ cv_image.ptr (i * 3 + 1) ∧ cv_image.ptr (i * 3 + 1) ≤ 1))
    (htanh : ∀ q : ℚ, -7 ≤ q → q ≤ 3 → -(999999 / 1000000) ≤ tanh q ∧ tanh q ≤ 9951 / 10000)
    (hpop : ∀ b < s.bin_count, (binPixels_float s.bin_count cv_image b).length ≤ 80000) :
    (∃ bins, s.convertShader_float tanh cv_image = some bins ∧ bins.length = s.bin_count ∧
      (∀ b < s.bin_count, binPixels_float s.bin_count cv_image b ≠ [] →
        ∃ v, bins[b]? = some v ∧ 0 < v ∧ v < 1) ∧
      (∀ b < s.bin_count, binPixels_float s.bin_count cv_image b = [] → bins[b]? = some 0) ∧
      (∀ v ∈ bins, 0 ≤ v ∧ v < 1)) ∧
    (∀ x : ℝ, -7 ≤ x → x ≤ 3 →
      -(999999 / 1000000) ≤ Real.tanh x ∧ Real.tanh x ≤ 9951 / 10000) := by
  refine ⟨?_, tanh_mem_of_mem⟩
  obtain ⟨bins, hsome, hlen, hget⟩ := convertShader_float_getD tanh s cv_image
    (fun i hi => bin_idx_float_mem_range s.bin_count cv_image i hbin hmax
      (hch i hi).2.1 (hch i hi).2.2)
  have hval : ∀ b < s.bin_count,
      (binPixels_float s.bin_count cv_image b ≠ [] →
        0 < bins.getD b 0 ∧ bins.getD b 0 < 1) ∧
      (binPixels_float s.bin_count cv_image b = [] → bins.getD b 0 = 0) := by
    intro b hb
    rw [hget b]
    constructor
    · intro hne
      have hn1 : 1 ≤ (binPixels_float s.bin_count cv_image b).length :=
        List.length_pos.mpr hne
      have hn2 := hpop b hb
      have hmem : ∀ i ∈ binPixels_float s.bin_count cv_image b,
          0 < intensity_float tanh ((binPixels_float s.bin_count cv_image b).length : Int)
            (cv_image.ptr (i * 3)) ∧
          intensity_float tanh ((binPixels_float s.bin_count cv_image b).length : Int)
            (cv_image.ptr (i * 3)) ≤
            2043 / 2048 / ((binPixels_float s.bin_count cv_image b).length : ℚ) *
              (1 + 1 / 8388608) := by
        intro i hi
        have hi2 : i < cv_image.cols * cv_image.rows :=
          List.mem_range.mp (List.mem_of_mem_filter hi)
        exact intensity_float_mem tanh htanh _ hn1 hn2 _ (hch i hi2).1.1 (hch i hi2).1.2
      have hnq : (1 : ℚ) ≤ ((binPixels_float s.bin_count cv_image b).length : ℚ) := by
        exact_mod_cast hn1
      have hnq2 : ((binPixels_float s.bin_count cv_image b).length : ℚ) ≤ 80000 := by
        exact_mod_cast hn2
      have htot : ((binPixels_float s.bin_count cv_image b).length : ℚ) *
          (2043 / 2048 / ((binPixels_float s.bin_count cv_image b).length : ℚ) *
            (1 + 1 / 8388608) + 1 / 33554432) =
          2043 / 2048 * (1 + 1 / 8388608) +
            ((binPixels_float s.bin_count cv_image b).length : ℚ) / 33554432 := by
        field_simp
        ring
      have hlt : (0 : ℚ) + ((binPixels_float s.bin_count cv_image b).length : ℚ) *
          (2043 / 2048 / ((binPixels_float s.bin_count cv_image b).length : ℚ) *
            (1 + 1 / 8388608) + 1 / 33554432) < 1 := by
        rw [htot]
        linarith
      obtain ⟨hpos, hle⟩ := foldl_toFloat_add_mem
        (fun i => intensity_float tanh ((binPixels_float s.bin_count cv_image b).length : Int)
          (cv_image.ptr (i * 3)))
        (2043 / 2048 / ((binPixels_float s.bin_count cv_image b).length : ℚ) *
          (1 + 1 / 8388608))
        (binPixels_float s.bin_count cv_image b) hmem 0 (le_refl 0) hlt
      exact ⟨hpos (Or.inr hne), lt_of_le_of_lt hle hlt⟩
    · intro he
      rw [he]
      rfl
  have hsome_get : ∀ b < s.bin_count, bins[b]? = some (bins.getD b 0) := by
    intro b hb
    rw [List.getD_eq_getElem?_getD, List.getElem?_eq_getElem (hlen ▸ hb)]
    rfl
  refine ⟨bins, hsome, hlen, ?_, ?_, ?_⟩
  · intro b hb hne
    exact ⟨_, hsome_get b hb, (hval b hb).1 hne⟩
  · intro b hb he
    rw [hsome_get b hb, (hval b hb).2 he]
  · intro v hv
    obtain ⟨b, hb, hbv⟩ := List.getElem_of_mem hv
    have e : bins.getD b 0 = v := by
      rw [List.getD_eq_getElem?_getD, List.getElem?_eq_getElem hb, hbv]
      rfl
    rw [← e]
    have hb2 : b < s.bin_count := hlen ▸ hb
    by_cases hne : binPixels_float s.bin_count cv_image b = []
    · rw [(hval b hb2).2 hne]
      exact ⟨le_refl 0, one_pos⟩
    · exact ⟨((hval b hb2).1 hne).1.le, ((hval b hb2).1 hne).2⟩

/-- C18, amended, on `sampleImage` with three bins and the library function
`q / 8`. -/
theorem convertShader_float_values_lt_one_witness :
    (1 ≤ sampleSonar.bin_count ∧ sampleSonar.bin_count ≤ 16777219 ∧
      (∀ i < sampleImage.cols * sampleImage.rows,
        (0 ≤ sampleImage.ptr (i * 3) ∧ sampleImage.ptr (i * 3) ≤ 1) ∧
        (0 ≤ sampleImage.ptr (i * 3 + 1) ∧ sampleImage.ptr (i * 3 + 1) ≤ 1)) ∧
      (∀ q : ℚ, -7 ≤ q → q ≤ 3 →
        -(999999 / 1000000) ≤ (fun r : ℚ => r / 8) q ∧ (fun r : ℚ => r / 8) q ≤ 9951 / 10000) ∧
      (∀ b < sampleSonar.bin_count,
        (binPixels_float sampleSonar.bin_count sampleImage b).length ≤ 80000)) ∧
    ∃ bins, sampleSonar.convertShader_float (fun r => r / 8) sampleImage = some bins ∧
      bins.length = sampleSonar.bin_count ∧ ∀ v ∈ bins, 0 ≤ v ∧ v < 1 := by
  have hbin : 1 ≤ sampleSonar.bin_count := by decide
  have hmax : sampleSonar.bin_count ≤ 16777219 := by decide
  have hch : ∀ i < sampleImage.cols * sampleImage.rows,
      (0 ≤ sampleImage.ptr (i * 3) ∧ sampleImage.ptr (i * 3) ≤ 1) ∧
      (0 ≤ sampleImage.ptr (i * 3 + 1) ∧ sampleImage.ptr (i * 3 + 1) ≤ 1) :=
    fun i _ => ⟨sampleImage_unit (i * 3), sampleImage_unit (i * 3 + 1)⟩
  have htanh : ∀ q : ℚ, -7 ≤ q → q ≤ 3 →
      -(999999 / 1000000) ≤ (fun r : ℚ => r / 8) q ∧ (fun r : ℚ => r / 8) q ≤ 9951 / 10000 := by
    intro q h0 h1
    constructor
    · show -(999999 / 1000000) ≤ q / 8
      linarith
    · show q / 8 ≤ 9951 / 10000
      linarith
  have hpop : ∀ b < sampleSonar.bin_count,
      (binPixels_float sampleSonar.bin_count sampleImage b).length ≤ 80000 := by
    intro b _
    have h1 := List.length_filter_le
      (fun i => decide (bin_idx_float sampleSonar.bin_count sampleImage i = (b : Int)))
      (List.range (sampleImage.cols * sampleImage.rows))
    rw [List.length_range] at h1
    have h2 : sampleImage.cols * sampleImage.rows = 8 := rfl
    unfold binPixels_float
    omega
  obtain ⟨⟨bins, h1, h2, _, _, h5⟩, _⟩ :=
    convertShader_float_values_lt_one (fun r => r / 8) sampleSonar sampleImage hbin hmax hch
      htanh hpop
  exact ⟨⟨hbin, hmax, hch, htanh, hpop⟩, bins, h1, h2, h5⟩

end gpu_sonar_simulation
